import Mathlib

/-!
# Terminal Combat: Gods vs Demons — combat resolution engine

A shallow embedding of `src/random/AI/AI-gen.cpp` and the properties of its
combat rules.

Modelling conventions.

* C++ `int` is modelled by `Int`. Signed overflow is undefined behaviour in
  C++, so the model describes the executions in which no overflow occurs.
* Console output (`cout`) is not modelled; console input (`cin >> choice`) is a
  list of pending integers, and a read from the empty list yields `none`.
* The two pseudo-random sources (`rand()` and the `mt19937` member `rng`) are
  streams of natural numbers; every draw consumes the head of its stream.
* `x * 1.5` and `x * 0.5` on an `int` are exact in binary64, so the conversion
  back to `int` is truncation toward zero of the exact product. `x * 0.7` and
  `x * 1.2` are rounded to binary64 before truncation and are modelled with the
  binary64 significands of the literals.
* A health ratio `(float)currentHealth / maxHealth` is computed in binary32:
  both operands are rounded to 24 significant bits (nearest, ties to even), the
  quotient is rounded once more, and the result is compared with the literal;
  a zero divisor gives the IEEE results (`-inf`, `NaN`, `+inf`). The rounded
  quotient can fall on the other side of a literal than the exact quotient
  once the health values reach `2^23` (see `ratioGt_of_le` and `ratioGt_of_lt`
  for the range in which the test against 0.75 is exact).
-/

namespace TerminalGame

/-! ## Numeric helpers -/

/-- Truncating conversion to `int` of `x * 1.5`, as in `totalDamage *= 1.5`. -/
def mulOneAndHalf (x : Int) : Int := Int.tdiv (3 * x) 2

/-- Number of binary digits of `n`, computed with `fuel` halvings. -/
def bitLenAux : Nat → Nat → Nat
  | 0, _ => 0
  | fuel + 1, n => if n = 0 then 0 else 1 + bitLenAux fuel (n / 2)

/-- Number of binary digits of `n` (`0` for `0`). -/
def bitLen (n : Nat) : Nat := bitLenAux n n

/-- Nearest integer to `n / 2^s`, ties to even. -/
def roundShift (n s : Nat) : Nat :=
  if s = 0 then n
  else
    let q := n / 2 ^ s
    let r := n % 2 ^ s
    let half := 2 ^ (s - 1)
    if r < half then q
    else if half < r then q + 1
    else if q % 2 = 0 then q else q + 1

/-- Nearest value with 24 significant bits to `n` (ties to even): the magnitude
of `(float)x` for an `int` `x` of magnitude `n`, and the rounding step of every
binary32 operation. No 32-bit `int` leaves the exponent range of binary32. -/
def roundTo24 (n : Nat) : Nat :=
  roundShift n (bitLen n - 24) * 2 ^ (bitLen n - 24)

/-- Twice the integer quotient `n / y`, with the lowest bit set when the
division leaves a remainder (a sticky bit): it rounds to 24 significant bits
as the exact quotient `2 * n / y` does, as long as it has more than 25 bits. -/
def quotSticky (n y : Nat) : Nat := 2 * (n / y) + (if n % y = 0 then 0 else 1)

/-- The binary32 quotient `x / y` of two binary32 values that are natural
numbers, `y ≠ 0`, as a pair `(m, k)` standing for `m / 2^k`: the exact quotient
is taken with `26 + bitLen y` fractional bits and a sticky bit, which gives at
least 27 bits when `x ≠ 0`, and rounded to 24 significant bits. -/
def floatDiv (x y : Nat) : Nat × Nat :=
  (roundTo24 (quotSticky (x * 2 ^ (26 + bitLen y)) y), 27 + bitLen y)

/-- The binary32 value of `(float)a / b` for two `int`s with `b ≠ 0`, as a pair
`(m, k)` standing for `m / 2^k`: `b` is converted to `float` as `a` is, the
magnitudes are divided in binary32 and the sign is the product of the signs. -/
def floatRatio (a b : Int) : Int × Nat :=
  (a.sign * b.sign * ((floatDiv (roundTo24 a.natAbs) (roundTo24 b.natAbs)).1 : Int),
   (floatDiv (roundTo24 a.natAbs) (roundTo24 b.natAbs)).2)

/-- Comparison `(float)a / b < lit` for a literal of value `lit = num / den`
with `0 < den`. A zero divisor gives `-inf` (below every literal) when `a < 0`,
and `NaN` or `+inf` (never below a literal) otherwise. -/
def ratioLt (a b num den : Int) : Bool :=
  if b = 0 then decide (a < 0)
  else decide ((floatRatio a b).1 * den < num * 2 ^ (floatRatio a b).2)

/-- Comparison `(float)a / b > lit` for a literal of value `lit = num / den`
with `0 < den`. A zero divisor gives `+inf` (above every literal) when `0 < a`,
and `NaN` or `-inf` (never above a literal) otherwise. -/
def ratioGt (a b num den : Int) : Bool :=
  if b = 0 then decide (0 < a)
  else decide (num * 2 ^ (floatRatio a b).2 < (floatRatio a b).1 * den)

/-- Truncating conversion to `int` of the binary64 product `t * lit`, where the
literal is `lit = mant / 2^e` with a 53-bit significand `mant`. The exact
product is rounded to 53 significant bits (nearest, ties to even) and the
result is truncated toward zero. -/
def mulDoubleTrunc (t : Int) (mant e : Nat) : Int :=
  let n := t.natAbs * mant
  let s := bitLen n - 53
  let mag : Nat := (roundShift n s * 2 ^ s) / 2 ^ e
  if t < 0 then -(mag : Int) else (mag : Int)

/-- Truncated `x * 0.7`; the binary64 literal `0.7` is `3152519739159347 / 2^52`. -/
def mulPoint7 (x : Int) : Int := mulDoubleTrunc x 3152519739159347 52

/-- Truncated `x * 1.2`; the binary64 literal `1.2` is `5404319552844595 / 2^52`. -/
def mulOnePoint2 (x : Int) : Int := mulDoubleTrunc x 5404319552844595 52

/-- Stream of raw outputs of a pseudo-random source. -/
abbrev RandStream := Nat → Nat

/-- Stream left after one draw. -/
def RandStream.tail (s : RandStream) : RandStream := fun n => s (n + 1)

/-! ## Gear -/

/-- Mirrors `enum class GearType`. -/
inductive GearType where
  | SWORD
  | SPEAR
  | ARROW
  deriving DecidableEq, Repr

/-- Mirrors `enum class GearLevel`. -/
inductive GearLevel where
  | NORMAL
  | DEMON
  | GOD
  deriving DecidableEq, Repr

/-- Mirrors `class Gear`. -/
structure Gear where
  name : String
  type : GearType
  level : GearLevel
  abilities : List String
  healthBonus : Int
  armorBonus : Int
  damageBonus : Int
  deriving DecidableEq, Repr

/-- Mirrors `Gear::initializeGear`: the type sets the three bonuses, then the
level appends its abilities and adjusts the bonuses. -/
def Gear.initializeGear (g : Gear) : Gear :=
  let g1 : Gear :=
    match g.type with
    | GearType.SWORD => { g with damageBonus := 15, armorBonus := 5, healthBonus := 10 }
    | GearType.SPEAR => { g with damageBonus := 20, armorBonus := 2, healthBonus := 5 }
    | GearType.ARROW => { g with damageBonus := 25, armorBonus := 0, healthBonus := 0 }
  match g1.level with
  | GearLevel.DEMON =>
    { g1 with
      abilities := g1.abilities ++ ["Soul Steal", "Poison", "Multi-Attack", "Death Blow"]
      damageBonus := g1.damageBonus + 10 }
  | GearLevel.GOD =>
    { g1 with
      abilities := g1.abilities ++ ["Restrain", "Holy Armor", "Holy Takedown", "Divine Protection"]
      armorBonus := g1.armorBonus + 20
      healthBonus := g1.healthBonus + 30 }
  | GearLevel.NORMAL => g1

/-- Mirrors the constructor `Gear(string n, GearType t, GearLevel l)`. -/
def Gear.mkGear (n : String) (t : GearType) (l : GearLevel) : Gear :=
  Gear.initializeGear
    { name := n, type := t, level := l, abilities := [],
      healthBonus := 0, armorBonus := 0, damageBonus := 0 }

/-! ## Character -/

/-- Mirrors `class Character`. -/
structure Character where
  name : String
  maxHealth : Int
  currentHealth : Int
  baseDamage : Int
  armor : Int
  equippedGear : Option Gear
  souls : Int
  worshippers : Int
  isPoisoned : Bool
  poisonTurns : Int
  isRestrained : Bool
  deriving DecidableEq, Repr

/-- Mirrors the constructor `Character(string n, int health, int damage, int arm)`. -/
def Character.mkCharacter (n : String) (health damage arm : Int) : Character :=
  { name := n, maxHealth := health, currentHealth := health, baseDamage := damage,
    armor := arm, equippedGear := none, souls := 0, worshippers := 0,
    isPoisoned := false, poisonTurns := 0, isRestrained := false }

/-- Mirrors `Character::getTotalDamage`. -/
def Character.getTotalDamage (c : Character) : Int :=
  match c.equippedGear with
  | none => c.baseDamage
  | some g =>
    let t0 := c.baseDamage + g.damageBonus
    let t1 :=
      if g.level = GearLevel.DEMON then
        let a := if ratioLt c.currentHealth c.maxHealth 1 2 then mulOneAndHalf t0 else t0
        let b := if ratioLt c.currentHealth c.maxHealth 1 4 then a * 2 else a
        b + c.souls * 2
      else t0
    if g.level = GearLevel.GOD then t1 + c.worshippers * 5 else t1

/-- Mirrors `Character::getTotalArmor`. -/
def Character.getTotalArmor (c : Character) : Int :=
  match c.equippedGear with
  | none => c.armor
  | some g =>
    let t0 := c.armor + g.armorBonus
    if g.level = GearLevel.GOD then
      if ratioGt c.currentHealth c.maxHealth 3 4 then mulOneAndHalf t0 else t0
    else t0

/-- Mirrors `Character::equipGear` for a non-null gear pointer. -/
def Character.equipGear (c : Character) (gear : Gear) : Character :=
  { c with
    equippedGear := some gear
    maxHealth := c.maxHealth + gear.healthBonus
    currentHealth := c.currentHealth + gear.healthBonus }

/-- Mirrors `Character::heal`. -/
def Character.heal (c : Character) (amount : Int) : Character :=
  { c with currentHealth := min (c.currentHealth + amount) c.maxHealth }

/-- Mirrors `Character::isAlive`. -/
def Character.isAlive (c : Character) : Bool := decide (0 < c.currentHealth)

/-- Tests `equippedGear && equippedGear->level == l`. -/
def Character.hasLevel (c : Character) (l : GearLevel) : Bool :=
  match c.equippedGear with
  | none => false
  | some g => decide (g.level = l)

/-- Outcome of one `takeDamage` call: the defender, the attacker (if one was
passed) and the `rand()` stream after the call. -/
structure Hit where
  self : Character
  attacker : Option Character
  rand : RandStream

/-- Mirrors `Character::takeDamage(int damage, Character* attacker)`. The
defender is `self`; `attacker = none` is the null pointer. `rand()` is drawn
exactly when the defender wears GOD gear, and the draw negates the hit when
`rand() % 100 < 20`. The Death Blow call `attacker->takeDamage(baseDamage)`
passes no attacker. -/
def Character.takeDamage (self : Character) (damage : Int) (attacker : Option Character)
    (rs : RandStream) : Hit :=
  let totalArmor := self.getTotalArmor
  let isGod := self.hasLevel GearLevel.GOD
  let rs1 := if isGod then rs.tail else rs
  if isGod && decide (rs 0 % 100 < 20) then
    { self := self, attacker := attacker, rand := rs1 }
  else
    let actual0 := max 1 (damage - totalArmor)
    let holy :=
      match attacker with
      | some a => a.hasLevel GearLevel.GOD && self.hasLevel GearLevel.DEMON
      | none => false
    let actualDamage := if holy then mulOneAndHalf actual0 else actual0
    let self1 := { self with currentHealth := self.currentHealth - actualDamage }
    if decide (self1.currentHealth ≤ 0) && self1.hasLevel GearLevel.DEMON then
      match attacker with
      | some a =>
        let r := a.takeDamage self1.baseDamage none rs1
        { self := self1, attacker := some r.self, rand := r.rand }
      | none => { self := self1, attacker := none, rand := rs1 }
    else { self := self1, attacker := attacker, rand := rs1 }
termination_by (if attacker.isSome then 1 else 0)
decreasing_by simp

/-- The body of `Character::takeDamage` again, with the depth of the call stack
bounded by `fuel`: every call, the outer one included, costs one unit, and
`none` means that the bound was reached. -/
def Character.takeDamageFuel : Nat → Character → Int → Option Character → RandStream → Option Hit
  | 0, _, _, _, _ => none
  | fuel + 1, self, damage, attacker, rs =>
    let totalArmor := self.getTotalArmor
    let isGod := self.hasLevel GearLevel.GOD
    let rs1 := if isGod then rs.tail else rs
    if isGod && decide (rs 0 % 100 < 20) then
      some { self := self, attacker := attacker, rand := rs1 }
    else
      let actual0 := max 1 (damage - totalArmor)
      let holy :=
        match attacker with
        | some a => a.hasLevel GearLevel.GOD && self.hasLevel GearLevel.DEMON
        | none => false
      let actualDamage := if holy then mulOneAndHalf actual0 else actual0
      let self1 := { self with currentHealth := self.currentHealth - actualDamage }
      if decide (self1.currentHealth ≤ 0) && self1.hasLevel GearLevel.DEMON then
        match attacker with
        | some a =>
          match Character.takeDamageFuel fuel a self1.baseDamage none rs1 with
          | some r => some { self := self1, attacker := some r.self, rand := r.rand }
          | none => none
        | none => some { self := self1, attacker := none, rand := rs1 }
      else some { self := self1, attacker := attacker, rand := rs1 }

/-- The fuel-bounded body run with a bound of 2, as a total function (the
bound is never reached, see `takeDamage_eq_unrolled`). It evaluates by plain
unfolding. -/
def Character.takeDamageUnrolled (self : Character) (damage : Int)
    (attacker : Option Character) (rs : RandStream) : Hit :=
  match Character.takeDamageFuel 2 self damage attacker rs with
  | some r => r
  | none => { self := self, attacker := attacker, rand := rs }

/-- Health printed by `takeDamage` after a hit: `max(0, currentHealth)`. -/
def Character.displayedHealth (c : Character) : Int := max 0 c.currentHealth

/-- The health bounds `0 ≤ currentHealth ≤ maxHealth` of an actor. -/
def Character.healthInBounds (c : Character) : Prop :=
  0 ≤ c.currentHealth ∧ c.currentHealth ≤ c.maxHealth

instance (c : Character) : Decidable c.healthInBounds := by
  unfold Character.healthInBounds
  exact inferInstance

/-! ## Game -/

/-- Mirrors `class Game`, together with the pending console input and the two
pseudo-random sources the game reads: `crand` is `rand()` and `rng` is the
`mt19937` member. -/
structure Game where
  player : Character
  enemies : List Character
  turn : Int
  input : List Int
  crand : RandStream
  rng : RandStream

/-- Models `cin >> choice`: the next pending integer, if any. -/
def Game.readInt (g : Game) : Option (Int × Game) :=
  match g.input with
  | [] => none
  | x :: rest => some (x, { g with input := rest })

/-- The player built by `Game::initializeGame`: `Character(playerName, 100, 20, 5)`. -/
def newPlayer (playerName : String) : Character :=
  Character.mkCharacter playerName 100 20 5

/-- Mirrors the `switch` of `Game::chooseStartingGear`. -/
def chooseStartingGear (choice : Int) : Gear :=
  if choice = 1 then Gear.mkGear "Bloodthirsty Blade" GearType.SWORD GearLevel.DEMON
  else if choice = 2 then Gear.mkGear "Divine Lance" GearType.SPEAR GearLevel.GOD
  else Gear.mkGear "Hunter's Bow" GearType.ARROW GearLevel.NORMAL

/-- First enemy of `Game::createEnemies`. -/
def goblin : Character :=
  (Character.mkCharacter "Goblin" 50 10 2).equipGear
    (Gear.mkGear "Rusty Dagger" GearType.SWORD GearLevel.NORMAL)

/-- Second enemy of `Game::createEnemies`. -/
def demonKnight : Character :=
  (Character.mkCharacter "Demon Knight" 80 15 8).equipGear
    (Gear.mkGear "Hell Sword" GearType.SWORD GearLevel.DEMON)

/-- Third enemy of `Game::createEnemies`. -/
def angelGuardian : Character :=
  (Character.mkCharacter "Angel Guardian" 120 12 15).equipGear
    (Gear.mkGear "Celestial Spear" GearType.SPEAR GearLevel.GOD)

/-- Mirrors `Game::createEnemies`. -/
def createEnemies : List Character := [goblin, demonKnight, angelGuardian]

/-- The player after `Game::chooseStartingGear` with choice 1 (Demon Sword). -/
def demonPlayer : Character := (newPlayer "Hero").equipGear (chooseStartingGear 1)

/-- The player after `Game::chooseStartingGear` with choice 2 (God Spear). -/
def godPlayer : Character := (newPlayer "Hero").equipGear (chooseStartingGear 2)

/-- The state built by `Game::initializeGame` before `gameLoop` starts. -/
def initializeGame (playerName : String) (gearChoice : Int) (input : List Int)
    (crand rng : RandStream) : Game :=
  { player := (newPlayer playerName).equipGear (chooseStartingGear gearChoice)
    enemies := createEnemies
    turn := 1
    input := input
    crand := crand
    rng := rng }

/-- One poisoned-actor block of `Game::processPoison`, the same for the player
and for every enemy. -/
def poisonTick (c : Character) (rs : RandStream) : Character × RandStream :=
  if c.isPoisoned then
    let r := c.takeDamage 5 none rs
    let c1 : Character := { r.self with poisonTurns := r.self.poisonTurns - 1 }
    let c2 : Character := if c1.poisonTurns ≤ 0 then { c1 with isPoisoned := false } else c1
    (c2, r.rand)
  else (c, rs)

/-- The `for (auto& enemy : enemies)` loop of `Game::processPoison`. -/
def poisonTickAll : List Character → RandStream → List Character × RandStream
  | [], rs => ([], rs)
  | e :: es, rs =>
    let r := poisonTick e rs
    let rest := poisonTickAll es r.2
    (r.1 :: rest.1, rest.2)

/-- Mirrors `Game::processPoison`. -/
def Game.processPoison (g : Game) : Game :=
  let p := poisonTick g.player g.crand
  let es := poisonTickAll g.enemies p.2
  { g with player := p.1, enemies := es.1, crand := es.2 }

/-- Mirrors `Game::performAttack`. The execution test compares the binary32
ratio with the binary64 literal `0.3`, which is `5404319552844595 / 2^54`. -/
def Game.performAttack (g : Game) : Option Game :=
  if g.enemies.isEmpty then some g
  else
    match g.readInt with
    | none => none
    | some (choice, g1) =>
      if 0 < choice ∧ choice ≤ (g1.enemies.length : Int) then
        match g1.enemies[(choice - 1).toNat]? with
        | none => some g1
        | some target =>
          let damage := g1.player.getTotalDamage
          let damage1 :=
            if g1.player.hasLevel GearLevel.DEMON
                && ratioLt target.currentHealth target.maxHealth
                  5404319552844595 18014398509481984 then
              mulOneAndHalf damage
            else damage
          let r := target.takeDamage damage1 (some g1.player) g1.crand
          some { g1 with
            enemies := g1.enemies.set (choice - 1).toNat r.self
            player := r.attacker.getD g1.player
            crand := r.rand }
      else some g1

/-- Mirrors `Game::usePoisonAbility`. -/
def Game.usePoisonAbility (g : Game) : Option Game :=
  if g.enemies.isEmpty then some g
  else
    match g.readInt with
    | none => none
    | some (choice, g1) =>
      if 0 < choice ∧ choice ≤ (g1.enemies.length : Int) then
        match g1.enemies[(choice - 1).toNat]? with
        | none => some g1
        | some target =>
          some { g1 with
            enemies := g1.enemies.set (choice - 1).toNat
              { target with isPoisoned := true, poisonTurns := 3 } }
      else some g1

/-- The `for (auto& enemy : enemies)` loop of `Game::useMultiAttack`: every enemy
takes the same `damage` with the player as attacker. -/
def multiAttackLoop (damage : Int) :
    Character → List Character → RandStream → Character × List Character × RandStream
  | p, [], rs => (p, [], rs)
  | p, e :: es, rs =>
    let r := e.takeDamage damage (some p) rs
    let rest := multiAttackLoop damage (r.attacker.getD p) es r.rand
    (rest.1, r.self :: rest.2.1, rest.2.2)

/-- Mirrors `Game::useMultiAttack`. -/
def Game.useMultiAttack (g : Game) : Game :=
  let damage := mulPoint7 g.player.getTotalDamage
  let r := multiAttackLoop damage g.player g.enemies g.crand
  { g with player := r.1, enemies := r.2.1, crand := r.2.2 }

/-- Mirrors `Game::useRestrain`. -/
def Game.useRestrain (g : Game) : Option Game :=
  if g.enemies.isEmpty then some g
  else
    match g.readInt with
    | none => none
    | some (choice, g1) =>
      if 0 < choice ∧ choice ≤ (g1.enemies.length : Int) then
        match g1.enemies[(choice - 1).toNat]? with
        | none => some g1
        | some target =>
          some { g1 with
            enemies := g1.enemies.set (choice - 1).toNat { target with isRestrained := true } }
      else some g1

/-- Mirrors `Game::useHolyTakedown`. -/
def Game.useHolyTakedown (g : Game) : Option Game :=
  if g.enemies.isEmpty then some g
  else
    match g.readInt with
    | none => none
    | some (choice, g1) =>
      if 0 < choice ∧ choice ≤ (g1.enemies.length : Int) then
        match g1.enemies[(choice - 1).toNat]? with
        | none => some g1
        | some target =>
          let damage := g1.player.getTotalDamage + g1.player.getTotalArmor
          let r := target.takeDamage damage (some g1.player) g1.crand
          some { g1 with
            enemies := g1.enemies.set (choice - 1).toNat r.self
            player := r.attacker.getD g1.player
            crand := r.rand }
      else some g1

/-- The `for (auto& enemy : enemies)` loop of `Game::useSoulSteal`, threading the
player's soul counter. The test `currentHealth < maxHealth * 0.3` is made in
binary64; for every `int` it agrees with `10 * currentHealth < 3 * maxHealth`. -/
def soulStealLoop : Int → List Character → RandStream → Int × List Character × RandStream
  | souls, [], rs => (souls, [], rs)
  | souls, e :: es, rs =>
    if 10 * e.currentHealth < 3 * e.maxHealth then
      let r := e.takeDamage 10 none rs
      let rest := soulStealLoop (souls + 1) es r.rand
      (rest.1, r.self :: rest.2.1, rest.2.2)
    else
      let rest := soulStealLoop souls es rs
      (rest.1, e :: rest.2.1, rest.2.2)

/-- Mirrors `Game::useSoulSteal`. -/
def Game.useSoulSteal (g : Game) : Game :=
  let r := soulStealLoop g.player.souls g.enemies g.crand
  { g with player := { g.player with souls := r.1 }, enemies := r.2.1, crand := r.2.2 }

/-- Mirrors `Game::useDivineProtection`. -/
def Game.useDivineProtection (g : Game) : Game :=
  { g with player := ({ g.player with worshippers := g.player.worshippers + 1 }).heal 15 }

/-- The dispatch on the ability name at the end of `Game::useSpecialAbility`. -/
def Game.dispatchAbility (g : Game) (ability : String) : Option Game :=
  if ability = "Poison" then g.usePoisonAbility
  else if ability = "Multi-Attack" then some g.useMultiAttack
  else if ability = "Restrain" then g.useRestrain
  else if ability = "Holy Takedown" then g.useHolyTakedown
  else if ability = "Soul Steal" then some g.useSoulSteal
  else if ability = "Divine Protection" then some g.useDivineProtection
  else some g

/-- Mirrors `Game::useSpecialAbility`. -/
def Game.useSpecialAbility (g : Game) : Option Game :=
  match g.player.equippedGear with
  | none => some g
  | some gear =>
    if gear.abilities.isEmpty then some g
    else
      match g.readInt with
      | none => none
      | some (choice, g1) =>
        if choice < 1 ∨ (gear.abilities.length : Int) < choice then some g1
        else
          match gear.abilities[(choice - 1).toNat]? with
          | none => some g1
          | some ability => g1.dispatchAbility ability

/-- Mirrors `Game::playerTurn`. A restrained player only loses the flag.
Choice 4 (`viewEnemyStatus`) changes nothing and asks again, so the recursion
consumes one pending input per call. -/
def Game.playerTurn (g : Game) : Option Game :=
  if g.player.isRestrained then
    some { g with player := { g.player with isRestrained := false } }
  else
    match h : g.input with
    | [] => none
    | choice :: rest =>
      let g1 : Game := { g with input := rest }
      if choice = 1 then g1.performAttack
      else if choice = 2 then g1.useSpecialAbility
      else if choice = 3 then some { g1 with player := g1.player.heal 20 }
      else if choice = 4 then g1.playerTurn
      else some g1
termination_by g.input.length
decreasing_by simp [h]

/-- The body of `Game::playerTurn` again, with the depth of the call stack
bounded by `fuel`: every call costs one unit, and `none` also means that the
bound was reached. -/
def Game.playerTurnFuel : Nat → Game → Option Game
  | 0, _ => none
  | fuel + 1, g =>
    if g.player.isRestrained then
      some { g with player := { g.player with isRestrained := false } }
    else
      match g.input with
      | [] => none
      | choice :: rest =>
        let g1 : Game := { g with input := rest }
        if choice = 1 then g1.performAttack
        else if choice = 2 then g1.useSpecialAbility
        else if choice = 3 then some { g1 with player := g1.player.heal 20 }
        else if choice = 4 then Game.playerTurnFuel fuel g1
        else some g1

/-- The fuel-bounded body of `playerTurn` with one unit per pending input and
one more, which is never used up (see `playerTurn_eq_unrolled`). It evaluates
by plain unfolding. -/
def Game.playerTurnUnrolled (g : Game) : Option Game :=
  Game.playerTurnFuel (g.input.length + 1) g

/-- The lambda passed to `remove_if` in `Game::gameLoop`, folded over the
roster: a dead enemy is dropped and, when the player wears DEMON gear
(`demon`), adds one soul. -/
def removeDead (demon : Bool) : Int → List Character → Int × List Character
  | souls, [] => (souls, [])
  | souls, e :: es =>
    if !e.isAlive then removeDead demon (if demon then souls + 1 else souls) es
    else
      let rest := removeDead demon souls es
      (rest.1, e :: rest.2)

/-- The "remove dead enemies" step of `Game::gameLoop`. -/
def Game.removeDeadEnemies (g : Game) : Game :=
  let r := removeDead (g.player.hasLevel GearLevel.DEMON) g.player.souls g.enemies
  { g with player := { g.player with souls := r.1 }, enemies := r.2 }

/-- State threaded through the loop of `Game::enemyTurns`. -/
structure TurnState where
  player : Character
  crand : RandStream
  rng : RandStream

/-- The call `player->takeDamage(damage, enemy.get())` made by an enemy. -/
def enemyHits (s : TurnState) (enemy : Character) (damage : Int) : TurnState × Character :=
  let r := s.player.takeDamage damage (some enemy) s.crand
  ({ s with player := r.self, crand := r.rand }, r.attacker.getD enemy)

/-- The body of the loop of `Game::enemyTurns` for one enemy. A draw of
`uniform_int_distribution<>(lo, hi)(rng)` is `lo + x % (hi - lo + 1)` for the
next element `x` of the `rng` stream; the second draw is made only when the
first operand of `&&` holds. -/
def enemyTurn (s : TurnState) (enemy : Character) : TurnState × Character :=
  if !enemy.isAlive then (s, enemy)
  else if enemy.isRestrained then (s, { enemy with isRestrained := false })
  else
    let action : Nat := 1 + s.rng 0 % 10
    let s1 : TurnState := { s with rng := s.rng.tail }
    if action ≤ 6 then enemyHits s1 enemy enemy.getTotalDamage
    else if action ≤ 8 ∧ enemy.equippedGear.isSome then
      if enemy.hasLevel GearLevel.DEMON then
        if !s1.player.isPoisoned then
          let s2 : TurnState := { s1 with rng := s1.rng.tail }
          if 1 + s1.rng 0 % 2 = 1 then
            ({ s2 with player := { s2.player with isPoisoned := true, poisonTurns := 3 } }, enemy)
          else enemyHits s2 enemy (mulOnePoint2 enemy.getTotalDamage)
        else enemyHits s1 enemy (mulOnePoint2 enemy.getTotalDamage)
      else if enemy.hasLevel GearLevel.GOD then
        if !s1.player.isRestrained then
          let s2 : TurnState := { s1 with rng := s1.rng.tail }
          if 1 + s1.rng 0 % 3 = 1 then
            ({ s2 with player := { s2.player with isRestrained := true } }, enemy)
          else
            enemyHits s2 enemy (Int.tdiv (2 * enemy.getTotalDamage + enemy.getTotalArmor) 2)
        else enemyHits s1 enemy (Int.tdiv (2 * enemy.getTotalDamage + enemy.getTotalArmor) 2)
      else enemyHits s1 enemy enemy.getTotalDamage
    else (s1, enemy.heal 10)

/-- The `for (auto& enemy : enemies)` loop of `Game::enemyTurns`. -/
def enemyTurnsLoop : TurnState → List Character → TurnState × List Character
  | s, [] => (s, [])
  | s, e :: es =>
    let r := enemyTurn s e
    let rest := enemyTurnsLoop r.1 es
    (rest.1, r.2 :: rest.2)

/-- Mirrors `Game::enemyTurns`. -/
def Game.enemyTurns (g : Game) : Game :=
  let r := enemyTurnsLoop { player := g.player, crand := g.crand, rng := g.rng } g.enemies
  { g with player := r.1.player, enemies := r.2, crand := r.1.crand, rng := r.1.rng }

/-- One iteration of the `while` loop of `Game::gameLoop`. -/
def Game.gameRound (g : Game) : Option Game :=
  match g.processPoison.playerTurn with
  | none => none
  | some g2 =>
    let g3 := g2.removeDeadEnemies
    if g3.enemies.isEmpty then some g3
    else some { g3.enemyTurns with turn := g3.turn + 1 }

/-- Mirrors the `while` loop of `Game::gameLoop`, run for at most `fuel`
rounds; `none` when the fuel or the input runs out first. -/
def Game.gameLoop : Nat → Game → Option Game
  | 0, g => if g.player.isAlive && !g.enemies.isEmpty then none else some g
  | fuel + 1, g =>
    if g.player.isAlive && !g.enemies.isEmpty then
      match g.gameRound with
      | none => none
      | some g1 => Game.gameLoop fuel g1
    else some g

/-- A mid-match state: the Demon-Sword player at full health, with the two
souls of the two enemies already removed, faces the Goblin, down to 12 health,
as the last enemy; the pending input attacks target 1. -/
def finishingBlowGame : Game :=
  { player := { demonPlayer with souls := 2 }
    enemies := [{ goblin with currentHealth := 12 }]
    turn := 4
    input := [1, 1]
    crand := fun _ => 0
    rng := fun _ => 0 }

/-- A whole match from the start: the player picks the Demon Sword and uses
Multi-Attack (entry 3 of the ability menu) in rounds 1 and 2. The action rolls
make every enemy attack, except that the Demon Knight poisons the player in
round 1 and the Angel Guardian restrains the player in round 2; no dodge roll
fires. -/
def reachableMatch : Game :=
  initializeGame "Hero" 1 [2, 3, 2, 3] (fun _ => 50) (fun n => if n = 1 ∨ n = 6 then 6 else 0)

/-- During the first `fuel` rounds of `gameLoop` from `g`, no player turn
changes the player's soul counter. -/
def Game.noSoulStolen : Nat → Game → Prop
  | 0, _ => True
  | fuel + 1, g =>
    (∀ g2, g.processPoison.playerTurn = some g2 → g2.player.souls = g.player.souls) ∧
    (∀ g1, g.gameRound = some g1 → Game.noSoulStolen fuel g1)

/-! ## Subscripts evaluated by the targeted operations -/

/-- The subscripts evaluated by the menu loop
`for (size_t i = 0; i < enemies.size(); i++)` of a targeted operation over a
roster of `n` enemies, in order of evaluation, when each printed line reads
`enemies[i]` `reads` times. -/
def menuSubscripts (reads : Nat) : Nat → List Int
  | 0 => []
  | n + 1 => menuSubscripts reads n ++ List.replicate reads (n : Int)

/-- Every subscript `enemies[k]` that one targeted operation evaluates, in
order: none for an empty roster (the early `return`); otherwise those of the
menu loop and then, when the selection passes the range test,
`enemies[choice - 1]` as often as the guarded block names it (`blockReads`). -/
def Game.targetSubscripts (menuReads blockReads : Nat) (g : Game) : List Int :=
  if g.enemies.isEmpty then []
  else
    menuSubscripts menuReads g.enemies.length ++
      match g.readInt with
      | none => []
      | some (choice, g1) =>
        if 0 < choice ∧ choice ≤ (g1.enemies.length : Int) then
          List.replicate blockReads (choice - 1)
        else []

/-- Subscripts evaluated by `Game::performAttack`: a menu line reads the name,
`currentHealth` and `maxHealth` of `enemies[i]`; the block binds
`enemies[choice - 1]` once. -/
def Game.performAttackSubscripts (g : Game) : List Int := g.targetSubscripts 3 1

/-- Subscripts evaluated by `Game::usePoisonAbility`: a menu line reads the name
of `enemies[i]`; the block names `enemies[choice - 1]` three times. -/
def Game.usePoisonAbilitySubscripts (g : Game) : List Int := g.targetSubscripts 1 3

/-- Subscripts evaluated by `Game::useRestrain`: a menu line reads the name of
`enemies[i]`; the block names `enemies[choice - 1]` twice. -/
def Game.useRestrainSubscripts (g : Game) : List Int := g.targetSubscripts 1 2

/-- Subscripts evaluated by `Game::useHolyTakedown`: a menu line reads the name
of `enemies[i]`; the block names `enemies[choice - 1]` once. -/
def Game.useHolyTakedownSubscripts (g : Game) : List Int := g.targetSubscripts 1 1

/-! ## The poison invariant and the states of a match -/

/-- The poison invariant of one actor: `isPoisoned` is set exactly while
`poisonTurns` is positive, and `poisonTurns` lies within `0 .. 3`. -/
def Character.poisonConsistent (c : Character) : Prop :=
  (c.isPoisoned = true ↔ 0 < c.poisonTurns) ∧ 0 ≤ c.poisonTurns ∧ c.poisonTurns ≤ 3

instance (c : Character) : Decidable c.poisonConsistent := by
  unfold Character.poisonConsistent
  exact inferInstance

/-- The poison invariant of a game state: it holds of the player and of every
enemy of the roster. -/
def Game.poisonConsistent (g : Game) : Prop :=
  g.player.poisonConsistent ∧ ∀ e ∈ g.enemies, e.poisonConsistent

instance (g : Game) : Decidable g.poisonConsistent := by
  unfold Game.poisonConsistent
  exact inferInstance

/-- The states one iteration of the loop of `Game::gameLoop` passes through
from `g`, before its closing `turn++`: after `processPoison`, after
`playerTurn`, after the cleanup and, unless the roster is empty then, after
`enemyTurns`. The list stops where the input runs out. -/
def Game.roundStates (g : Game) : List Game :=
  g.processPoison ::
    match g.processPoison.playerTurn with
    | none => []
    | some g2 =>
      g2 :: g2.removeDeadEnemies ::
        (if g2.removeDeadEnemies.enemies.isEmpty then []
         else [g2.removeDeadEnemies.enemyTurns])

/-- Every state of the match between two steps of `Game::gameLoop` during its
first `fuel` iterations from `g`: `g` itself, the states inside each iteration
and the state that starts the next one. -/
def Game.matchStates : Nat → Game → List Game
  | 0, g => [g]
  | fuel + 1, g =>
    if g.player.isAlive && !g.enemies.isEmpty then
      g :: (g.roundStates ++
        match g.gameRound with
        | none => []
        | some g1 => Game.matchStates fuel g1)
    else [g]

/-! ## Arithmetic of the multipliers -/

theorem mulOneAndHalf_eq_ediv {x : Int} (hx : 0 ≤ x) : mulOneAndHalf x = 3 * x / 2 := by
  unfold mulOneAndHalf
  exact Int.tdiv_eq_ediv (by omega) (by omega)

theorem mulOneAndHalf_ge {x : Int} (hx : 1 ≤ x) : x ≤ mulOneAndHalf x := by
  rw [mulOneAndHalf_eq_ediv (by omega)]
  omega

theorem mulOneAndHalf_le {x : Int} (hx : 0 ≤ x) : 2 * mulOneAndHalf x ≤ 3 * x := by
  rw [mulOneAndHalf_eq_ediv hx]
  omega

theorem mulOneAndHalf_neg (x : Int) : mulOneAndHalf (-x) = -mulOneAndHalf x := by
  unfold mulOneAndHalf
  rw [mul_neg, Int.neg_tdiv]

/-- Truncation toward zero keeps `x * 1.5` within half a unit. -/
theorem mulOneAndHalf_bounds (x : Int) :
    3 * x - 1 ≤ 2 * mulOneAndHalf x ∧ 2 * mulOneAndHalf x ≤ 3 * x + 1 := by
  rcases le_or_lt 0 x with hx | hx
  · rw [mulOneAndHalf_eq_ediv hx]
    omega
  · have h := mulOneAndHalf_eq_ediv (x := -x) (by omega)
    rw [mulOneAndHalf_neg] at h
    omega

theorem mulOneAndHalf_even {x : Int} (hx : x % 2 = 0) : 2 * mulOneAndHalf x = 3 * x := by
  rcases le_or_lt 0 x with h0 | h0
  · rw [mulOneAndHalf_eq_ediv h0]
    omega
  · have h := mulOneAndHalf_eq_ediv (x := -x) (by omega)
    rw [mulOneAndHalf_neg] at h
    omega

/-! ## Binary32 health ratios: the number of bits -/

theorem bitLenAux_spec (fuel n : Nat) (h : n ≤ fuel) :
    n < 2 ^ bitLenAux fuel n ∧ (n ≠ 0 → 2 ^ (bitLenAux fuel n - 1) ≤ n) := by
  induction fuel generalizing n with
  | zero =>
    have h0 : n = 0 := by omega
    subst h0
    simp [bitLenAux]
  | succ f ih =>
    simp only [bitLenAux]
    split_ifs with h0
    · subst h0
      simp
    · obtain ⟨a, b⟩ := ih (n / 2) (by omega)
      constructor
      · rw [pow_add, pow_one]
        omega
      · intro _
        simp only [Nat.add_sub_cancel_left]
        by_cases h2 : n / 2 = 0
        · have hL : bitLenAux f (n / 2) = 0 := by
            rw [h2]
            cases f <;> simp [bitLenAux]
          rw [hL]
          simp
          omega
        · have hb := b h2
          have hpos : 1 ≤ bitLenAux f (n / 2) := by
            by_contra hc
            have : bitLenAux f (n / 2) = 0 := by omega
            rw [this] at a
            simp at a
            exact h2 a
          have e : 2 ^ bitLenAux f (n / 2) = 2 * 2 ^ (bitLenAux f (n / 2) - 1) := by
            rw [← pow_succ']
            congr 1
            omega
          rw [e]
          omega

theorem lt_two_pow_bitLen (n : Nat) : n < 2 ^ bitLen n :=
  (bitLenAux_spec n n le_rfl).1

theorem two_pow_bitLen_le (n : Nat) (h : n ≠ 0) : 2 ^ (bitLen n - 1) ≤ n :=
  (bitLenAux_spec n n le_rfl).2 h

theorem bitLen_le_of_lt (n j : Nat) (h : n < 2 ^ j) : bitLen n ≤ j := by
  by_cases h0 : n = 0
  · subst h0
    simp [bitLen, bitLenAux]
  · have h1 := two_pow_bitLen_le n h0
    by_contra hc
    have : 2 ^ j ≤ 2 ^ (bitLen n - 1) := Nat.pow_le_pow_right (by decide) (by omega)
    omega

theorem lt_bitLen_of_le (n j : Nat) (h : 2 ^ j ≤ n) : j < bitLen n := by
  have h1 := lt_two_pow_bitLen n
  by_contra hc
  have : 2 ^ bitLen n ≤ 2 ^ j := Nat.pow_le_pow_right (by decide) (by omega)
  omega

theorem bitLen_eq (n j : Nat) (h1 : 2 ^ j ≤ n) (h2 : n < 2 ^ (j + 1)) : bitLen n = j + 1 := by
  have a := lt_bitLen_of_le n j h1
  have b := bitLen_le_of_lt n (j + 1) h2
  omega

theorem bitLen_mono {n m : Nat} (h : n ≤ m) : bitLen n ≤ bitLen m :=
  bitLen_le_of_lt n _ (lt_of_le_of_lt h (lt_two_pow_bitLen m))

theorem bitLen_pos {n : Nat} (h : n ≠ 0) : 1 ≤ bitLen n :=
  lt_bitLen_of_le n 0 (by simp; omega)

theorem bitLen_double {n : Nat} (h : n ≠ 0) : bitLen (2 * n) = bitLen n + 1 := by
  have hp := bitLen_pos h
  have a := two_pow_bitLen_le n h
  have b := lt_two_pow_bitLen n
  have e : 2 ^ bitLen n = 2 * 2 ^ (bitLen n - 1) := by
    rw [← pow_succ']
    congr 1
    omega
  apply bitLen_eq
  · rw [e]; omega
  · rw [pow_succ]; omega

/-! ## Rounding to a unit of `2^s` -/

theorem two_pow_succ_pred {s : Nat} (hs : s ≠ 0) : 2 ^ s = 2 * 2 ^ (s - 1) := by
  rw [← pow_succ']
  congr 1
  omega

/-- The three cases of `roundShift`: below the midpoint, above it, and the tie. -/
theorem roundShift_cases (n s : Nat) (hs : s ≠ 0) :
    (n % 2 ^ s < 2 ^ (s - 1) ∧ roundShift n s = n / 2 ^ s) ∨
    (2 ^ (s - 1) < n % 2 ^ s ∧ roundShift n s = n / 2 ^ s + 1) ∨
    (n % 2 ^ s = 2 ^ (s - 1) ∧
      (roundShift n s = n / 2 ^ s ∨ roundShift n s = n / 2 ^ s + 1)) := by
  simp only [roundShift, hs, if_false]
  split_ifs with h1 h2 h3
  · exact Or.inl ⟨h1, rfl⟩
  · exact Or.inr (Or.inl ⟨h2, rfl⟩)
  · exact Or.inr (Or.inr ⟨by omega, Or.inl rfl⟩)
  · exact Or.inr (Or.inr ⟨by omega, Or.inr rfl⟩)

theorem roundShift_zero (n : Nat) : roundShift n 0 = n := by
  simp [roundShift]

theorem div_le_roundShift (n s : Nat) : n / 2 ^ s ≤ roundShift n s := by
  by_cases hs : s = 0
  · subst hs
    simp [roundShift]
  · rcases roundShift_cases n s hs with ⟨_, h⟩ | ⟨_, h⟩ | ⟨_, h | h⟩ <;> omega

theorem roundShift_le_succ (n s : Nat) : roundShift n s ≤ n / 2 ^ s + 1 := by
  by_cases hs : s = 0
  · subst hs
    simp [roundShift]
  · rcases roundShift_cases n s hs with ⟨_, h⟩ | ⟨_, h⟩ | ⟨_, h | h⟩ <;> omega

/-- Rounding never goes below a multiple of the unit that the argument
reaches. -/
theorem le_roundShift (n s p : Nat) (h : p * 2 ^ s ≤ n) : p ≤ roundShift n s :=
  le_trans ((Nat.le_div_iff_mul_le (by positivity)).mpr h) (div_le_roundShift n s)

/-- Rounding never goes above a multiple of the unit that bounds the
argument. -/
theorem roundShift_le (n s p : Nat) (h : n ≤ p * 2 ^ s) : roundShift n s ≤ p := by
  by_cases hs : s = 0
  · subst hs
    simpa [roundShift] using h
  · have hq : n / 2 ^ s ≤ p := Nat.div_le_of_le_mul (by rw [mul_comm]; exact h)
    have hdm := Nat.div_add_mod n (2 ^ s)
    have hP := two_pow_succ_pred hs
    have hh : 0 < 2 ^ (s - 1) := by positivity
    by_cases hlt : n / 2 ^ s < p
    · have := roundShift_le_succ n s
      omega
    · have he : n / 2 ^ s = p := by omega
      rw [he, mul_comm] at hdm
      have hr : n % 2 ^ s = 0 := by omega
      rcases roundShift_cases n s hs with ⟨_, h'⟩ | ⟨h', _⟩ | ⟨h', _⟩ <;> omega

/-- An argument strictly above the midpoint over a multiple of the unit rounds
to the next multiple at least. -/
theorem succ_le_roundShift (n s p : Nat) (hs : s ≠ 0) (h : p * 2 ^ s + 2 ^ (s - 1) < n) :
    p + 1 ≤ roundShift n s := by
  have hq : p ≤ n / 2 ^ s :=
    (Nat.le_div_iff_mul_le (by positivity)).mpr (le_trans (Nat.le_add_right _ _) (le_of_lt h))
  have hdm := Nat.div_add_mod n (2 ^ s)
  by_cases hlt : p < n / 2 ^ s
  · have := div_le_roundShift n s
    omega
  · have he : n / 2 ^ s = p := by omega
    rw [he, mul_comm] at hdm
    rcases roundShift_cases n s hs with ⟨h', _⟩ | ⟨_, h'⟩ | ⟨h', _⟩ <;> omega

theorem roundShift_mono (s : Nat) {n m : Nat} (h : n ≤ m) : roundShift n s ≤ roundShift m s := by
  by_cases hs : s = 0
  · subst hs
    simpa [roundShift] using h
  · have hq : n / 2 ^ s ≤ m / 2 ^ s := Nat.div_le_div_right h
    by_cases hlt : n / 2 ^ s < m / 2 ^ s
    · have a := roundShift_le_succ n s
      have b := div_le_roundShift m s
      omega
    · have he : n / 2 ^ s = m / 2 ^ s := by omega
      have h1 := Nat.div_add_mod n (2 ^ s)
      have h2 := Nat.div_add_mod m (2 ^ s)
      rw [he] at h1
      have hr : n % 2 ^ s ≤ m % 2 ^ s := by omega
      simp only [roundShift, hs, if_false, he]
      split_ifs <;> omega

theorem roundShift_double (n s : Nat) (hs : s ≠ 0) :
    roundShift (2 * n) (s + 1) = roundShift n s := by
  have e1 : 2 * n / 2 ^ (s + 1) = n / 2 ^ s := by
    rw [pow_succ', Nat.mul_div_mul_left _ _ (by decide)]
  have e2 : 2 * n % 2 ^ (s + 1) = 2 * (n % 2 ^ s) := by
    rw [pow_succ', Nat.mul_mod_mul_left]
  have e3 : 2 ^ (s + 1 - 1) = 2 * 2 ^ (s - 1) := by
    rw [Nat.add_sub_cancel]
    exact two_pow_succ_pred hs
  simp only [roundShift, hs, if_false, Nat.succ_ne_zero, e1, e2, e3]
  split_ifs <;> omega

theorem roundShift_double_one (n : Nat) : roundShift (2 * n) 1 = n := by
  simp [roundShift]

/-- Rounding moves the argument by at most half a unit. -/
theorem roundShift_err (n s : Nat) :
    2 * (roundShift n s * 2 ^ s) ≤ 2 * n + 2 ^ s ∧
      2 * n ≤ 2 * (roundShift n s * 2 ^ s) + 2 ^ s := by
  by_cases hs : s = 0
  · subst hs
    simp [roundShift]
  · have hdm := Nat.div_add_mod n (2 ^ s)
    have hP := two_pow_succ_pred hs
    have hlt := Nat.mod_lt n (show 0 < 2 ^ s by positivity)
    rw [mul_comm] at hdm
    rcases roundShift_cases n s hs with ⟨h1, h⟩ | ⟨h1, h⟩ | ⟨h1, h | h⟩ <;>
      rw [h] <;> (try rw [Nat.add_mul, Nat.one_mul]) <;> omega

/-! ## Rounding to 24 significant bits -/

theorem bitLen_zero : bitLen 0 = 0 := rfl

theorem roundTo24_zero : roundTo24 0 = 0 := by
  simp [roundTo24, bitLen_zero, roundShift]

/-- A value with at most 24 significant bits is kept. -/
theorem roundTo24_fixed (t j : Nat) (ht : t < 2 ^ 24) : roundTo24 (t * 2 ^ j) = t * 2 ^ j := by
  have hlt : t * 2 ^ j < 2 ^ (24 + j) := by
    rw [pow_add]
    exact Nat.mul_lt_mul_of_pos_right ht (by positivity)
  have hL := bitLen_le_of_lt _ _ hlt
  have hs : bitLen (t * 2 ^ j) - 24 ≤ j := by omega
  have e : t * 2 ^ j = t * 2 ^ (j - (bitLen (t * 2 ^ j) - 24)) * 2 ^ (bitLen (t * 2 ^ j) - 24) := by
    rw [mul_assoc, ← pow_add]
    congr 2
    omega
  have h1 := le_roundShift (t * 2 ^ j) (bitLen (t * 2 ^ j) - 24) _ (le_of_eq e.symm)
  have h2 := roundShift_le (t * 2 ^ j) (bitLen (t * 2 ^ j) - 24) _ (le_of_eq e)
  have h3 : roundShift (t * 2 ^ j) (bitLen (t * 2 ^ j) - 24)
      = t * 2 ^ (j - (bitLen (t * 2 ^ j) - 24)) := le_antisymm h2 h1
  unfold roundTo24
  rw [h3]
  exact e.symm

theorem roundTo24_pow (j : Nat) : roundTo24 (2 ^ j) = 2 ^ j := by
  have := roundTo24_fixed 1 j (by decide)
  simpa using this

/-- Integers up to `2^24` are kept. -/
theorem roundTo24_exact {n : Nat} (h : n ≤ 2 ^ 24) : roundTo24 n = n := by
  by_cases hlt : n < 2 ^ 24
  · have := roundTo24_fixed n 0 hlt
    simpa using this
  · have he : n = 2 ^ 24 := by omega
    rw [he]
    exact roundTo24_pow 24

theorem roundTo24_le_pow (n : Nat) : roundTo24 n ≤ 2 ^ bitLen n := by
  have h := le_of_lt (lt_two_pow_bitLen n)
  have e : 2 ^ bitLen n = 2 ^ (bitLen n - (bitLen n - 24)) * 2 ^ (bitLen n - 24) := by
    rw [← pow_add]
    congr 1
    omega
  unfold roundTo24
  rw [e]
  exact Nat.mul_le_mul_right _ (roundShift_le _ _ _ (by rw [← e]; exact h))

theorem pow_le_roundTo24 {n : Nat} (hn : n ≠ 0) : 2 ^ (bitLen n - 1) ≤ roundTo24 n := by
  have h := two_pow_bitLen_le n hn
  have hp := bitLen_pos hn
  have e : 2 ^ (bitLen n - 1) = 2 ^ (bitLen n - 1 - (bitLen n - 24)) * 2 ^ (bitLen n - 24) := by
    rw [← pow_add]
    congr 1
    omega
  unfold roundTo24
  rw [e]
  exact Nat.mul_le_mul_right _ (le_roundShift _ _ _ (by rw [← e]; exact h))

/-- Rounding to 24 significant bits is monotone. -/
theorem roundTo24_mono {n m : Nat} (h : n ≤ m) : roundTo24 n ≤ roundTo24 m := by
  have hb := bitLen_mono h
  by_cases he : bitLen n = bitLen m
  · unfold roundTo24
    rw [he]
    exact Nat.mul_le_mul_right _ (roundShift_mono _ h)
  · have hm : m ≠ 0 := by
      intro h0
      subst h0
      rw [bitLen_zero] at hb he
      omega
    have h1 := roundTo24_le_pow n
    have h2 := pow_le_roundTo24 hm
    have h3 : 2 ^ bitLen n ≤ 2 ^ (bitLen m - 1) := Nat.pow_le_pow_right (by decide) (by omega)
    omega

/-- Doubling commutes with rounding. -/
theorem roundTo24_double (n : Nat) : roundTo24 (2 * n) = 2 * roundTo24 n := by
  by_cases hn : n = 0
  · subst hn
    simp [roundTo24_zero]
  · have hd := bitLen_double hn
    unfold roundTo24
    rw [hd]
    by_cases hs : bitLen n - 24 = 0
    · by_cases h24 : bitLen n = 24
      · have e1 : bitLen n + 1 - 24 = 1 := by omega
        rw [e1, hs, roundShift_double_one, roundShift_zero]
        ring
      · have e1 : bitLen n + 1 - 24 = 0 := by omega
        rw [e1, hs, roundShift_zero, roundShift_zero]
        ring
    · have e1 : bitLen n + 1 - 24 = (bitLen n - 24) + 1 := by omega
      rw [e1, roundShift_double _ _ hs, pow_succ]
      ring

/-- The relative error of rounding is at most `2^-24`. -/
theorem roundTo24_err (n : Nat) :
    2 ^ 24 * roundTo24 n ≤ (2 ^ 24 + 1) * n ∧ (2 ^ 24 - 1) * n ≤ 2 ^ 24 * roundTo24 n := by
  by_cases hs : bitLen n - 24 = 0
  · have e : roundTo24 n = n := by
      simp [roundTo24, hs, roundShift]
    rw [e]
    constructor <;> apply Nat.mul_le_mul_right <;> norm_num
  · have hn : n ≠ 0 := by
      intro h0
      rw [h0, bitLen_zero] at hs
      omega
    have h1 := two_pow_bitLen_le n hn
    have e : 2 ^ (bitLen n - 1) = 2 ^ 23 * 2 ^ (bitLen n - 24) := by
      rw [← pow_add]
      congr 1
      omega
    rw [e] at h1
    obtain ⟨a, b⟩ := roundShift_err n (bitLen n - 24)
    unfold roundTo24
    generalize roundShift n (bitLen n - 24) * 2 ^ (bitLen n - 24) = F at *
    generalize 2 ^ (bitLen n - 24) = P at *
    norm_num at h1 ⊢
    omega

theorem roundTo24_pos {n : Nat} (h : 0 < n) : 0 < roundTo24 n := by
  have := roundTo24_mono (show 1 ≤ n from h)
  rw [roundTo24_exact (by norm_num)] at this
  omega

/-- Above the midpoint over a 24-bit value of the same magnitude, rounding
reaches the next 24-bit value. -/
theorem lt_roundTo24 (n t j : Nat) (hj : j ≠ 0) (hn : bitLen n = j + 24)
    (h : t * 2 ^ j + 2 ^ (j - 1) < n) : (t + 1) * 2 ^ j ≤ roundTo24 n := by
  unfold roundTo24
  have e : bitLen n - 24 = j := by omega
  rw [e]
  exact Nat.mul_le_mul_right _ (succ_le_roundShift n j t hj h)

/-! ## The quotient with a sticky bit -/

theorem quotSticky_le (n y t : Nat) (h : n ≤ t * y) : quotSticky n y ≤ 2 * t := by
  unfold quotSticky
  have hq : n / y ≤ t := Nat.div_le_of_le_mul (by rw [mul_comm]; exact h)
  have hdm := Nat.div_add_mod n y
  by_cases hlt : n / y < t
  · split_ifs <;> omega
  · have he : n / y = t := by omega
    rw [he, mul_comm] at hdm
    have hr : n % y = 0 := by omega
    simp [hr, he]

theorem le_quotSticky (n y t : Nat) (hy : 0 < y) (h : t * y ≤ n) : 2 * t ≤ quotSticky n y := by
  unfold quotSticky
  have hq : t ≤ n / y := (Nat.le_div_iff_mul_le hy).mpr h
  omega

theorem lt_quotSticky (n y t : Nat) (hy : 0 < y) (h : t * y < n) :
    2 * t + 1 ≤ quotSticky n y := by
  unfold quotSticky
  have hq : t ≤ n / y := (Nat.le_div_iff_mul_le hy).mpr (le_of_lt h)
  have hdm := Nat.div_add_mod n y
  by_cases hlt : t < n / y
  · omega
  · have he : n / y = t := by omega
    rw [he, mul_comm] at hdm
    have hr : n % y ≠ 0 := by omega
    simp [hr, he]

theorem quotSticky_lt (n y t : Nat) (hy : 0 < y) (h : n < t * y) : quotSticky n y < 2 * t := by
  unfold quotSticky
  have hq : n / y < t := (Nat.div_lt_iff_lt_mul hy).mpr h
  split_ifs <;> omega

theorem scale_le {a b x y : Nat} (P : Nat) (h : a * y ≤ b * x) : a * P * y ≤ x * (b * P) := by
  calc a * P * y = P * (a * y) := by ring
    _ ≤ P * (b * x) := Nat.mul_le_mul_left P h
    _ = x * (b * P) := by ring

theorem scale_ge {a b x y : Nat} (P : Nat) (h : b * x ≤ a * y) : x * (b * P) ≤ a * P * y := by
  calc x * (b * P) = P * (b * x) := by ring
    _ ≤ P * (a * y) := Nat.mul_le_mul_left P h
    _ = a * P * y := by ring

theorem scale_lt {a b x y P : Nat} (hP : 0 < P) (h : a * y < b * x) :
    a * P * y < x * (b * P) := by
  calc a * P * y = P * (a * y) := by ring
    _ < P * (b * x) := Nat.mul_lt_mul_of_pos_left h hP
    _ = x * (b * P) := by ring

theorem scale_gt {a b x y P : Nat} (hP : 0 < P) (h : b * x < a * y) :
    x * (b * P) < a * P * y := by
  calc x * (b * P) = P * (b * x) := by ring
    _ < P * (a * y) := Nat.mul_lt_mul_of_pos_left h hP
    _ = a * P * y := by ring

/-! ## The binary32 quotient -/

/-- A quotient of at least one half rounds to at least one half. -/
theorem floatDiv_ge_half {x y : Nat} (hy : 0 < y) (h : y ≤ 2 * x) :
    2 ^ (26 + bitLen y) ≤ (floatDiv x y).1 := by
  have e : 2 ^ (26 + bitLen y) = 2 * 2 ^ (25 + bitLen y) := by
    rw [← pow_succ']
    congr 1
    omega
  have hq := le_quotSticky (x * 2 ^ (26 + bitLen y)) y (2 ^ (25 + bitLen y)) hy (by
    rw [e]
    have := scale_le (2 ^ (25 + bitLen y)) (show 1 * y ≤ 2 * x by omega)
    simpa using this)
  rw [← e] at hq
  have := roundTo24_mono hq
  rw [roundTo24_pow] at this
  exact this

/-- A quotient of at most `2/9` rounds to at most `15/64`. -/
theorem floatDiv_le_of_fifth {x y : Nat} (h : 9 * x ≤ 2 * y) :
    (floatDiv x y).1 ≤ 15 * 2 ^ (21 + bitLen y) := by
  have e : 2 ^ (26 + bitLen y) = 64 * 2 ^ (20 + bitLen y) := by
    rw [show 26 + bitLen y = 6 + (20 + bitLen y) by omega, pow_add]
    norm_num
  have e2 : 15 * 2 ^ (21 + bitLen y) = 2 * (15 * 2 ^ (20 + bitLen y)) := by
    rw [show 21 + bitLen y = (20 + bitLen y) + 1 by omega, pow_succ]
    ring
  have hq := quotSticky_le (x * 2 ^ (26 + bitLen y)) y (15 * 2 ^ (20 + bitLen y)) (by
    rw [e]
    exact scale_ge (2 ^ (20 + bitLen y)) (show 64 * x ≤ 15 * y by omega))
  rw [← e2] at hq
  have := roundTo24_mono hq
  rw [roundTo24_fixed 15 _ (by norm_num)] at this
  exact this

/-- A quotient of at most three quarters rounds to at most three quarters. -/
theorem floatDiv_le_three_quarters {x y : Nat} (h : 4 * x ≤ 3 * y) :
    (floatDiv x y).1 ≤ 3 * 2 ^ (25 + bitLen y) := by
  have e : 2 ^ (26 + bitLen y) = 4 * 2 ^ (24 + bitLen y) := by
    rw [show 26 + bitLen y = 2 + (24 + bitLen y) by omega, pow_add]
    norm_num
  have e2 : 3 * 2 ^ (25 + bitLen y) = 2 * (3 * 2 ^ (24 + bitLen y)) := by
    rw [show 25 + bitLen y = (24 + bitLen y) + 1 by omega, pow_succ]
    ring
  have hq := quotSticky_le (x * 2 ^ (26 + bitLen y)) y (3 * 2 ^ (24 + bitLen y)) (by
    rw [e]
    exact scale_ge (2 ^ (24 + bitLen y)) h)
  rw [← e2] at hq
  have := roundTo24_mono hq
  rw [roundTo24_fixed 3 _ (by norm_num)] at this
  exact this

/-- With a divisor below `2^23`, a quotient above three quarters rounds to a
value above three quarters. -/
theorem floatDiv_gt_three_quarters {x y : Nat} (hy : 0 < y) (hb : y < 2 ^ 23)
    (h : 3 * y < 4 * x) : 3 * 2 ^ (25 + bitLen y) < (floatDiv x y).1 := by
  have hu : 0 < 2 ^ bitLen y := by positivity
  have e26 : 2 ^ (26 + bitLen y) = 67108864 * 2 ^ bitLen y := by
    rw [pow_add]
    norm_num
  have e25 : 2 ^ (25 + bitLen y) = 33554432 * 2 ^ bitLen y := by
    rw [pow_add]
    norm_num
  have e27 : 2 ^ (27 + bitLen y) = 134217728 * 2 ^ bitLen y := by
    rw [pow_add]
    norm_num
  by_cases hxy : y ≤ x
  · have hq := le_quotSticky (x * 2 ^ (26 + bitLen y)) y (2 ^ (26 + bitLen y)) hy (by
      rw [mul_comm]
      exact Nat.mul_le_mul_right _ hxy)
    have e : 2 * 2 ^ (26 + bitLen y) = 2 ^ (27 + bitLen y) := by
      rw [← pow_succ']
      congr 1
      omega
    rw [e] at hq
    have := roundTo24_mono hq
    rw [roundTo24_pow] at this
    show 3 * 2 ^ (25 + bitLen y) < roundTo24 (quotSticky (x * 2 ^ (26 + bitLen y)) y)
    omega
  · have hlt : quotSticky (x * 2 ^ (26 + bitLen y)) y < 2 * 2 ^ (26 + bitLen y) :=
      quotSticky_lt _ _ _ hy (by
        rw [mul_comm]
        exact Nat.mul_lt_mul_of_pos_left (by omega) (by positivity))
    have hgt := lt_quotSticky (x * 2 ^ (26 + bitLen y)) y (50331650 * 2 ^ bitLen y) hy (by
      rw [e26]
      exact scale_lt hu (show 50331650 * y < 67108864 * x by
        norm_num at hb
        omega))
    have hlen : bitLen (quotSticky (x * 2 ^ (26 + bitLen y)) y) = (3 + bitLen y) + 24 := by
      have := bitLen_eq (quotSticky (x * 2 ^ (26 + bitLen y)) y) (26 + bitLen y)
        (by omega)
        (by
          have e : 2 ^ (26 + bitLen y + 1) = 2 * 2 ^ (26 + bitLen y) := pow_succ' _ _
          omega)
      omega
    have e3 : 2 ^ (3 + bitLen y) = 8 * 2 ^ bitLen y := by
      rw [pow_add]
      norm_num
    have e2 : 2 ^ (3 + bitLen y - 1) = 4 * 2 ^ bitLen y := by
      rw [show 3 + bitLen y - 1 = 2 + bitLen y by omega, pow_add]
      norm_num
    have := lt_roundTo24 (quotSticky (x * 2 ^ (26 + bitLen y)) y) 12582912 (3 + bitLen y)
      (by omega) hlen (by omega)
    show 3 * 2 ^ (25 + bitLen y) < roundTo24 (quotSticky (x * 2 ^ (26 + bitLen y)) y)
    omega

/-! ## The health-ratio tests -/

theorem floatRatio_of_pos {a b : Int} (ha : 0 < a) (hb : 0 < b) :
    floatRatio a b = (((floatDiv (roundTo24 a.natAbs) (roundTo24 b.natAbs)).1 : Int),
      27 + bitLen (roundTo24 b.natAbs)) := by
  simp [floatRatio, floatDiv, Int.sign_eq_one_of_pos ha, Int.sign_eq_one_of_pos hb]

theorem floatRatio_nonpos {a b : Int} (ha : a ≤ 0) (hb : 0 < b) : (floatRatio a b).1 ≤ 0 := by
  have hs : a.sign ≤ 0 := by
    rcases eq_or_lt_of_le ha with h | h
    · rw [h]
      simp
    · rw [Int.sign_eq_neg_one_of_neg h]
      decide
  simp only [floatRatio, Int.sign_eq_one_of_pos hb, mul_one]
  exact mul_nonpos_of_nonpos_of_nonneg hs (by positivity)

/-- With a divisor `b ≥ 0` and `b ≤ 2 * a`, the binary32 quotient is neither
below 0.5 nor below 0.25, whatever the size of `a` and `b`. -/
theorem ratioLt_of_half_le {a b : Int} (hb : 0 ≤ b) (h : b ≤ 2 * a) :
    ratioLt a b 1 2 = false ∧ ratioLt a b 1 4 = false := by
  rcases eq_or_lt_of_le hb with h0 | hpos
  · have ha : ¬ a < 0 := by omega
    simp [ratioLt, ← h0, ha]
  · have ha : 0 < a := by omega
    have hy : 0 < roundTo24 b.natAbs := roundTo24_pos (by omega)
    have hxy : roundTo24 b.natAbs ≤ 2 * roundTo24 a.natAbs := by
      rw [← roundTo24_double]
      exact roundTo24_mono (by omega)
    have hM := floatDiv_ge_half hy hxy
    have e : 2 ^ (27 + bitLen (roundTo24 b.natAbs))
        = 2 * 2 ^ (26 + bitLen (roundTo24 b.natAbs)) := by
      rw [← pow_succ']
      congr 1
      omega
    have eI : (2 : Int) ^ (27 + bitLen (roundTo24 b.natAbs))
        = 2 * ((2 ^ (26 + bitLen (roundTo24 b.natAbs)) : Nat) : Int) := by
      exact_mod_cast e
    simp only [ratioLt, floatRatio_of_pos ha hpos, if_neg (ne_of_gt hpos),
      decide_eq_false_iff_not, not_lt]
    generalize (floatDiv (roundTo24 a.natAbs) (roundTo24 b.natAbs)).1 = M at hM ⊢
    generalize (2 : Int) ^ (27 + bitLen (roundTo24 b.natAbs)) = K at eI ⊢
    generalize 2 ^ (26 + bitLen (roundTo24 b.natAbs)) = K1 at eI hM
    constructor <;> omega

/-- At a fifth of the divisor the binary32 quotient is below 0.25 and below
0.5, whatever the size of `a`. -/
theorem ratioLt_of_fifth {a b : Int} (ha : 0 < a) (h : b = 5 * a) :
    ratioLt a b 1 2 = true ∧ ratioLt a b 1 4 = true := by
  have hpos : 0 < b := by omega
  obtain ⟨ex, _⟩ := roundTo24_err a.natAbs
  obtain ⟨_, ey⟩ := roundTo24_err b.natAbs
  have hab : b.natAbs = 5 * a.natAbs := by omega
  rw [hab] at ey
  norm_num at ex ey
  have hxy : 9 * roundTo24 a.natAbs ≤ 2 * roundTo24 (5 * a.natAbs) := by omega
  rw [← hab] at hxy
  have hM := floatDiv_le_of_fifth hxy
  have e : 2 ^ (27 + bitLen (roundTo24 b.natAbs))
      = 64 * 2 ^ (21 + bitLen (roundTo24 b.natAbs)) := by
    rw [show 27 + bitLen (roundTo24 b.natAbs) = 6 + (21 + bitLen (roundTo24 b.natAbs)) by omega,
      pow_add]
    norm_num
  have hP : 0 < 2 ^ (21 + bitLen (roundTo24 b.natAbs)) := by positivity
  have eI : (2 : Int) ^ (27 + bitLen (roundTo24 b.natAbs))
      = 64 * ((2 ^ (21 + bitLen (roundTo24 b.natAbs)) : Nat) : Int) := by
    exact_mod_cast e
  simp only [ratioLt, floatRatio_of_pos ha hpos, if_neg (ne_of_gt hpos), decide_eq_true_eq]
  generalize (floatDiv (roundTo24 a.natAbs) (roundTo24 b.natAbs)).1 = M at hM ⊢
  generalize (2 : Int) ^ (27 + bitLen (roundTo24 b.natAbs)) = K at eI ⊢
  generalize 2 ^ (21 + bitLen (roundTo24 b.natAbs)) = K1 at eI hM hP
  constructor <;> omega

/-- For health values up to `2^24` (which binary32 holds exactly), a quotient of
at most three quarters is not above 0.75 in binary32. -/
theorem ratioGt_of_le {a b : Int} (hb : 0 < b) (hb2 : b ≤ 2 ^ 24) (ha2 : a ≤ 2 ^ 24)
    (h : 4 * a ≤ 3 * b) : ratioGt a b 3 4 = false := by
  rcases le_or_lt a 0 with ha | ha
  · have hv := floatRatio_nonpos ha hb
    have hp : (0 : Int) < 2 ^ (floatRatio a b).2 := by positivity
    simp only [ratioGt, if_neg (ne_of_gt hb), decide_eq_false_iff_not, not_lt]
    omega
  · have ex : roundTo24 a.natAbs = a.natAbs := roundTo24_exact (by
      norm_num at ha2 ⊢
      omega)
    have ey : roundTo24 b.natAbs = b.natAbs := roundTo24_exact (by
      norm_num at hb2 ⊢
      omega)
    have hM := floatDiv_le_three_quarters (x := a.natAbs) (y := b.natAbs) (by omega)
    have e : 2 ^ (27 + bitLen b.natAbs) = 4 * 2 ^ (25 + bitLen b.natAbs) := by
      rw [show 27 + bitLen b.natAbs = 2 + (25 + bitLen b.natAbs) by omega, pow_add]
      norm_num
    have eI : (2 : Int) ^ (27 + bitLen b.natAbs)
        = 4 * ((2 ^ (25 + bitLen b.natAbs) : Nat) : Int) := by
      exact_mod_cast e
    simp only [ratioGt, floatRatio_of_pos ha hb, if_neg (ne_of_gt hb), ex, ey,
      decide_eq_false_iff_not, not_lt]
    generalize (floatDiv a.natAbs b.natAbs).1 = M at hM ⊢
    generalize (2 : Int) ^ (27 + bitLen b.natAbs) = K at eI ⊢
    generalize 2 ^ (25 + bitLen b.natAbs) = K1 at eI hM
    omega

/-- For a divisor below `2^23`, a quotient above three quarters is above 0.75
in binary32. -/
theorem ratioGt_of_lt {a b : Int} (hb : 0 < b) (hb2 : b < 2 ^ 23) (h : 3 * b < 4 * a) :
    ratioGt a b 3 4 = true := by
  have ha : 0 < a := by omega
  have ey : roundTo24 b.natAbs = b.natAbs := roundTo24_exact (by
    norm_num at hb2 ⊢
    omega)
  have hx : 3 * b.natAbs < 4 * roundTo24 a.natAbs := by
    by_cases hle : a.natAbs ≤ 2 ^ 24
    · rw [roundTo24_exact hle]
      omega
    · have := roundTo24_mono (show 2 ^ 24 ≤ a.natAbs by omega)
      rw [roundTo24_pow] at this
      norm_num at hb2 this
      omega
  have hM := floatDiv_gt_three_quarters (x := roundTo24 a.natAbs) (y := b.natAbs) (by omega)
    (by
      norm_num at hb2 ⊢
      omega) hx
  have e : 2 ^ (27 + bitLen b.natAbs) = 4 * 2 ^ (25 + bitLen b.natAbs) := by
    rw [show 27 + bitLen b.natAbs = 2 + (25 + bitLen b.natAbs) by omega, pow_add]
    norm_num
  have eI : (2 : Int) ^ (27 + bitLen b.natAbs)
      = 4 * ((2 ^ (25 + bitLen b.natAbs) : Nat) : Int) := by
    exact_mod_cast e
  simp only [ratioGt, floatRatio_of_pos ha hb, if_neg (ne_of_gt hb), ey, decide_eq_true_eq]
  generalize (floatDiv (roundTo24 a.natAbs) b.natAbs).1 = M at hM ⊢
  generalize (2 : Int) ^ (27 + bitLen b.natAbs) = K at eI ⊢
  generalize 2 ^ (25 + bitLen b.natAbs) = K1 at eI hM
  omega

/-- For a divisor below `2^23` and a dividend up to `2^24` the binary32 test
against 0.75 is the exact one. -/
theorem ratioGt_three_quarters_exact {a b : Int} (hb : 0 < b) (hb2 : b < 2 ^ 23)
    (ha2 : a ≤ 2 ^ 24) : ratioGt a b 3 4 = decide (3 * b < 4 * a) := by
  by_cases h : 3 * b < 4 * a
  · rw [ratioGt_of_lt hb hb2 h]
    simp [h]
  · rw [ratioGt_of_le hb (by norm_num at hb2 ⊢; omega) ha2 (by omega)]
    simp [h]

/-! ## Closed forms of `takeDamage` -/

/-- The defender after `takeDamage`: unchanged when the GOD dodge fires,
otherwise only `currentHealth` changes, by the floored (and possibly holy)
damage. -/
theorem takeDamage_self (self : Character) (damage : Int) (attacker : Option Character)
    (rs : RandStream) :
    (self.takeDamage damage attacker rs).self =
      if (self.hasLevel GearLevel.GOD && decide (rs 0 % 100 < 20)) = true then self
      else
        { self with currentHealth := self.currentHealth -
            (if (match attacker with
                | some a => a.hasLevel GearLevel.GOD && self.hasLevel GearLevel.DEMON
                | none => false) = true
             then mulOneAndHalf (max 1 (damage - self.getTotalArmor))
             else max 1 (damage - self.getTotalArmor)) } := by
  cases attacker with
  | none =>
    rw [Character.takeDamage]
    by_cases hd : (self.hasLevel GearLevel.GOD && decide (rs 0 % 100 < 20)) = true
    · simp [hd]
    · simp only [hd, if_false]
      split_ifs <;> simp
  | some a =>
    rw [Character.takeDamage]
    by_cases hd : (self.hasLevel GearLevel.GOD && decide (rs 0 % 100 < 20)) = true
    · simp [hd]
    · simp only [hd, if_false]
      split_ifs <;> simp_all

/-- The defender after a call without attacker. -/
theorem takeDamage_self_none (self : Character) (damage : Int) (rs : RandStream) :
    (self.takeDamage damage none rs).self =
      if (self.hasLevel GearLevel.GOD && decide (rs 0 % 100 < 20)) = true then self
      else { self with currentHealth := self.currentHealth - max 1 (damage - self.getTotalArmor) } := by
  rw [takeDamage_self]
  simp

/-- A hit never raises the defender's health and never changes its maximum. -/
theorem takeDamage_self_le (self : Character) (damage : Int) (attacker : Option Character)
    (rs : RandStream) :
    (self.takeDamage damage attacker rs).self.currentHealth ≤ self.currentHealth ∧
      (self.takeDamage damage attacker rs).self.maxHealth = self.maxHealth := by
  rw [takeDamage_self]
  have h1 : (1 : Int) ≤ max 1 (damage - self.getTotalArmor) := le_max_left _ _
  have h2 := mulOneAndHalf_ge h1
  split_ifs <;> simp <;> omega

/-- A call without attacker never recurses: one unit of fuel is enough. -/
theorem takeDamageFuel_none (fuel : Nat) (self : Character) (damage : Int) (rs : RandStream) :
    Character.takeDamageFuel (fuel + 1) self damage none rs
      = some (self.takeDamage damage none rs) := by
  rw [Character.takeDamage]
  simp only [Character.takeDamageFuel]
  split_ifs <;> rfl

/-- Two units of fuel are enough for every call. -/
theorem takeDamageFuel_some (fuel : Nat) (self a : Character) (damage : Int) (rs : RandStream) :
    Character.takeDamageFuel (fuel + 2) self damage (some a) rs
      = some (self.takeDamage damage (some a) rs) := by
  rw [Character.takeDamage, show fuel + 2 = (fuel + 1) + 1 from rfl, Character.takeDamageFuel]
  simp only [takeDamageFuel_none]
  split_ifs <;> rfl

/-- `takeDamage` is its body unrolled to depth 2. -/
theorem takeDamage_eq_unrolled :
    Character.takeDamage = Character.takeDamageUnrolled := by
  funext self damage attacker rs
  unfold Character.takeDamageUnrolled
  cases attacker with
  | none => rw [takeDamageFuel_none 1]
  | some a => rw [takeDamageFuel_some 0]

/-- A call without attacker returns no attacker. -/
theorem takeDamage_attacker_none (self : Character) (damage : Int) (rs : RandStream) :
    (self.takeDamage damage none rs).attacker = none := by
  rw [Character.takeDamage]
  split_ifs <;> simp

/-- The attacker after `takeDamage`: it is hit (by the Death Blow, with the
defender's `baseDamage` and no attacker) exactly when the hit is not negated,
the defender ends at `currentHealth ≤ 0` and wears DEMON gear. -/
theorem takeDamage_attacker_some (self a : Character) (damage : Int) (rs : RandStream) :
    (self.takeDamage damage (some a) rs).attacker =
      some
        (if (self.hasLevel GearLevel.GOD && decide (rs 0 % 100 < 20)) = true then a
         else if (decide ((self.takeDamage damage (some a) rs).self.currentHealth ≤ 0)
              && self.hasLevel GearLevel.DEMON) = true then
           (a.takeDamage self.baseDamage none
              (if self.hasLevel GearLevel.GOD = true then rs.tail else rs)).self
         else a) := by
  rw [takeDamage_self]
  rw [Character.takeDamage]
  by_cases hd : (self.hasLevel GearLevel.GOD && decide (rs 0 % 100 < 20)) = true
  · simp [hd]
  · simp only [hd, if_false]
    have hl : ∀ x : Int, ({ self with currentHealth := x } : Character).hasLevel GearLevel.DEMON
        = self.hasLevel GearLevel.DEMON := fun _ => rfl
    simp only [hl]
    split_ifs <;> simp_all

/-- The Death Blow never raises the attacker's health and never changes its
maximum. -/
theorem takeDamage_attacker_le (self a : Character) (damage : Int) (rs : RandStream) :
    ∃ a1, (self.takeDamage damage (some a) rs).attacker = some a1 ∧
      a1.currentHealth ≤ a.currentHealth ∧ a1.maxHealth = a.maxHealth := by
  refine ⟨_, takeDamage_attacker_some self a damage rs, ?_⟩
  have h := fun rs1 => takeDamage_self_le a self.baseDamage none rs1
  split_ifs <;> first | exact ⟨le_refl _, rfl⟩ | exact h _

/-! ## Health bounds (C1, C2, C3) -/

/-- C1, as stated, fails: the Goblin of the starting roster (60/60 health) hit
by the God-Spear player's Holy Takedown (80 damage) ends with negative
`currentHealth`; `takeDamage` does not clamp at 0. -/
theorem takeDamage_not_clamped_at_zero :
    goblin.healthInBounds ∧
      godPlayer.getTotalDamage + godPlayer.getTotalArmor = 80 ∧
      (goblin.takeDamage 80 (some godPlayer) (fun _ => 0)).self.currentHealth = -13 ∧
      ¬ (goblin.takeDamage 80 (some godPlayer) (fun _ => 0)).self.healthInBounds := by
  rw [takeDamage_self]
  decide

/-- C1, amended: from a state with `0 ≤ currentHealth ≤ maxHealth`, `equipGear`
with a gear of non-negative health bonus (every gear built by the constructor)
and `heal` with a non-negative amount keep both bounds; `takeDamage` keeps
`currentHealth ≤ maxHealth` for the defender and for the attacker, never raises
the defender's health, and clamps only the printed health `max(0, currentHealth)`. -/
theorem health_upper_bound_preserved (c : Character) (h : c.healthInBounds) :
    (∀ g : Gear, 0 ≤ g.healthBonus → (c.equipGear g).healthInBounds) ∧
    (∀ n t l, (c.equipGear (Gear.mkGear n t l)).healthInBounds) ∧
    (∀ amount : Int, 0 ≤ amount → (c.heal amount).healthInBounds) ∧
    (∀ damage attacker rs,
      (c.takeDamage damage attacker rs).self.currentHealth ≤ c.currentHealth ∧
      (c.takeDamage damage attacker rs).self.currentHealth
        ≤ (c.takeDamage damage attacker rs).self.maxHealth ∧
      0 ≤ (c.takeDamage damage attacker rs).self.displayedHealth ∧
      (c.takeDamage damage attacker rs).self.displayedHealth
        ≤ (c.takeDamage damage attacker rs).self.maxHealth) ∧
    (∀ damage (d : Character) rs, d.currentHealth ≤ d.maxHealth →
      ∃ c1, (d.takeDamage damage (some c) rs).attacker = some c1 ∧
        c1.currentHealth ≤ c1.maxHealth) := by
  obtain ⟨h0, h1⟩ := h
  have hequip : ∀ g : Gear, 0 ≤ g.healthBonus → (c.equipGear g).healthInBounds := by
    intro g hg
    simp only [Character.healthInBounds, Character.equipGear]
    omega
  refine ⟨hequip, ?_, ?_, ?_, ?_⟩
  · intro n t l
    apply hequip
    cases t <;> cases l <;> simp [Gear.mkGear, Gear.initializeGear]
  · intro amount ha
    simp only [Character.healthInBounds, Character.heal]
    exact ⟨le_min (by omega) (by omega), min_le_right _ _⟩
  · intro damage attacker rs
    obtain ⟨h2, h3⟩ := takeDamage_self_le c damage attacker rs
    simp only [Character.displayedHealth]
    refine ⟨h2, by omega, le_max_left _ _, max_le (by omega) (by omega)⟩
  · intro damage d rs _
    obtain ⟨c1, hc1, h2, h3⟩ := takeDamage_attacker_le d c damage rs
    exact ⟨c1, hc1, by omega⟩

/-- Witness for C1 (amended) at the Goblin of the starting roster. -/
theorem health_upper_bound_preserved_witness :
    goblin.healthInBounds ∧ (goblin.heal 10).healthInBounds ∧
      (goblin.takeDamage 80 (some godPlayer) (fun _ => 0)).self.currentHealth
        ≤ goblin.currentHealth :=
  ⟨by decide,
   (health_upper_bound_preserved goblin (by decide)).2.2.1 10 (by decide),
   ((health_upper_bound_preserved goblin (by decide)).2.2.2.1 80 (some godPlayer)
      (fun _ => 0)).1⟩

/-- C2: whenever the GOD dodge does not fire, `takeDamage` lowers the defender's
`currentHealth` by at least 1, whatever the incoming damage (also when it does
not exceed the armor) and whatever the attacker. -/
theorem takeDamage_lowers_health_by_at_least_one (self : Character) (damage : Int)
    (attacker : Option Character) (rs : RandStream)
    (hno : ¬ (self.hasLevel GearLevel.GOD = true ∧ rs 0 % 100 < 20)) :
    (self.takeDamage damage attacker rs).self.currentHealth ≤ self.currentHealth - 1 := by
  rw [takeDamage_self]
  have hd : ¬ (self.hasLevel GearLevel.GOD && decide (rs 0 % 100 < 20)) = true := by
    simpa using hno
  rw [if_neg hd]
  have h1 : (1 : Int) ≤ max 1 (damage - self.getTotalArmor) := le_max_left _ _
  have h2 := mulOneAndHalf_ge h1
  split_ifs <;> simp only [] <;> omega

/-- Witness for C2: the Angel Guardian (GOD gear, effective armor 55) with a
dodge roll of 20 and an incoming damage of 0 still loses health. -/
theorem takeDamage_lowers_health_by_at_least_one_witness :
    ¬ (angelGuardian.hasLevel GearLevel.GOD = true ∧ (fun _ => 20 : RandStream) 0 % 100 < 20) ∧
      (angelGuardian.takeDamage 0 (some demonPlayer) (fun _ => 20)).self.currentHealth
        ≤ angelGuardian.currentHealth - 1 :=
  ⟨by decide,
   takeDamage_lowers_health_by_at_least_one angelGuardian 0 (some demonPlayer) (fun _ => 20)
     (by decide)⟩

/-- C3, as stated, fails: the Demon Knight (effective armor 13) hit by the
God-Spear player's Holy Takedown (incoming damage 80) loses
`(80 - 13) * 1.5 = 100` health, more than 80; and a hit of incoming damage 0 on
the Goblin still costs 1 health. -/
theorem takeDamage_can_exceed_incoming_damage :
    godPlayer.getTotalDamage + godPlayer.getTotalArmor = 80 ∧
    demonKnight.getTotalArmor = 13 ∧
    demonKnight.currentHealth
        - (demonKnight.takeDamage 80 (some godPlayer) (fun _ => 50)).self.currentHealth = 100 ∧
    ¬ (demonKnight.currentHealth
        - (demonKnight.takeDamage 80 (some godPlayer) (fun _ => 50)).self.currentHealth ≤ 80) ∧
    ¬ (goblin.currentHealth
        - (goblin.takeDamage 0 none (fun _ => 50)).self.currentHealth ≤ 0) := by
  rw [takeDamage_self, takeDamage_self]
  decide

/-- C3, amended: for an incoming damage of at least 1 on a defender with
non-negative effective armor, the health lost is at most the incoming damage
unless a GOD-gear attacker hits a DEMON-gear defender, and in every case at
most the incoming damage times 1.5 (truncated). -/
theorem takeDamage_loss_le_incoming (self : Character) (damage : Int)
    (attacker : Option Character) (rs : RandStream)
    (hd : 1 ≤ damage) (ha : 0 ≤ self.getTotalArmor) :
    ((∀ a, attacker = some a →
        ¬ (a.hasLevel GearLevel.GOD = true ∧ self.hasLevel GearLevel.DEMON = true)) →
      self.currentHealth - (self.takeDamage damage attacker rs).self.currentHealth ≤ damage) ∧
    self.currentHealth - (self.takeDamage damage attacker rs).self.currentHealth
      ≤ mulOneAndHalf damage := by
  have h1 : (1 : Int) ≤ max 1 (damage - self.getTotalArmor) := le_max_left _ _
  have h2 : max 1 (damage - self.getTotalArmor) ≤ damage := max_le hd (by omega)
  have h3 := mulOneAndHalf_ge hd
  have h4 : mulOneAndHalf (max 1 (damage - self.getTotalArmor)) ≤ mulOneAndHalf damage := by
    rw [mulOneAndHalf_eq_ediv (by omega), mulOneAndHalf_eq_ediv (by omega)]
    omega
  rw [takeDamage_self]
  generalize max 1 (damage - self.getTotalArmor) = m at h1 h2 h4 ⊢
  cases attacker with
  | none =>
    simp only [Bool.false_eq_true, if_false]
    constructor
    · intro _
      split_ifs <;> (try dsimp only) <;> omega
    · split_ifs <;> (try dsimp only) <;> omega
  | some a =>
    constructor
    · intro hholy
      have hm : (a.hasLevel GearLevel.GOD && self.hasLevel GearLevel.DEMON) = false := by
        simpa using hholy a rfl
      simp only [hm, Bool.false_eq_true, if_false]
      split_ifs <;> (try dsimp only) <;> omega
    · split_ifs <;> (try dsimp only) <;> omega

/-- Witness for C3 (amended): the Demon Knight hit for 80 by the Demon-Sword
player loses at most 80. -/
theorem takeDamage_loss_le_incoming_witness :
    (1 : Int) ≤ 80 ∧ 0 ≤ demonKnight.getTotalArmor ∧
      demonKnight.currentHealth
        - (demonKnight.takeDamage 80 (some demonPlayer) (fun _ => 50)).self.currentHealth ≤ 80 :=
  ⟨by decide, by decide,
   (takeDamage_loss_le_incoming demonKnight 80 (some demonPlayer) (fun _ => 50)
      (by decide) (by decide)).1 (by intro a ha; cases ha; decide)⟩

/-! ## Effective damage and armor (C4, C5, C6, C7) -/

/-- C4, as stated, fails: the Demon-Sword player (base 20, bonus 25, no souls)
at 22/110 health, a fraction of exactly 0.2, has effective damage 134, while
three times its full-health value 45 is 135. -/
theorem demon_damage_not_exactly_triple :
    demonPlayer.hasLevel GearLevel.DEMON = true ∧ demonPlayer.souls = 0 ∧
    5 * (22 : Int) = demonPlayer.maxHealth ∧
    demonPlayer.currentHealth = demonPlayer.maxHealth ∧
    demonPlayer.getTotalDamage = 45 ∧
    ({ demonPlayer with currentHealth := 22 } : Character).getTotalDamage = 134 ∧
    ¬ (({ demonPlayer with currentHealth := 22 } : Character).getTotalDamage
        = 3 * demonPlayer.getTotalDamage) := by
  decide

/-- C4, amended: for a DEMON-gear actor with no souls at health fraction 0.2,
the full-health damage `d = baseDamage + damageBonus` is multiplied by 1.5,
truncated to an integer, and then doubled. The result is `3 * d` when `d` is
even and differs from `3 * d` by exactly 1 toward zero when `d` is odd. -/
theorem demon_damage_at_fifth_health (c : Character) (g : Gear)
    (hg : c.equippedGear = some g) (hl : g.level = GearLevel.DEMON) (hs : c.souls = 0)
    (hpos : 0 < c.currentHealth) (hfrac : c.maxHealth = 5 * c.currentHealth) :
    ({ c with currentHealth := c.maxHealth } : Character).getTotalDamage
      = c.baseDamage + g.damageBonus ∧
    c.getTotalDamage = 2 * mulOneAndHalf (c.baseDamage + g.damageBonus) ∧
    ((c.baseDamage + g.damageBonus) % 2 = 0 →
      c.getTotalDamage = 3 * (c.baseDamage + g.damageBonus)) ∧
    (0 ≤ c.baseDamage + g.damageBonus → (c.baseDamage + g.damageBonus) % 2 = 1 →
      c.getTotalDamage = 3 * (c.baseDamage + g.damageBonus) - 1) := by
  obtain ⟨f1, f2⟩ := ratioLt_of_half_le (a := c.maxHealth) (b := c.maxHealth)
    (by omega) (by omega)
  obtain ⟨l1, l2⟩ := ratioLt_of_fifth hpos hfrac
  have hfull : ({ c with currentHealth := c.maxHealth } : Character).getTotalDamage
      = c.baseDamage + g.damageBonus := by
    simp only [Character.getTotalDamage, hg, hl, hs, f1, f2]
    simp
  have hlow : c.getTotalDamage = 2 * mulOneAndHalf (c.baseDamage + g.damageBonus) := by
    simp only [Character.getTotalDamage, hg, hl, hs, l1, l2]
    simp
    ring
  refine ⟨hfull, hlow, ?_, ?_⟩
  · intro he
    rw [hlow]
    exact mulOneAndHalf_even he
  · intro h0 ho
    rw [hlow, mulOneAndHalf_eq_ediv h0]
    omega

/-- Witness for C4 (amended): the Demon-Sword player at 22/110 health. -/
theorem demon_damage_at_fifth_health_witness :
    ({ demonPlayer with currentHealth := 22 } : Character).getTotalDamage
      = 2 * mulOneAndHalf (20 + 25) :=
  (demon_damage_at_fifth_health { demonPlayer with currentHealth := 22 }
    (chooseStartingGear 1) rfl (by decide) (by decide) (by decide) (by decide)).2.1

/-- C5: a DEMON-gear actor at health fraction at least 0.5 has effective damage
`baseDamage + damageBonus + 2 * souls`, with neither the 1.5 nor the 2
multiplier; the Demon-Sword player at full health and no souls has 45. -/
theorem demon_damage_above_half_health (c : Character) (g : Gear)
    (hg : c.equippedGear = some g) (hl : g.level = GearLevel.DEMON)
    (hmax : 0 ≤ c.maxHealth) (hfrac : c.maxHealth ≤ 2 * c.currentHealth) :
    c.getTotalDamage = c.baseDamage + g.damageBonus + 2 * c.souls ∧
      demonPlayer.getTotalDamage = 45 := by
  refine ⟨?_, by decide⟩
  obtain ⟨e1, e2⟩ := ratioLt_of_half_le hmax hfrac
  simp only [Character.getTotalDamage, hg, hl, e1, e2]
  simp
  ring

/-- Witness for C5: the Demon-Sword player at full health. -/
theorem demon_damage_above_half_health_witness :
    demonPlayer.getTotalDamage = 20 + 25 + 2 * 0 ∧ demonPlayer.getTotalDamage = 45 :=
  demon_damage_above_half_health demonPlayer (chooseStartingGear 1) rfl (by decide)
    (by decide) (by decide)

/-- C6, as stated, fails: the God-Spear player at full health (fraction 1.0,
above 0.75) has `armor + armorBonus = 5 + 22 = 27` and effective armor 40, not
`27 * 1.5 = 40.5`. Besides, the fraction is computed in binary32: a GOD-gear
actor (the Angel Guardian's stats, `15 + 22 = 37`) at 6291457/8388609 health, a
fraction above 0.75, has a rounded ratio of exactly 0.75 and keeps armor 37. -/
theorem god_armor_not_exactly_one_and_half :
    godPlayer.hasLevel GearLevel.GOD = true ∧
    3 * godPlayer.maxHealth < 4 * godPlayer.currentHealth ∧
    godPlayer.armor + (chooseStartingGear 2).armorBonus = 27 ∧
    godPlayer.getTotalArmor = 40 ∧
    ¬ ((godPlayer.getTotalArmor : ℚ)
        = ((godPlayer.armor + (chooseStartingGear 2).armorBonus : Int) : ℚ) * (3 / 2)) ∧
    3 * (8388609 : Int) < 4 * 6291457 ∧
    ({ angelGuardian with maxHealth := 8388609, currentHealth := 6291457 } :
      Character).getTotalArmor = 37 := by
  have h1 : godPlayer.getTotalArmor = 40 := by decide
  have h2 : godPlayer.armor + (chooseStartingGear 2).armorBonus = 27 := by decide
  refine ⟨by decide, by decide, h2, h1, ?_, by decide, by decide⟩
  rw [h1, h2]
  norm_num

/-- C6, amended: a GOD-gear actor at health fraction above 0.75, with
`maxHealth` below `2^23`, has effective armor `(armor + armorBonus) * 1.5`
truncated toward zero to an integer; the product is exact when
`armor + armorBonus` is even and half a unit is dropped when it is odd and
positive. -/
theorem god_armor_above_three_quarters (c : Character) (g : Gear)
    (hg : c.equippedGear = some g) (hl : g.level = GearLevel.GOD)
    (hmax : 0 < c.maxHealth) (hsize : c.maxHealth < 2 ^ 23)
    (hfrac : 3 * c.maxHealth < 4 * c.currentHealth) :
    c.getTotalArmor = mulOneAndHalf (c.armor + g.armorBonus) ∧
    ((c.armor + g.armorBonus) % 2 = 0 → 2 * c.getTotalArmor = 3 * (c.armor + g.armorBonus)) ∧
    (0 ≤ c.armor + g.armorBonus → (c.armor + g.armorBonus) % 2 = 1 →
      2 * c.getTotalArmor = 3 * (c.armor + g.armorBonus) - 1) := by
  have h : c.getTotalArmor = mulOneAndHalf (c.armor + g.armorBonus) := by
    have hr := ratioGt_of_lt hmax hsize hfrac
    simp only [Character.getTotalArmor, hg, hl, hr]
    simp
  refine ⟨h, ?_, ?_⟩
  · intro he
    rw [h]
    exact mulOneAndHalf_even he
  · intro h0 ho
    rw [h, mulOneAndHalf_eq_ediv h0]
    omega

/-- Witness for C6 (amended): the God-Spear player at 108/135 health, a
fraction of 0.8, has effective armor 40. -/
theorem god_armor_above_three_quarters_witness :
    ({ godPlayer with currentHealth := 108 } : Character).getTotalArmor
      = mulOneAndHalf (5 + 22) :=
  (god_armor_above_three_quarters { godPlayer with currentHealth := 108 }
    (chooseStartingGear 2) rfl (by decide) (by decide) (by decide) (by decide)).1

/-- C7, as stated, fails for large health values: the fraction is computed in
binary32, and a GOD-gear actor (the Angel Guardian's stats, `15 + 22 = 37`) at
16777227/22369636 health, a fraction of exactly 0.75, has `(float)16777227`
rounded up to 16777228 and a ratio above 0.75: its effective armor is 55. -/
theorem armor_multiplied_at_three_quarters_in_binary32 :
    ({ angelGuardian with maxHealth := 22369636, currentHealth := 16777227 } :
      Character).hasLevel GearLevel.GOD = true ∧
    4 * (16777227 : Int) = 3 * 22369636 ∧
    roundTo24 16777227 = 16777228 ∧
    angelGuardian.armor + (chooseStartingGear 2).armorBonus = 37 ∧
    ({ angelGuardian with maxHealth := 22369636, currentHealth := 16777227 } :
      Character).getTotalArmor = 55 ∧
    ¬ (({ angelGuardian with maxHealth := 22369636, currentHealth := 16777227 } :
      Character).getTotalArmor = angelGuardian.armor + (chooseStartingGear 2).armorBonus) := by
  decide

/-- C7, amended: the armor multiplier needs GOD gear and a health fraction
strictly above 0.75. With gear of another level at any health, and with GOD
gear at a fraction of exactly 0.75 or lower when `maxHealth` and
`currentHealth` do not exceed `2^24` (the range that binary32 holds exactly),
effective armor is `armor + armorBonus`. -/
theorem armor_unmultiplied_at_or_below_three_quarters (c : Character) (g : Gear)
    (hg : c.equippedGear = some g)
    (h : g.level ≠ GearLevel.GOD ∨
      (0 < c.maxHealth ∧ c.maxHealth ≤ 2 ^ 24 ∧ c.currentHealth ≤ 2 ^ 24 ∧
        4 * c.currentHealth ≤ 3 * c.maxHealth)) :
    c.getTotalArmor = c.armor + g.armorBonus := by
  rcases h with h | ⟨hmax, hb, ha, hfrac⟩
  · simp [Character.getTotalArmor, hg, h]
  · have hr := ratioGt_of_le hmax hb ha hfrac
    simp [Character.getTotalArmor, hg, hr]

/-- Witness for C7 (amended): a GOD-gear actor at 90/120 health, a fraction of
exactly 0.75, keeps `armor + armorBonus = 15 + 22`. -/
theorem armor_unmultiplied_at_or_below_three_quarters_witness :
    ({ (Character.mkCharacter "Paladin" 85 12 15).equipGear (chooseStartingGear 2) with
        currentHealth := 90 } : Character).getTotalArmor = 15 + 22 :=
  armor_unmultiplied_at_or_below_three_quarters
    { (Character.mkCharacter "Paladin" 85 12 15).equipGear (chooseStartingGear 2) with
        currentHealth := 90 }
    (chooseStartingGear 2) rfl (Or.inr (by decide))

/-! ## Poison (C8, C9) -/

/-- A poisoned actor's tick is one `takeDamage(5)` without attacker followed by
the countdown. -/
theorem poisonTick_poisoned (c : Character) (rs : RandStream) (hp : c.isPoisoned = true) :
    (poisonTick c rs).1 =
      if (c.takeDamage 5 none rs).self.poisonTurns - 1 ≤ 0 then
        { (c.takeDamage 5 none rs).self with
          poisonTurns := (c.takeDamage 5 none rs).self.poisonTurns - 1, isPoisoned := false }
      else
        { (c.takeDamage 5 none rs).self with
          poisonTurns := (c.takeDamage 5 none rs).self.poisonTurns - 1 } := by
  simp only [poisonTick, hp, if_true]

/-- An actor that is not poisoned is skipped by the tick. -/
theorem poisonTick_not_poisoned (c : Character) (rs : RandStream) (hp : c.isPoisoned = false) :
    poisonTick c rs = (c, rs) := by
  simp [poisonTick, hp]

/-- `takeDamage` leaves the poison fields of the defender alone. -/
theorem takeDamage_self_poison (self : Character) (damage : Int) (attacker : Option Character)
    (rs : RandStream) :
    (self.takeDamage damage attacker rs).self.isPoisoned = self.isPoisoned ∧
      (self.takeDamage damage attacker rs).self.poisonTurns = self.poisonTurns := by
  rw [takeDamage_self]
  split_ifs <;> exact ⟨rfl, rfl⟩

/-- Every enemy of the roster is ticked, in place. -/
theorem poisonTickAll_getElem (es : List Character) (rs : RandStream) (i : Nat) (e : Character)
    (he : es[i]? = some e) :
    ∃ rs1, (poisonTickAll es rs).1[i]? = some (poisonTick e rs1).1 := by
  induction es generalizing rs i with
  | nil => simp at he
  | cons x xs ih =>
    cases i with
    | zero =>
      simp only [List.getElem?_cons_zero, Option.some.injEq] at he
      subst he
      exact ⟨rs, by simp [poisonTickAll]⟩
    | succ j =>
      simp only [List.getElem?_cons_succ] at he
      obtain ⟨rs1, h1⟩ := ih (poisonTick x rs).2 j he
      exact ⟨rs1, by simpa [poisonTickAll] using h1⟩

/-- C8, as stated, fails: the poisoned Demon-Sword player (effective armor 10)
loses 1 health in the status tick, not 5; the tick goes through `takeDamage`,
which subtracts the armor. -/
theorem poison_tick_not_armor_bypassing :
    ({ demonPlayer with isPoisoned := true, poisonTurns := 3 } : Character).getTotalArmor = 10 ∧
    (Game.processPoison
      { initializeGame "Hero" 1 [] (fun _ => 0) (fun _ => 0) with
        player := { demonPlayer with isPoisoned := true, poisonTurns := 3 } }).player.currentHealth
      = demonPlayer.currentHealth - 1 ∧
    ¬ ((Game.processPoison
      { initializeGame "Hero" 1 [] (fun _ => 0) (fun _ => 0) with
        player := { demonPlayer with isPoisoned := true, poisonTurns := 3 } }).player.currentHealth
      = demonPlayer.currentHealth - 5) := by
  simp only [Game.processPoison, initializeGame]
  rw [poisonTick_poisoned _ _ rfl, takeDamage_self_none]
  decide

/-- C8, amended: the status tick applies `poisonTick` to the player and to
every enemy; a poisoned actor receives `takeDamage(5)` without attacker, so it
loses `max(1, 5 - effective armor)` health, or nothing when its GOD dodge
fires; it loses exactly 5 only when its effective armor is 0. An actor that is
not poisoned is unchanged. -/
theorem poison_tick_goes_through_armor (g : Game) :
    g.processPoison.player = (poisonTick g.player g.crand).1 ∧
    (∀ (i : Nat) (e : Character), g.enemies[i]? = some e →
      ∃ rs, g.processPoison.enemies[i]? = some (poisonTick e rs).1) ∧
    (∀ (c : Character) (rs : RandStream), c.isPoisoned = true →
      (poisonTick c rs).1.currentHealth =
        if (c.hasLevel GearLevel.GOD && decide (rs 0 % 100 < 20)) = true then c.currentHealth
        else c.currentHealth - max 1 (5 - c.getTotalArmor)) ∧
    (∀ (c : Character) (rs : RandStream), c.isPoisoned = true → c.getTotalArmor = 0 →
      ¬ (c.hasLevel GearLevel.GOD = true ∧ rs 0 % 100 < 20) →
      (poisonTick c rs).1.currentHealth = c.currentHealth - 5) ∧
    (∀ (c : Character) (rs : RandStream), c.isPoisoned = false → poisonTick c rs = (c, rs)) := by
  have key : ∀ (c : Character) (rs : RandStream), c.isPoisoned = true →
      (poisonTick c rs).1.currentHealth =
        if (c.hasLevel GearLevel.GOD && decide (rs 0 % 100 < 20)) = true then c.currentHealth
        else c.currentHealth - max 1 (5 - c.getTotalArmor) := by
    intro c rs hp
    rw [poisonTick_poisoned c rs hp]
    have h : (if (c.takeDamage 5 none rs).self.poisonTurns - 1 ≤ 0 then
        ({ (c.takeDamage 5 none rs).self with
          poisonTurns := (c.takeDamage 5 none rs).self.poisonTurns - 1, isPoisoned := false }
            : Character)
      else
        { (c.takeDamage 5 none rs).self with
          poisonTurns := (c.takeDamage 5 none rs).self.poisonTurns - 1 }).currentHealth
        = (c.takeDamage 5 none rs).self.currentHealth := by
      split_ifs <;> rfl
    rw [h, takeDamage_self_none]
    split_ifs <;> rfl
  refine ⟨rfl, ?_, key, ?_, poisonTick_not_poisoned⟩
  · intro i e he
    exact poisonTickAll_getElem g.enemies _ i e he
  · intro c rs hp h0 hno
    rw [key c rs hp, h0]
    have hd : ¬ (c.hasLevel GearLevel.GOD && decide (rs 0 % 100 < 20)) = true := by
      simpa using hno
    rw [if_neg hd]
    simp

/-- Witness for C8 (amended): the poisoned Goblin (effective armor 7) loses
`max(1, 5 - 7) = 1` health in its tick. -/
theorem poison_tick_goes_through_armor_witness :
    (poisonTick { goblin with isPoisoned := true, poisonTurns := 3 } (fun _ => 0)).1.currentHealth
      = if (({ goblin with isPoisoned := true, poisonTurns := 3 } : Character).hasLevel
            GearLevel.GOD && decide ((fun _ => 0 : RandStream) 0 % 100 < 20)) = true
        then ({ goblin with isPoisoned := true, poisonTurns := 3 } : Character).currentHealth
        else ({ goblin with isPoisoned := true, poisonTurns := 3 } : Character).currentHealth
          - max 1 (5 - ({ goblin with isPoisoned := true, poisonTurns := 3 }
              : Character).getTotalArmor) :=
  (poison_tick_goes_through_armor
    (initializeGame "Hero" 1 [] (fun _ => 0) (fun _ => 0))).2.2.1
    { goblin with isPoisoned := true, poisonTurns := 3 } (fun _ => 0) rfl

/-- `heal` leaves the poison fields alone. -/
theorem heal_poison (c : Character) (amount : Int) :
    (c.heal amount).isPoisoned = c.isPoisoned ∧ (c.heal amount).poisonTurns = c.poisonTurns :=
  ⟨rfl, rfl⟩

/-- One tick of a poisoned actor with `n + 1` turns left: the health is that of
`takeDamage(5)`, the counter drops to `n`, and the flag stays exactly when
`n > 0`. -/
theorem poisonTick_countdown (c : Character) (rs : RandStream) (n : Int)
    (hp : c.isPoisoned = true) (ht : c.poisonTurns = n + 1) :
    (poisonTick c rs).1.poisonTurns = n ∧
      (poisonTick c rs).1.isPoisoned = decide (0 < n) ∧
      (poisonTick c rs).1.currentHealth = (c.takeDamage 5 none rs).self.currentHealth := by
  obtain ⟨h1, h2⟩ := takeDamage_self_poison c 5 none rs
  rw [poisonTick_poisoned c rs hp, h2, ht]
  by_cases hn : 0 < n
  · rw [if_neg (by omega)]
    simp [hn, h1, hp]
  · rw [if_pos (by omega)]
    simp [hn]

/-- C9: an actor just poisoned (`isPoisoned`, `poisonTurns = 3`) is hit by
`takeDamage(5)` on each of the next three status ticks; it is still poisoned
with 2 and then 1 turns left after the first two, and after the third the flag
is cleared with 0 turns left, so a fourth tick changes nothing. Heals of any
amount between the ticks do not alter this. Re-applying poison sets the counter
back to 3 whatever it was: the Poison ability on any chosen enemy, and a DEMON
enemy's poison on a player that is not poisoned. -/
theorem poison_lasts_three_ticks (c : Character) (hp : c.isPoisoned = true)
    (ht : c.poisonTurns = 3) (a1 a2 a3 : Int) (r1 r2 r3 r4 : RandStream) :
    (∀ c1 c2 c3 : Character,
      c1 = (poisonTick c r1).1 →
      c2 = (poisonTick (c1.heal a1) r2).1 →
      c3 = (poisonTick (c2.heal a2) r3).1 →
      (c1.isPoisoned = true ∧ c1.poisonTurns = 2 ∧
        c1.currentHealth = (c.takeDamage 5 none r1).self.currentHealth) ∧
      (c2.isPoisoned = true ∧ c2.poisonTurns = 1 ∧
        c2.currentHealth = ((c1.heal a1).takeDamage 5 none r2).self.currentHealth) ∧
      (c3.isPoisoned = false ∧ c3.poisonTurns = 0 ∧
        c3.currentHealth = ((c2.heal a2).takeDamage 5 none r3).self.currentHealth) ∧
      poisonTick (c3.heal a3) r4 = (c3.heal a3, r4)) ∧
    (∀ (g : Game) (choice : Int) (rest : List Int) (target : Character),
      g.input = choice :: rest → 0 < choice →
      g.enemies[(choice - 1).toNat]? = some target →
      g.usePoisonAbility =
        some { g with
          input := rest
          enemies := g.enemies.set (choice - 1).toNat
            { target with isPoisoned := true, poisonTurns := 3 } }) ∧
    (∀ (s : TurnState) (e : Character) (gear : Gear),
      e.isAlive = true → e.isRestrained = false → e.equippedGear = some gear →
      gear.level = GearLevel.DEMON → 6 < 1 + s.rng 0 % 10 → 1 + s.rng 0 % 10 ≤ 8 →
      s.player.isPoisoned = false → 1 + s.rng 1 % 2 = 1 →
      (enemyTurn s e).1.player = { s.player with isPoisoned := true, poisonTurns := 3 }) := by
  refine ⟨?_, ?_, ?_⟩
  · intro c1 c2 c3 h1 h2 h3
    obtain ⟨t1, p1, e1⟩ := poisonTick_countdown c r1 2 hp (by rw [ht]; rfl)
    rw [← h1] at t1 p1 e1
    have p1t : c1.isPoisoned = true := by simpa using p1
    obtain ⟨t2, p2, e2⟩ := poisonTick_countdown (c1.heal a1) r2 1 p1t (by
      rw [(heal_poison c1 a1).2, t1]; rfl)
    rw [← h2] at t2 p2 e2
    have p2t : c2.isPoisoned = true := by simpa using p2
    obtain ⟨t3, p3, e3⟩ := poisonTick_countdown (c2.heal a2) r3 0 p2t (by
      rw [(heal_poison c2 a2).2, t2]; rfl)
    rw [← h3] at t3 p3 e3
    have p3f : c3.isPoisoned = false := by simpa using p3
    exact ⟨⟨p1t, t1, e1⟩, ⟨p2t, t2, e2⟩, ⟨p3f, t3, e3⟩,
      poisonTick_not_poisoned _ _ p3f⟩
  · intro g choice rest target hin hc ht
    have hlen : (choice - 1).toNat < g.enemies.length := by
      by_contra hge
      rw [List.getElem?_eq_none (by omega)] at ht
      exact Option.noConfusion ht
    have hne : g.enemies.isEmpty = false := by
      cases hg : g.enemies with
      | nil => rw [hg] at hlen; simp at hlen
      | cons x xs => rfl
    have hle : choice ≤ (g.enemies.length : Int) := by omega
    have ht2 : g.enemies[choice.toNat - 1]? = some target := by simpa using ht
    simp [Game.usePoisonAbility, Game.readInt, hne, hin, hc, hle, ht2]
  · intro s e gear halive hres hgear hlevel h6 h8 hnp hcoin
    have hl : e.hasLevel GearLevel.DEMON = true := by
      simp [Character.hasLevel, hgear, hlevel]
    have h6n : ¬ (1 + s.rng 0 % 10 ≤ 6) := by omega
    have hcoin1 : 1 + RandStream.tail s.rng 0 % 2 = 1 := hcoin
    simp [enemyTurn, halive, hres, h6n, h8, hgear, hl, hnp, hcoin1]

/-- Witness for C9: the Goblin just poisoned by the Poison ability is still
poisoned with 2 turns left after its first tick. -/
theorem poison_lasts_three_ticks_witness :
    (poisonTick { goblin with isPoisoned := true, poisonTurns := 3 } (fun _ => 0)).1.isPoisoned
        = true ∧
      (poisonTick { goblin with isPoisoned := true, poisonTurns := 3 } (fun _ => 0)).1.poisonTurns
        = 2 :=
  let h := ((poison_lasts_three_ticks { goblin with isPoisoned := true, poisonTurns := 3 }
    rfl rfl 0 0 0 (fun _ => 0) (fun _ => 0) (fun _ => 0) (fun _ => 0)).1 _ _ _ rfl rfl rfl).1
  ⟨h.1, h.2.1⟩

/-! ## Restrain (C10) -/

/-- A roster of living, restrained enemies only loses its flags in
`enemyTurns`. -/
theorem enemyTurnsLoop_all_restrained (s : TurnState) (es : List Character)
    (h : ∀ e ∈ es, e.isAlive = true ∧ e.isRestrained = true) :
    enemyTurnsLoop s es = (s, es.map (fun e => { e with isRestrained := false })) := by
  induction es with
  | nil => rfl
  | cons x xs ih =>
    obtain ⟨ha, hr⟩ := h x (List.mem_cons_self x xs)
    have hx : enemyTurn s x = (s, { x with isRestrained := false }) := by
      simp [enemyTurn, ha, hr]
    have hxs := ih (fun e he => h e (List.mem_cons_of_mem x he))
    simp [enemyTurnsLoop, hx, hxs]

/-- The dispatch of `playerTurn` for a player that is not restrained, on the
next pending input. -/
theorem playerTurn_cons (g : Game) (choice : Int) (rest : List Int)
    (hr : g.player.isRestrained = false) (hin : g.input = choice :: rest) :
    g.playerTurn =
      if choice = 1 then Game.performAttack { g with input := rest }
      else if choice = 2 then Game.useSpecialAbility { g with input := rest }
      else if choice = 3 then some { g with input := rest, player := g.player.heal 20 }
      else if choice = 4 then Game.playerTurn { g with input := rest }
      else some { g with input := rest } := by
  obtain ⟨player, enemies, turn, input, crand, rng⟩ := g
  simp only at hin hr
  subst hin
  rw [Game.playerTurn]
  simp [hr]

/-- With more fuel than pending inputs, the fuel-bounded body is `playerTurn`. -/
theorem playerTurnFuel_eq (n : Nat) (g : Game) (h : g.input.length ≤ n) :
    Game.playerTurnFuel (n + 1) g = g.playerTurn := by
  induction n generalizing g with
  | zero =>
    obtain ⟨player, enemies, turn, input, crand, rng⟩ := g
    have hin : input = [] := List.length_eq_zero.mp (Nat.le_zero.mp h)
    subst hin
    rw [Game.playerTurn]
    simp only [Game.playerTurnFuel]
  | succ m ih =>
    obtain ⟨player, enemies, turn, input, crand, rng⟩ := g
    cases input with
    | nil =>
      rw [Game.playerTurn]
      simp only [Game.playerTurnFuel]
    | cons c rest =>
      have hrest : rest.length ≤ m := by simpa using h
      rw [Game.playerTurn, Game.playerTurnFuel]
      simp only []
      rw [ih { player := player, enemies := enemies, turn := turn, input := rest,
               crand := crand, rng := rng } hrest]

/-- `playerTurn` is its fuel-bounded body with one unit per pending input. -/
theorem playerTurn_eq_unrolled : Game.playerTurn = Game.playerTurnUnrolled := by
  funext g
  exact (playerTurnFuel_eq g.input.length g (le_refl _)).symm

/-- C10: Restrain blocks exactly one action of its holder. A restrained player's
`playerTurn` returns the starting state with only the player's `isRestrained`
cleared, whatever the pending input (which is not read); a living restrained
enemy's turn in `enemyTurns` changes nothing but its own `isRestrained`,
whatever the random streams (which are not drawn from). The following turn is
not blocked: the player's next `playerTurn` carries out the chosen intent
(heal, here) and the enemy's next turn carries out the drawn action (a roll of
9 or 10 heals it). -/
theorem restrain_blocks_exactly_one_action :
    (∀ g : Game, g.player.isRestrained = true →
      g.playerTurn = some { g with player := { g.player with isRestrained := false } }) ∧
    (∀ (s : TurnState) (e : Character), e.isAlive = true → e.isRestrained = true →
      enemyTurn s e = (s, { e with isRestrained := false })) ∧
    (∀ g : Game, (∀ e ∈ g.enemies, e.isAlive = true ∧ e.isRestrained = true) →
      g.enemyTurns =
        { g with enemies := g.enemies.map (fun e => { e with isRestrained := false }) }) ∧
    (∀ (g : Game) (rest : List Int), g.player.isRestrained = true → g.input = 3 :: rest →
      ∃ g1, g.playerTurn = some g1 ∧ g1.player.isRestrained = false ∧
        g1.playerTurn = some { g1 with input := rest, player := g1.player.heal 20 }) ∧
    (∀ (s : TurnState) (e : Character), e.isAlive = true → e.isRestrained = true →
      8 < 1 + s.rng 0 % 10 →
      enemyTurn (enemyTurn s e).1 (enemyTurn s e).2 =
        ({ s with rng := s.rng.tail }, ({ e with isRestrained := false } : Character).heal 10)) := by
  have hplayer : ∀ g : Game, g.player.isRestrained = true →
      g.playerTurn = some { g with player := { g.player with isRestrained := false } } := by
    intro g hr
    rw [Game.playerTurn]
    simp [hr]
  have henemy : ∀ (s : TurnState) (e : Character), e.isAlive = true → e.isRestrained = true →
      enemyTurn s e = (s, { e with isRestrained := false }) := by
    intro s e ha hr
    simp [enemyTurn, ha, hr]
  refine ⟨hplayer, henemy, ?_, ?_, ?_⟩
  · intro g h
    simp [Game.enemyTurns, enemyTurnsLoop_all_restrained _ _ h]
  · intro g rest hr hin
    refine ⟨_, hplayer g hr, rfl, ?_⟩
    rw [playerTurn_cons { g with player := { g.player with isRestrained := false } } 3 rest
      rfl hin]
    simp
  · intro s e ha hr h8
    rw [henemy s e ha hr]
    have ha2 : ({ e with isRestrained := false } : Character).isAlive = true := ha
    have h6 : ¬ (1 + s.rng 0 % 10 ≤ 6) := by omega
    have h8n : ¬ (1 + s.rng 0 % 10 ≤ 8) := by omega
    simp [enemyTurn, ha2, h6, h8n]

/-- Witness for C10: in the starting state with the Demon-Sword player
restrained and the pending inputs 1, 1 (attack the Goblin), `playerTurn` only
clears the flag and reads no input. -/
theorem restrain_blocks_exactly_one_action_witness :
    Game.playerTurn
      { initializeGame "Hero" 1 [1, 1] (fun _ => 0) (fun _ => 0) with
        player := { demonPlayer with isRestrained := true } }
      = some (initializeGame "Hero" 1 [1, 1] (fun _ => 0) (fun _ => 0)) :=
  restrain_blocks_exactly_one_action.1
    { initializeGame "Hero" 1 [1, 1] (fun _ => 0) (fun _ => 0) with
      player := { demonPlayer with isRestrained := true } } rfl

/-! ## Frame lemmas: what the combat operations leave alone -/

/-- `takeDamage` changes nothing of the defender but `currentHealth`. -/
theorem takeDamage_self_frame (self : Character) (damage : Int) (attacker : Option Character)
    (rs : RandStream) :
    ∃ h, (self.takeDamage damage attacker rs).self = { self with currentHealth := h } := by
  rw [takeDamage_self]
  split_ifs <;> first | exact ⟨self.currentHealth, rfl⟩ | exact ⟨_, rfl⟩

/-- `takeDamage` changes nothing of the attacker but `currentHealth`. -/
theorem takeDamage_attacker_frame (self a : Character) (damage : Int) (rs : RandStream) :
    ∃ h, (self.takeDamage damage (some a) rs).attacker = some { a with currentHealth := h } := by
  rw [takeDamage_attacker_some]
  have hin := fun rs1 => takeDamage_self_frame a self.baseDamage none rs1
  split_ifs
  · exact ⟨a.currentHealth, rfl⟩
  · obtain ⟨h, hh⟩ := hin rs.tail
    exact ⟨h, by rw [hh]⟩
  · obtain ⟨h, hh⟩ := hin rs
    exact ⟨h, by rw [hh]⟩
  · exact ⟨a.currentHealth, rfl⟩

/-- The attacker handed back by `takeDamage`, when one was passed. -/
theorem takeDamage_attacker_getD (self a : Character) (damage : Int) (rs : RandStream) :
    ∃ h, (self.takeDamage damage (some a) rs).attacker.getD a = { a with currentHealth := h } := by
  obtain ⟨h, hh⟩ := takeDamage_attacker_frame self a damage rs
  exact ⟨h, by rw [hh]; rfl⟩

/-- `poisonTick` changes nothing but health and the poison fields. -/
theorem poisonTick_frame (c : Character) (rs : RandStream) :
    ∃ h p t, (poisonTick c rs).1 = { c with currentHealth := h, isPoisoned := p, poisonTurns := t } := by
  by_cases hp : c.isPoisoned = true
  · obtain ⟨h, hh⟩ := takeDamage_self_frame c 5 none rs
    rw [poisonTick_poisoned c rs hp, hh]
    split_ifs
    · exact ⟨h, false, _, rfl⟩
    · exact ⟨h, c.isPoisoned, _, rfl⟩
  · rw [poisonTick_not_poisoned c rs (by simpa using hp)]
    exact ⟨c.currentHealth, c.isPoisoned, c.poisonTurns, rfl⟩

theorem poisonTickAll_length (es : List Character) (rs : RandStream) :
    (poisonTickAll es rs).1.length = es.length := by
  induction es generalizing rs with
  | nil => rfl
  | cons x xs ih => simp [poisonTickAll, ih]

/-- A successful read only consumes the head of the pending input. -/
theorem readInt_some (g g1 : Game) (choice : Int) (h : g.readInt = some (choice, g1)) :
    ∃ rest, g.input = choice :: rest ∧ g1 = { g with input := rest } := by
  unfold Game.readInt at h
  split at h
  · cases h
  · rename_i x rest hin
    simp only [Option.some.injEq, Prod.mk.injEq] at h
    exact ⟨rest, by rw [hin, h.1], h.2.symm⟩

/-- `performAttack` keeps the roster size, the player's gear and souls. -/
theorem performAttack_frame (g g' : Game) (h : g.performAttack = some g') :
    g'.enemies.length = g.enemies.length ∧ g'.player.equippedGear = g.player.equippedGear ∧
      g'.player.souls = g.player.souls := by
  unfold Game.performAttack at h
  split at h
  · cases h; exact ⟨rfl, rfl, rfl⟩
  · split at h
    · cases h
    · rename_i choice g1 hread
      obtain ⟨rest, _, hg1⟩ := readInt_some g g1 choice hread
      subst hg1
      split at h
      · split at h
        · cases h; exact ⟨rfl, rfl, rfl⟩
        · rename_i target _
          cases h
          simp only [List.length_set]
          obtain ⟨x, hx⟩ := takeDamage_attacker_getD target g.player
            (if (g.player.hasLevel GearLevel.DEMON
                && ratioLt target.currentHealth target.maxHealth
                  5404319552844595 18014398509481984) = true
              then mulOneAndHalf g.player.getTotalDamage else g.player.getTotalDamage) g.crand
          refine ⟨trivial, ?_, ?_⟩ <;> simp only [hx]
      · cases h; exact ⟨rfl, rfl, rfl⟩

/-- `useHolyTakedown` keeps the roster size, the player's gear and souls. -/
theorem useHolyTakedown_frame (g g' : Game) (h : g.useHolyTakedown = some g') :
    g'.enemies.length = g.enemies.length ∧ g'.player.equippedGear = g.player.equippedGear ∧
      g'.player.souls = g.player.souls := by
  unfold Game.useHolyTakedown at h
  split at h
  · cases h; exact ⟨rfl, rfl, rfl⟩
  · split at h
    · cases h
    · rename_i choice g1 hread
      obtain ⟨rest, _, hg1⟩ := readInt_some g g1 choice hread
      subst hg1
      split at h
      · split at h
        · cases h; exact ⟨rfl, rfl, rfl⟩
        · rename_i target _
          cases h
          simp only [List.length_set]
          obtain ⟨x, hx⟩ := takeDamage_attacker_getD target g.player
            (g.player.getTotalDamage + g.player.getTotalArmor) g.crand
          refine ⟨trivial, ?_, ?_⟩ <;> simp only [hx]
      · cases h; exact ⟨rfl, rfl, rfl⟩

/-- `usePoisonAbility` keeps the roster size and the whole player. -/
theorem usePoisonAbility_frame (g g' : Game) (h : g.usePoisonAbility = some g') :
    g'.enemies.length = g.enemies.length ∧ g'.player = g.player := by
  unfold Game.usePoisonAbility at h
  split at h
  · cases h; exact ⟨rfl, rfl⟩
  · split at h
    · cases h
    · rename_i choice g1 hread
      obtain ⟨rest, _, hg1⟩ := readInt_some g g1 choice hread
      subst hg1
      split at h
      · split at h
        · cases h; exact ⟨rfl, rfl⟩
        · cases h
          exact ⟨by simp only [List.length_set], rfl⟩
      · cases h; exact ⟨rfl, rfl⟩

/-- `useRestrain` keeps the roster size and the whole player. -/
theorem useRestrain_frame (g g' : Game) (h : g.useRestrain = some g') :
    g'.enemies.length = g.enemies.length ∧ g'.player = g.player := by
  unfold Game.useRestrain at h
  split at h
  · cases h; exact ⟨rfl, rfl⟩
  · split at h
    · cases h
    · rename_i choice g1 hread
      obtain ⟨rest, _, hg1⟩ := readInt_some g g1 choice hread
      subst hg1
      split at h
      · split at h
        · cases h; exact ⟨rfl, rfl⟩
        · cases h
          exact ⟨by simp only [List.length_set], rfl⟩
      · cases h; exact ⟨rfl, rfl⟩

/-- The Multi-Attack loop keeps the roster size and changes nothing of the
player but `currentHealth`. -/
theorem multiAttackLoop_frame (damage : Int) (p : Character) (es : List Character)
    (rs : RandStream) :
    (multiAttackLoop damage p es rs).2.1.length = es.length ∧
      ∃ h, (multiAttackLoop damage p es rs).1 = { p with currentHealth := h } := by
  induction es generalizing p rs with
  | nil => exact ⟨rfl, p.currentHealth, rfl⟩
  | cons x xs ih =>
    obtain ⟨h1, hh1⟩ := takeDamage_attacker_getD x p damage rs
    obtain ⟨hl, h2, hh2⟩ := ih ((x.takeDamage damage (some p) rs).attacker.getD p)
      (x.takeDamage damage (some p) rs).rand
    refine ⟨by simp only [multiAttackLoop, List.length_cons, hl], h2, ?_⟩
    rw [hh1] at hh2
    simp only [multiAttackLoop, hh1, hh2]

/-- The Soul Steal loop keeps the roster size. -/
theorem soulStealLoop_length (souls : Int) (es : List Character) (rs : RandStream) :
    (soulStealLoop souls es rs).2.1.length = es.length := by
  induction es generalizing souls rs with
  | nil => rfl
  | cons x xs ih =>
    simp only [soulStealLoop]
    split_ifs <;> simp only [List.length_cons, ih]

/-- The ability dispatch keeps the roster size and the player's gear, and
changes the player's souls only by running Soul Steal. -/
theorem dispatchAbility_frame (g g' : Game) (ability : String)
    (h : g.dispatchAbility ability = some g') :
    g'.enemies.length = g.enemies.length ∧ g'.player.equippedGear = g.player.equippedGear ∧
      (g'.player.souls = g.player.souls ∨ (ability = "Soul Steal" ∧ g' = g.useSoulSteal)) := by
  unfold Game.dispatchAbility at h
  split_ifs at h with h1 h2 h3 h4 h5 h6
  · obtain ⟨a, b⟩ := usePoisonAbility_frame g g' h
    exact ⟨a, by rw [b], Or.inl (by rw [b])⟩
  · cases h
    obtain ⟨a, x, hx⟩ := multiAttackLoop_frame (mulPoint7 g.player.getTotalDamage) g.player
      g.enemies g.crand
    refine ⟨a, ?_, Or.inl ?_⟩ <;> simp only [Game.useMultiAttack, hx]
  · obtain ⟨a, b⟩ := useRestrain_frame g g' h
    exact ⟨a, by rw [b], Or.inl (by rw [b])⟩
  · obtain ⟨a, b, c⟩ := useHolyTakedown_frame g g' h
    exact ⟨a, b, Or.inl c⟩
  · cases h
    exact ⟨soulStealLoop_length _ _ _, rfl, Or.inr ⟨h5, rfl⟩⟩
  · cases h
    exact ⟨rfl, rfl, Or.inl rfl⟩
  · cases h
    exact ⟨rfl, rfl, Or.inl rfl⟩

/-- `useSpecialAbility` keeps the roster size and the player's gear, and
changes the player's souls only by running Soul Steal. -/
theorem useSpecialAbility_frame (g g' : Game) (h : g.useSpecialAbility = some g') :
    g'.enemies.length = g.enemies.length ∧ g'.player.equippedGear = g.player.equippedGear ∧
      (g'.player.souls = g.player.souls ∨
        ∃ g0 : Game, g0.player = g.player ∧ g0.enemies = g.enemies ∧ g' = g0.useSoulSteal) := by
  unfold Game.useSpecialAbility at h
  split at h
  · cases h; exact ⟨rfl, rfl, Or.inl rfl⟩
  · split at h
    · cases h; exact ⟨rfl, rfl, Or.inl rfl⟩
    · split at h
      · cases h
      · rename_i choice g1 hread
        obtain ⟨rest, _, hg1⟩ := readInt_some g g1 choice hread
        subst hg1
        split at h
        · cases h; exact ⟨rfl, rfl, Or.inl rfl⟩
        · split at h
          · cases h; exact ⟨rfl, rfl, Or.inl rfl⟩
          · obtain ⟨a, b, c⟩ := dispatchAbility_frame _ g' _ h
            refine ⟨a, b, ?_⟩
            rcases c with c | ⟨_, c⟩
            · exact Or.inl c
            · exact Or.inr ⟨{ g with input := rest }, rfl, rfl, c⟩

/-- `playerTurn` keeps the roster size and the player's gear, and changes the
player's souls only by running Soul Steal. -/
theorem playerTurn_frame (g g' : Game) (h : g.playerTurn = some g') :
    g'.enemies.length = g.enemies.length ∧ g'.player.equippedGear = g.player.equippedGear ∧
      (g'.player.souls = g.player.souls ∨
        ∃ g0 : Game, g0.player = g.player ∧ g0.enemies = g.enemies ∧ g' = g0.useSoulSteal) := by
  generalize hn : g.input.length = n
  induction n generalizing g with
  | zero =>
    by_cases hr : g.player.isRestrained = true
    · rw [Game.playerTurn] at h
      simp only [hr, if_true, Option.some.injEq] at h
      subst h
      exact ⟨rfl, rfl, Or.inl rfl⟩
    · have hin : g.input = [] := List.length_eq_zero.mp hn
      obtain ⟨player, enemies, turn, input, crand, rng⟩ := g
      simp only at hin hr
      subst hin
      rw [Game.playerTurn] at h
      simp [hr] at h
  | succ m ih =>
    by_cases hr : g.player.isRestrained = true
    · rw [Game.playerTurn] at h
      simp only [hr, if_true, Option.some.injEq] at h
      subst h
      exact ⟨rfl, rfl, Or.inl rfl⟩
    · obtain ⟨choice, rest, hin⟩ : ∃ c r, g.input = c :: r := by
        cases hg : g.input with
        | nil => rw [hg] at hn; simp at hn
        | cons c r => exact ⟨c, r, rfl⟩
      rw [playerTurn_cons g choice rest (by simpa using hr) hin] at h
      split_ifs at h
      · obtain ⟨a, b, c⟩ := performAttack_frame { g with input := rest } g' h
        exact ⟨a, b, Or.inl c⟩
      · exact useSpecialAbility_frame { g with input := rest } g' h
      · cases h; exact ⟨rfl, rfl, Or.inl rfl⟩
      · have hl : ({ g with input := rest } : Game).input.length = m := by
          rw [hin] at hn; simpa using hn
        exact ih { g with input := rest } h hl
      · cases h; exact ⟨rfl, rfl, Or.inl rfl⟩

/-- `processPoison` keeps the roster size and the player's gear and souls. -/
theorem processPoison_frame (g : Game) :
    g.processPoison.enemies.length = g.enemies.length ∧
      g.processPoison.player.equippedGear = g.player.equippedGear ∧
      g.processPoison.player.souls = g.player.souls := by
  obtain ⟨h, p, t, hh⟩ := poisonTick_frame g.player g.crand
  refine ⟨poisonTickAll_length _ _, ?_, ?_⟩ <;> simp only [Game.processPoison, hh]

/-- An enemy's hit changes nothing of the player but `currentHealth`. -/
theorem enemyHits_frame (s : TurnState) (enemy : Character) (damage : Int) :
    ∃ h, (enemyHits s enemy damage).1.player = { s.player with currentHealth := h } := by
  obtain ⟨h, hh⟩ := takeDamage_self_frame s.player damage (some enemy) s.crand
  exact ⟨h, by simp only [enemyHits, hh]⟩

/-- One enemy's turn keeps the player's gear and souls. -/
theorem enemyTurn_frame (s : TurnState) (enemy : Character) :
    (enemyTurn s enemy).1.player.equippedGear = s.player.equippedGear ∧
      (enemyTurn s enemy).1.player.souls = s.player.souls := by
  have hit : ∀ (s1 : TurnState) (d : Int), s1.player = s.player →
      (enemyHits s1 enemy d).1.player.equippedGear = s.player.equippedGear ∧
        (enemyHits s1 enemy d).1.player.souls = s.player.souls := by
    intro s1 d hs
    obtain ⟨h, hh⟩ := enemyHits_frame s1 enemy d
    rw [hh, hs]
    exact ⟨rfl, rfl⟩
  simp only [enemyTurn]
  split_ifs <;> first | exact ⟨rfl, rfl⟩ | exact hit _ _ rfl

/-- The enemy phase keeps the roster size and the player's gear and souls. -/
theorem enemyTurnsLoop_frame (s : TurnState) (es : List Character) :
    (enemyTurnsLoop s es).2.length = es.length ∧
      (enemyTurnsLoop s es).1.player.equippedGear = s.player.equippedGear ∧
      (enemyTurnsLoop s es).1.player.souls = s.player.souls := by
  induction es generalizing s with
  | nil => exact ⟨rfl, rfl, rfl⟩
  | cons x xs ih =>
    obtain ⟨a, b, c⟩ := ih (enemyTurn s x).1
    obtain ⟨d, e⟩ := enemyTurn_frame s x
    exact ⟨by simp only [enemyTurnsLoop, List.length_cons, a], by
      simp only [enemyTurnsLoop, b, d], by simp only [enemyTurnsLoop, c, e]⟩

/-- The cleanup fold is a filter on `isAlive`; with DEMON gear every dropped
enemy adds one soul. -/
theorem removeDead_eq (demon : Bool) (souls : Int) (es : List Character) :
    removeDead demon souls es =
      (if demon = true then souls + ((es.filter (fun e => !e.isAlive)).length : Int) else souls,
       es.filter (fun e => e.isAlive)) := by
  induction es generalizing souls with
  | nil => simp [removeDead]
  | cons x xs ih =>
    by_cases hx : x.isAlive = true
    · simp [removeDead, hx, ih]
    · have hx2 : x.isAlive = false := by simpa using hx
      simp only [removeDead, hx2, Bool.not_false, if_true, ih, List.filter_cons_of_pos,
        List.length_cons]
      cases demon <;> simp [hx2]
      omega

/-- The living and the dead enemies partition the roster. -/
theorem alive_add_dead_length (es : List Character) :
    (es.filter (fun e => e.isAlive)).length + (es.filter (fun e => !e.isAlive)).length
      = es.length := by
  induction es with
  | nil => rfl
  | cons x xs ih =>
    by_cases hx : x.isAlive = true
    · simp [hx]; omega
    · have hx2 : x.isAlive = false := by simpa using hx
      simp [hx2]; omega

/-- Gear level tests depend on the gear alone. -/
theorem hasLevel_congr {a b : Character} (h : b.equippedGear = a.equippedGear) (l : GearLevel) :
    b.hasLevel l = a.hasLevel l := by
  unfold Character.hasLevel
  rw [h]

/-- The cleanup keeps the player's gear; with DEMON gear it moves one unit from
the roster size to the soul counter for every dead enemy, otherwise it leaves
the souls alone. -/
theorem removeDeadEnemies_frame (g : Game) :
    g.removeDeadEnemies.player.equippedGear = g.player.equippedGear ∧
      (if g.player.hasLevel GearLevel.DEMON = true then
        g.removeDeadEnemies.player.souls + (g.removeDeadEnemies.enemies.length : Int)
          = g.player.souls + (g.enemies.length : Int)
       else g.removeDeadEnemies.player.souls = g.player.souls) := by
  refine ⟨rfl, ?_⟩
  have h := alive_add_dead_length g.enemies
  simp only [Game.removeDeadEnemies, removeDead_eq]
  split_ifs <;> (try simp only []) <;> omega

/-- One round conserves, for a DEMON-gear player whose turn takes no soul, the
sum of the soul counter and the roster size; for any other player it conserves
the souls. The gear is kept. -/
theorem gameRound_frame (g g1 : Game) (h : g.gameRound = some g1)
    (hs : ∀ g2, g.processPoison.playerTurn = some g2 → g2.player.souls = g.player.souls) :
    g1.player.equippedGear = g.player.equippedGear ∧
      (if g.player.hasLevel GearLevel.DEMON = true then
        g1.player.souls + (g1.enemies.length : Int) = g.player.souls + (g.enemies.length : Int)
       else g1.player.souls = g.player.souls) := by
  unfold Game.gameRound at h
  split at h
  · cases h
  · rename_i g2 hturn
    obtain ⟨p1, p2, _⟩ := processPoison_frame g
    obtain ⟨t1, t2, _⟩ := playerTurn_frame _ g2 hturn
    have t3 := hs g2 hturn
    obtain ⟨c1, c2⟩ := removeDeadEnemies_frame g2
    have hg2 : g2.player.equippedGear = g.player.equippedGear := by rw [t2, p2]
    rw [hasLevel_congr hg2] at c2
    have hlen : g2.enemies.length = g.enemies.length := by rw [t1, p1]
    simp only [] at h
    split_ifs at h
    · cases h
      refine ⟨by rw [c1, hg2], ?_⟩
      split_ifs at c2 ⊢ <;> omega
    · cases h
      obtain ⟨e1, e2, e3⟩ := enemyTurnsLoop_frame
        { player := g2.removeDeadEnemies.player, crand := g2.removeDeadEnemies.crand,
          rng := g2.removeDeadEnemies.rng } g2.removeDeadEnemies.enemies
      simp only [Game.enemyTurns]
      simp only [] at e1 e2 e3
      refine ⟨by rw [e2, c1, hg2], ?_⟩
      rw [e1, e3]
      split_ifs at c2 ⊢ <;> omega

/-- Over a whole run of `gameLoop` in which no player turn takes a soul, a
DEMON-gear player gains exactly one soul per enemy that left the roster; any
other player keeps its souls. -/
theorem gameLoop_souls (fuel : Nat) (g final : Game) (hn : g.noSoulStolen fuel)
    (h : g.gameLoop fuel = some final) :
    if g.player.hasLevel GearLevel.DEMON = true then
      final.player.souls + (final.enemies.length : Int) = g.player.souls + (g.enemies.length : Int)
    else final.player.souls = g.player.souls := by
  induction fuel generalizing g with
  | zero =>
    simp only [Game.gameLoop] at h
    split_ifs at h
    all_goals cases h
    all_goals split_ifs <;> rfl
  | succ n ih =>
    simp only [Game.gameLoop] at h
    split at h
    · split at h
      · cases h
      · rename_i g1 hround
        obtain ⟨hs, hrest⟩ := hn
        obtain ⟨r1, r2⟩ := gameRound_frame g g1 hround hs
        have := ih g1 (hrest g1 hround) h
        rw [hasLevel_congr r1] at this
        split_ifs at this r2 ⊢ <;> omega
    · cases h
      split_ifs <;> rfl

/-! ## Cleanup and souls (C11) -/

/-- C11, as stated, fails in its last part. In `reachableMatch` the Demon-Sword
player never uses Soul Steal (entry 3 of its menu is Multi-Attack). After two
rounds the player has 16 health and the enemies 12, 54 and 153. In round 3 the
Goblin's attack kills the player, whose Death Blow takes the Goblin from 12 to
-1; the match ends before any cleanup, so the human has finished one enemy and
has 0 souls. -/
theorem death_blow_kill_adds_no_soul :
    reachableMatch.player.hasLevel GearLevel.DEMON = true ∧
    reachableMatch.player.souls = 0 ∧
    (chooseStartingGear 1).abilities[2]? = some "Multi-Attack" ∧
    (reachableMatch.gameRound.bind Game.gameRound).map
        (fun g => (g.player.currentHealth, g.player.souls,
          g.enemies.map (fun e => e.currentHealth)))
      = some (16, 0, [12, 54, 153]) ∧
    (Game.gameLoop 3 reachableMatch).map
        (fun g => (g.player.currentHealth, g.player.souls,
          g.enemies.map (fun e => e.currentHealth)))
      = some (-63, 0, [-1, 47, 152]) ∧
    (Game.gameLoop 4 reachableMatch).map (fun g => g.player.souls) = some 0 := by
  decide!

/-- C11, amended: the cleanup keeps exactly the enemies with `currentHealth > 0`,
unchanged and in order, and changes nothing of the player but the souls, which
rise by the number of removed enemies when the player wears DEMON gear and stay
otherwise. A player turn changes the souls only by running Soul Steal. Hence,
over a run of `gameLoop` in which no player turn takes a soul, a DEMON-gear
player ends with its initial souls plus the number of enemies that left the
roster (an enemy at `currentHealth ≤ 0` that is never cleaned up adds none), and
any other player with its initial souls. -/
theorem cleanup_adds_one_soul_per_removed_enemy :
    (∀ g : Game,
      g.removeDeadEnemies.enemies = g.enemies.filter (fun e => decide (0 < e.currentHealth)) ∧
      g.removeDeadEnemies.player =
        { g.player with souls :=
            if g.player.hasLevel GearLevel.DEMON = true then
              g.player.souls
                + ((g.enemies.filter (fun e => decide (e.currentHealth ≤ 0))).length : Int)
            else g.player.souls } ∧
      (g.enemies.filter (fun e => decide (e.currentHealth ≤ 0))).length
        + g.removeDeadEnemies.enemies.length = g.enemies.length) ∧
    (∀ g g' : Game, g.playerTurn = some g' →
      g'.player.souls = g.player.souls ∨
        ∃ g0 : Game, g0.player = g.player ∧ g0.enemies = g.enemies ∧ g' = g0.useSoulSteal) ∧
    (∀ (fuel : Nat) (g final : Game), g.noSoulStolen fuel → g.gameLoop fuel = some final →
      if g.player.hasLevel GearLevel.DEMON = true then
        final.player.souls
          = g.player.souls + ((g.enemies.length : Int) - (final.enemies.length : Int))
      else final.player.souls = g.player.souls) := by
  have hdead : (fun e : Character => !e.isAlive) = (fun e => decide (e.currentHealth ≤ 0)) := by
    funext e
    unfold Character.isAlive
    by_cases h : 0 < e.currentHealth
    · have h2 : ¬ e.currentHealth ≤ 0 := by omega
      simp [h, h2]
    · have h2 : e.currentHealth ≤ 0 := by omega
      simp [h, h2]
  have halive : (fun e : Character => e.isAlive) = (fun e => decide (0 < e.currentHealth)) := rfl
  refine ⟨?_, ?_, ?_⟩
  · intro g
    have h := alive_add_dead_length g.enemies
    rw [hdead, halive] at h
    refine ⟨?_, ?_, ?_⟩
    · simp only [Game.removeDeadEnemies, removeDead_eq, halive]
    · simp only [Game.removeDeadEnemies, removeDead_eq, hdead]
    · simp only [Game.removeDeadEnemies, removeDead_eq, halive]
      omega
  · intro g g' h
    exact (playerTurn_frame g g' h).2.2
  · intro fuel g final hn h
    have := gameLoop_souls fuel g final hn h
    split_ifs at this ⊢ <;> omega

/-- Witness for C11 (amended): from `finishingBlowGame` the player's attack
kills the Goblin, the cleanup removes it and the match ends in victory with one
more soul for the one removed enemy. -/
theorem cleanup_adds_one_soul_per_removed_enemy_witness :
    Game.gameLoop 1 finishingBlowGame
        = some { finishingBlowGame with
            player := { demonPlayer with souls := 3 }, enemies := [], input := [] } ∧
      ({ demonPlayer with souls := 3 } : Character).souls
        = finishingBlowGame.player.souls + (((1 : Nat) : Int) - ((0 : Nat) : Int)) := by
  have hp : finishingBlowGame.processPoison.playerTurn
      = some { finishingBlowGame with
          enemies := [{ goblin with currentHealth := -54 }], input := [] } := by
    rw [playerTurn_cons finishingBlowGame.processPoison 1 [1] rfl rfl]
    simp only [Game.performAttack, takeDamage_eq_unrolled]
    rfl
  have hloop : Game.gameLoop 1 finishingBlowGame
      = some { finishingBlowGame with
          player := { demonPlayer with souls := 3 }, enemies := [], input := [] } := by
    simp only [Game.gameLoop, Game.gameRound, hp, Game.removeDeadEnemies]
    rfl
  have hn : finishingBlowGame.noSoulStolen 1 := by
    refine ⟨?_, fun _ _ => trivial⟩
    intro g2 h2
    rw [hp] at h2
    cases h2
    rfl
  exact ⟨hloop, cleanup_adds_one_soul_per_removed_enemy.2.2 1 finishingBlowGame _ hn hloop⟩

/-! ## Death Blow (C12, C13) -/

/-- An actor wears one gear, so DEMON gear excludes GOD gear. -/
theorem not_god_of_demon {c : Character} (h : c.hasLevel GearLevel.DEMON = true) :
    c.hasLevel GearLevel.GOD = false := by
  unfold Character.hasLevel at h ⊢
  cases hg : c.equippedGear with
  | none => rfl
  | some g =>
    rw [hg] at h
    simp only [decide_eq_true_eq] at h
    simp [h]

/-- C12: when a `takeDamage` call with an attacker leaves a DEMON-gear defender
at `currentHealth ≤ 0`, the attacker receives exactly one further `takeDamage`
whose incoming damage is the defender's `baseDamage` and which has no attacker;
it goes through the attacker's own GOD dodge and armor floor and returns no
attacker, so it cannot trigger a Death Blow. The call stack of `takeDamage` is
2 deep in that case (a bound of 1 is reached, a bound of 2 is not), at most 2
deep for every call, and 1 deep for every call without attacker. -/
theorem death_blow_fires_once (self a : Character) (damage : Int) (rs : RandStream)
    (hdemon : self.hasLevel GearLevel.DEMON = true)
    (hdead : (self.takeDamage damage (some a) rs).self.currentHealth ≤ 0) :
    (self.takeDamage damage (some a) rs).attacker
        = some (a.takeDamage self.baseDamage none rs).self ∧
    (self.takeDamage damage (some a) rs).rand = (a.takeDamage self.baseDamage none rs).rand ∧
    (a.takeDamage self.baseDamage none rs).self =
      (if (a.hasLevel GearLevel.GOD && decide (rs 0 % 100 < 20)) = true then a
       else { a with currentHealth := a.currentHealth - max 1 (self.baseDamage - a.getTotalArmor) }) ∧
    (a.takeDamage self.baseDamage none rs).attacker = none ∧
    Character.takeDamageFuel 1 self damage (some a) rs = none ∧
    Character.takeDamageFuel 2 self damage (some a) rs
        = some (self.takeDamage damage (some a) rs) ∧
    (∀ (c : Character) (d : Int) (att : Option Character) (r : RandStream),
      Character.takeDamageFuel 2 c d att r = some (c.takeDamage d att r)) ∧
    (∀ (c : Character) (d : Int) (r : RandStream),
      Character.takeDamageFuel 1 c d none r = some (c.takeDamage d none r)) := by
  have hgod := not_god_of_demon hdemon
  have hatt := takeDamage_attacker_some self a damage rs
  have hcond : (decide ((self.takeDamage damage (some a) rs).self.currentHealth ≤ 0)
      && self.hasLevel GearLevel.DEMON) = true := by simp [hdead, hdemon]
  simp only [hgod, Bool.false_and, Bool.false_eq_true, if_false, hcond, if_true] at hatt
  have hself := takeDamage_self self damage (some a) rs
  simp only [hgod, Bool.false_and, Bool.false_eq_true, if_false] at hself
  rw [hself] at hdead
  refine ⟨hatt, ?_, takeDamage_self_none a self.baseDamage rs, takeDamage_attacker_none _ _ _,
    ?_, takeDamageFuel_some 0 self a damage rs, ?_, fun c d r => takeDamageFuel_none 0 c d r⟩
  · rw [Character.takeDamage]
    simp only [hgod, Bool.false_and, Bool.false_eq_true, if_false]
    have hl : ∀ x : Int, ({ self with currentHealth := x } : Character).hasLevel GearLevel.DEMON
        = true := fun _ => hdemon
    simp only [hl, Bool.and_true]
    rw [if_pos (by simpa [hdemon] using hdead)]
  · simp only [Character.takeDamageFuel, hgod, Bool.false_and, Bool.false_eq_true, if_false]
    have hl : ∀ x : Int, ({ self with currentHealth := x } : Character).hasLevel GearLevel.DEMON
        = true := fun _ => hdemon
    simp only [hl, Bool.and_true]
    rw [if_pos (by simpa [hdemon] using hdead)]
  · intro c d att r
    cases att with
    | none => exact takeDamageFuel_none 1 c d r
    | some b => exact takeDamageFuel_some 0 c b d r

/-- Witness for C12: the Goblin's attack of 25 leaves the Demon-Sword player,
at 10 health, at -5, and the Goblin takes the player's `baseDamage` 20 through
its armor 7. -/
theorem death_blow_fires_once_witness :
    (({ demonPlayer with currentHealth := 10 } : Character).takeDamage 25
        (some { goblin with currentHealth := 12 }) (fun _ => 0)).attacker
      = some (({ goblin with currentHealth := 12 } : Character).takeDamage
          ({ demonPlayer with currentHealth := 10 } : Character).baseDamage none
          (fun _ => 0)).self :=
  (death_blow_fires_once { demonPlayer with currentHealth := 10 }
    { goblin with currentHealth := 12 } 25
    (fun _ => 0) (by decide) (by rw [takeDamage_self]; decide)).1

/-- C13, as stated, fails: a hit on a DEMON-gear defender that is already at
`currentHealth ≤ 0` triggers the Death Blow again. The Demon Knight's hit on
the Demon-Sword player at 0 health costs the Knight 7 health. In round 3 of
`reachableMatch` (enemies at 12, 54 and 153 before it) the Goblin's attack
takes the player to 0, and the later attacks of the Demon Knight and of the
Angel Guardian on the dead player each trigger a Death Blow too: all three
attackers lose health. -/
theorem death_blow_retriggers_on_dead_defender :
    ¬ (0 < ({ demonPlayer with currentHealth := 0 } : Character).currentHealth) ∧
    (({ demonPlayer with currentHealth := 0 } : Character).takeDamage 40
        (some { demonKnight with currentHealth := 54 }) (fun _ => 50)).attacker
      = some { demonKnight with currentHealth := 47 } ∧
    (reachableMatch.gameRound.bind Game.gameRound).map
        (fun g => g.enemies.map (fun e => e.currentHealth)) = some [12, 54, 153] ∧
    ((reachableMatch.gameRound.bind Game.gameRound).bind Game.gameRound).map
        (fun g => g.enemies.map (fun e => e.currentHealth)) = some [-1, 47, 152] := by
  decide!

/-- C13, amended: with an attacker `a`, `takeDamage` triggers the Death Blow
exactly when the defender wears DEMON gear and its `currentHealth` after the
hit is at most 0, whether or not it was above 0 before the hit; the attacker
then takes the defender's `baseDamage` and, unless its own GOD dodge fires,
loses health. A hit on a defender without DEMON gear, or a hit that leaves the
defender above 0, hands the attacker back unchanged; a call with no attacker
returns none. -/
theorem death_blow_trigger (self a : Character) (damage : Int) (rs : RandStream) :
    (self.hasLevel GearLevel.DEMON = true →
      (self.takeDamage damage (some a) rs).self.currentHealth ≤ 0 →
      (self.takeDamage damage (some a) rs).attacker
          = some (a.takeDamage self.baseDamage none rs).self ∧
        (¬ (a.hasLevel GearLevel.GOD = true ∧ rs 0 % 100 < 20) →
          (a.takeDamage self.baseDamage none rs).self.currentHealth < a.currentHealth)) ∧
    (self.hasLevel GearLevel.DEMON = false →
      (self.takeDamage damage (some a) rs).attacker = some a) ∧
    (0 < (self.takeDamage damage (some a) rs).self.currentHealth →
      (self.takeDamage damage (some a) rs).attacker = some a) ∧
    (self.takeDamage damage none rs).attacker = none := by
  have hatt := takeDamage_attacker_some self a damage rs
  refine ⟨?_, ?_, ?_, takeDamage_attacker_none self damage rs⟩
  · intro hdemon hdead
    have hgod := not_god_of_demon hdemon
    have hcond : (decide ((self.takeDamage damage (some a) rs).self.currentHealth ≤ 0)
        && self.hasLevel GearLevel.DEMON) = true := by simp [hdead, hdemon]
    simp only [hgod, Bool.false_and, Bool.false_eq_true, if_false, hcond, if_true] at hatt
    refine ⟨hatt, fun hno => ?_⟩
    have := takeDamage_lowers_health_by_at_least_one a self.baseDamage none rs hno
    omega
  · intro hnd
    rw [hatt]
    simp only [hnd, Bool.and_false, Bool.false_eq_true, if_false, ite_self]
  · intro hpos
    rw [hatt]
    have hc : ¬ ((self.takeDamage damage (some a) rs).self.currentHealth ≤ 0) := by omega
    simp only [hc, decide_False, Bool.false_and, Bool.false_eq_true, if_false, ite_self]

/-- Witness for C13 (amended): the Demon Knight's hit on the player already at
-5 health triggers the Death Blow. -/
theorem death_blow_trigger_witness :
    (({ demonPlayer with currentHealth := -5 } : Character).takeDamage 40 (some demonKnight)
        (fun _ => 50)).attacker
      = some (demonKnight.takeDamage
          ({ demonPlayer with currentHealth := -5 } : Character).baseDamage none
          (fun _ => 50)).self :=
  ((death_blow_trigger { demonPlayer with currentHealth := -5 } demonKnight 40
    (fun _ => 50)).1 (by decide) (by rw [takeDamage_self]; decide)).1

/-! ## Dodge and holy bonus (C14, C15) -/

/-- The `rand()` stream after a call that triggers no Death Blow: one draw is
consumed exactly when the defender wears GOD gear. -/
theorem takeDamage_rand_dodge (self : Character) (damage : Int) (attacker : Option Character)
    (rs : RandStream) (hd : (self.hasLevel GearLevel.GOD && decide (rs 0 % 100 < 20)) = true) :
    self.takeDamage damage attacker rs = { self := self, attacker := attacker, rand := rs.tail } := by
  have hg : self.hasLevel GearLevel.GOD = true := by
    simp only [Bool.and_eq_true] at hd
    exact hd.1
  cases attacker <;> rw [Character.takeDamage, if_pos hd] <;> simp only [hg, if_true]

/-- C14: with the dodge roll `rand() % 100` in `[0, 100)`, a GOD-gear defender
whose roll is below 20 is left entirely unchanged by `takeDamage`, and so is
the attacker, for every incoming damage: no health change, no minimum-1 floor,
no Death Blow. A defender without GOD gear always loses health, whatever the
roll, and its call draws no roll. -/
theorem god_dodge_negates_whole_hit (self : Character) (damage : Int)
    (attacker : Option Character) (rs : RandStream) :
    rs 0 % 100 < 100 ∧
    (self.hasLevel GearLevel.GOD = true → rs 0 % 100 < 20 →
      (self.takeDamage damage attacker rs).self = self ∧
      (self.takeDamage damage attacker rs).attacker = attacker ∧
      (self.takeDamage damage attacker rs).rand = rs.tail) ∧
    (self.hasLevel GearLevel.GOD = false →
      (self.takeDamage damage attacker rs).self.currentHealth ≤ self.currentHealth - 1 ∧
      (self.takeDamage damage attacker rs).self
        = (self.takeDamage damage attacker (fun _ => 0)).self) := by
  refine ⟨Nat.mod_lt _ (by decide), ?_, ?_⟩
  · intro hg hr
    have hd : (self.hasLevel GearLevel.GOD && decide (rs 0 % 100 < 20)) = true := by
      simp [hg, hr]
    rw [takeDamage_rand_dodge self damage attacker rs hd]
    exact ⟨rfl, rfl, rfl⟩
  · intro hg
    refine ⟨takeDamage_lowers_health_by_at_least_one self damage attacker rs (by simp [hg]), ?_⟩
    rw [takeDamage_self, takeDamage_self]
    simp only [hg, Bool.false_and, Bool.false_eq_true, if_false]

/-- Witness for C14: the Angel Guardian (GOD gear) with a roll of 19 is left
unchanged by a hit of 1000. -/
theorem god_dodge_negates_whole_hit_witness :
    (angelGuardian.takeDamage 1000 (some demonPlayer) (fun _ => 19)).self = angelGuardian ∧
      (angelGuardian.takeDamage 1000 (some demonPlayer) (fun _ => 19)).attacker
        = some demonPlayer :=
  let h := (god_dodge_negates_whole_hit angelGuardian 1000 (some demonPlayer)
    (fun _ => 19)).2.1 (by decide) (by decide)
  ⟨h.1, h.2.1⟩

/-- The truncated `x * 1.5` of a non-negative integer is the integer part of
the rational product. -/
theorem mulOneAndHalf_eq_floor {x : Int} (hx : 0 ≤ x) :
    mulOneAndHalf x = ⌊(3 / 2 : ℚ) * (x : ℚ)⌋ := by
  rw [mulOneAndHalf_eq_ediv hx]
  symm
  rw [Int.floor_eq_iff]
  have h1 : 2 * (3 * x / 2) ≤ 3 * x := by omega
  have h2 : 3 * x < 2 * (3 * x / 2) + 2 := by omega
  have h1q : (2 : ℚ) * ((3 * x / 2 : Int) : ℚ) ≤ 3 * (x : ℚ) := by exact_mod_cast h1
  have h2q : 3 * (x : ℚ) < (2 : ℚ) * ((3 * x / 2 : Int) : ℚ) + 2 := by exact_mod_cast h2
  constructor <;> linarith

/-- C15, as stated, fails for the pairings with a GOD-gear defender: the Angel
Guardian (effective armor 55) hit for 100 by the Demon-Sword player with a
dodge roll of 19 loses nothing, not `max(1, 100 - 55) = 45`. -/
theorem dodged_hit_costs_nothing :
    angelGuardian.getTotalArmor = 55 ∧
    demonPlayer.hasLevel GearLevel.GOD = false ∧
    angelGuardian.currentHealth
        - (angelGuardian.takeDamage 100 (some demonPlayer) (fun _ => 19)).self.currentHealth = 0 ∧
    ¬ (angelGuardian.currentHealth
        - (angelGuardian.takeDamage 100 (some demonPlayer) (fun _ => 19)).self.currentHealth
          = max 1 (100 - angelGuardian.getTotalArmor)) := by
  rw [takeDamage_self]
  decide

/-- C15, amended: a hit negated by the defender's GOD dodge costs nothing. For
every other hit, the health lost by a DEMON-gear defender hit by a GOD-gear
attacker is `1.5 * max(1, damage - effective armor)` truncated to an integer,
the floor of 1 being applied first, so that a fully absorbed hit costs exactly
1; for every other pairing of gear levels, and for a hit with no attacker, the
health lost is exactly `max(1, damage - effective armor)`. -/
theorem holy_bonus_applied_after_floor (self : Character) (damage : Int)
    (attacker : Option Character) (rs : RandStream) :
    (self.hasLevel GearLevel.GOD = true ∧ rs 0 % 100 < 20 →
      self.currentHealth - (self.takeDamage damage attacker rs).self.currentHealth = 0) ∧
    (¬ (self.hasLevel GearLevel.GOD = true ∧ rs 0 % 100 < 20) →
      (∀ a, attacker = some a → a.hasLevel GearLevel.GOD = true →
        self.hasLevel GearLevel.DEMON = true →
        self.currentHealth - (self.takeDamage damage attacker rs).self.currentHealth
            = ⌊(3 / 2 : ℚ) * ((max 1 (damage - self.getTotalArmor) : Int) : ℚ)⌋ ∧
          (damage - self.getTotalArmor ≤ 1 →
            self.currentHealth - (self.takeDamage damage attacker rs).self.currentHealth = 1)) ∧
      ((∀ a, attacker = some a →
          ¬ (a.hasLevel GearLevel.GOD = true ∧ self.hasLevel GearLevel.DEMON = true)) →
        self.currentHealth - (self.takeDamage damage attacker rs).self.currentHealth
          = max 1 (damage - self.getTotalArmor))) := by
  constructor
  · intro hdodge
    have hd : (self.hasLevel GearLevel.GOD && decide (rs 0 % 100 < 20)) = true := by
      simpa using hdodge
    rw [takeDamage_self, if_pos hd]
    exact sub_self _
  · intro hno
    have hd : ¬ (self.hasLevel GearLevel.GOD && decide (rs 0 % 100 < 20)) = true := by
      simpa using hno
    have h1 : (1 : Int) ≤ max 1 (damage - self.getTotalArmor) := le_max_left _ _
    rw [takeDamage_self, if_neg hd]
    constructor
    · intro a ha hgod hdemon
      subst ha
      simp only [hgod, hdemon, Bool.and_self, if_true, sub_sub_cancel]
      refine ⟨mulOneAndHalf_eq_floor (by omega), fun hle => ?_⟩
      rw [max_eq_left hle]
      decide
    · intro hpair
      cases attacker with
      | none => simp
      | some a =>
        have hm : (a.hasLevel GearLevel.GOD && self.hasLevel GearLevel.DEMON) = false := by
          simpa using hpair a rfl
        simp [hm]

/-- Witness for C15 (amended): the God-Spear player's hit of 14 on the Demon
Knight (effective armor 13) is floored to 1 and then multiplied: it costs 1. -/
theorem holy_bonus_applied_after_floor_witness :
    demonKnight.currentHealth
        - (demonKnight.takeDamage 14 (some godPlayer) (fun _ => 0)).self.currentHealth = 1 :=
  (((holy_bonus_applied_after_floor demonKnight 14 (some godPlayer) (fun _ => 0)).2
    (by decide)).1 godPlayer rfl (by decide) (by decide)).2 (by decide)

/-! ## Gear (C16, C17) -/

/-- C16, as stated, fails: the ability list of GOD gear holds a fourth name,
"Holy Armor", which the ability table does not have, and the list of DEMON
gear starts with "Soul Steal", not with "Poison". -/
theorem god_gear_lists_holy_armor :
    "Holy Armor" ∈ (chooseStartingGear 2).abilities ∧
    ¬ ((chooseStartingGear 2).abilities = ["Restrain", "Holy Takedown", "Divine Protection"]) ∧
    ¬ ((chooseStartingGear 1).abilities
        = ["Poison", "Multi-Attack", "Soul Steal", "Death Blow"]) := by
  decide

/-- C16, amended: the ability list of a gear built by the constructor depends
on its level alone: empty for NORMAL; "Soul Steal", "Poison", "Multi-Attack",
"Death Blow", in this order, for DEMON; "Restrain", "Holy Armor",
"Holy Takedown", "Divine Protection", in this order, for GOD. -/
theorem abilities_depend_on_level_alone (n : String) (t : GearType) (l : GearLevel) :
    (Gear.mkGear n t l).abilities =
      match l with
      | GearLevel.NORMAL => []
      | GearLevel.DEMON => ["Soul Steal", "Poison", "Multi-Attack", "Death Blow"]
      | GearLevel.GOD => ["Restrain", "Holy Armor", "Holy Takedown", "Divine Protection"] := by
  cases t <;> cases l <;> rfl

/-- C17: `equipGear` raises `maxHealth` and `currentHealth` by the gear's
`healthBonus`, installs the gear and changes no other field; afterwards
`takeDamage` (for the defender and for the attacker), `heal` and the poison
tick leave `maxHealth` as it is. -/
theorem equipGear_raises_health_once (c : Character) (g : Gear) :
    (c.equipGear g).maxHealth = c.maxHealth + g.healthBonus ∧
    (c.equipGear g).currentHealth = c.currentHealth + g.healthBonus ∧
    (c.equipGear g).equippedGear = some g ∧
    c.equipGear g =
      { c with equippedGear := some g, maxHealth := c.maxHealth + g.healthBonus,
               currentHealth := c.currentHealth + g.healthBonus } ∧
    ((c.equipGear g).name = c.name ∧ (c.equipGear g).baseDamage = c.baseDamage ∧
      (c.equipGear g).armor = c.armor ∧ (c.equipGear g).souls = c.souls ∧
      (c.equipGear g).worshippers = c.worshippers ∧
      (c.equipGear g).isPoisoned = c.isPoisoned ∧
      (c.equipGear g).poisonTurns = c.poisonTurns ∧
      (c.equipGear g).isRestrained = c.isRestrained) ∧
    (∀ (damage : Int) (attacker : Option Character) (rs : RandStream),
      ((c.equipGear g).takeDamage damage attacker rs).self.maxHealth
        = c.maxHealth + g.healthBonus) ∧
    (∀ (damage : Int) (defender : Character) (rs : RandStream),
      ((defender.takeDamage damage (some (c.equipGear g)) rs).attacker.map
        (fun a => a.maxHealth)) = some (c.maxHealth + g.healthBonus)) ∧
    (∀ amount : Int, ((c.equipGear g).heal amount).maxHealth = c.maxHealth + g.healthBonus) ∧
    (∀ rs : RandStream, (poisonTick (c.equipGear g) rs).1.maxHealth
      = c.maxHealth + g.healthBonus) := by
  refine ⟨rfl, rfl, rfl, rfl, ⟨rfl, rfl, rfl, rfl, rfl, rfl, rfl, rfl⟩, ?_, ?_, fun _ => rfl, ?_⟩
  · intro damage attacker rs
    exact (takeDamage_self_le (c.equipGear g) damage attacker rs).2
  · intro damage defender rs
    obtain ⟨h, hh⟩ := takeDamage_attacker_frame defender (c.equipGear g) damage rs
    rw [hh]
    rfl
  · intro rs
    obtain ⟨h, p, t, hh⟩ := poisonTick_frame (c.equipGear g) rs
    rw [hh]
    rfl

/-! ## Abilities (C18, C19, C20) -/

/-- C18: Divine Protection used by a GOD-gear player raises `worshippers` by 1,
sets `currentHealth` to `min(currentHealth + 15, maxHealth)`, changes nothing
else of the player and no enemy, and so raises the player's effective damage
by exactly 5 whatever the health. It is entry 4 of the GOD ability menu. -/
theorem divine_protection_adds_worshipper (g : Game) (gear : Gear)
    (hg : g.player.equippedGear = some gear) (hl : gear.level = GearLevel.GOD) :
    g.useDivineProtection.player.worshippers = g.player.worshippers + 1 ∧
    g.useDivineProtection.player.currentHealth
      = min (g.player.currentHealth + 15) g.player.maxHealth ∧
    g.useDivineProtection.player =
      { g.player with worshippers := g.player.worshippers + 1,
                      currentHealth := min (g.player.currentHealth + 15) g.player.maxHealth } ∧
    g.useDivineProtection.enemies = g.enemies ∧
    g.useDivineProtection.player.getTotalDamage = g.player.getTotalDamage + 5 ∧
    (∀ rest : List Int, gear.abilities = (chooseStartingGear 2).abilities →
      g.input = 4 :: rest →
      g.useSpecialAbility = some (Game.useDivineProtection { g with input := rest })) := by
  refine ⟨rfl, rfl, rfl, rfl, ?_, ?_⟩
  · simp only [Game.useDivineProtection, Character.heal, Character.getTotalDamage, hg, hl]
    simp
    ring
  · intro rest hab hin
    simp only [Game.useSpecialAbility, hg, hab, Game.readInt, hin]
    rfl

/-- Witness for C18: the God-Spear player at 100/135 health with 2 worshippers. -/
theorem divine_protection_adds_worshipper_witness :
    (Game.useDivineProtection
      { initializeGame "Hero" 2 [] (fun _ => 0) (fun _ => 0) with
        player := { godPlayer with currentHealth := 100, worshippers := 2 } }).player.getTotalDamage
      = ({ godPlayer with currentHealth := 100, worshippers := 2 } : Character).getTotalDamage + 5 :=
  (divine_protection_adds_worshipper
    { initializeGame "Hero" 2 [] (fun _ => 0) (fun _ => 0) with
      player := { godPlayer with currentHealth := 100, worshippers := 2 } }
    (chooseStartingGear 2) rfl (by decide)).2.2.2.2.1

/-- The Soul Steal loop adds one soul per enemy below the threshold, hits each
of them with `takeDamage(10)` without attacker and leaves the others alone. -/
theorem soulStealLoop_spec (souls : Int) (es : List Character) (rs : RandStream) :
    (soulStealLoop souls es rs).1
        = souls + ((es.filter
            (fun e => decide (10 * e.currentHealth < 3 * e.maxHealth))).length : Int) ∧
    (∀ (i : Nat) (e : Character), es[i]? = some e →
      (10 * e.currentHealth < 3 * e.maxHealth →
        ∃ rs1, (soulStealLoop souls es rs).2.1[i]? = some (e.takeDamage 10 none rs1).self) ∧
      (¬ 10 * e.currentHealth < 3 * e.maxHealth →
        (soulStealLoop souls es rs).2.1[i]? = some e)) := by
  induction es generalizing souls rs with
  | nil => exact ⟨by simp [soulStealLoop], fun i e he => by simp at he⟩
  | cons x xs ih =>
    by_cases hx : 10 * x.currentHealth < 3 * x.maxHealth
    · obtain ⟨h1, h2⟩ := ih (souls + 1) (x.takeDamage 10 none rs).rand
      constructor
      · simp only [soulStealLoop, hx, if_true, h1, decide_True, List.filter_cons_of_pos,
          List.length_cons]
        push_cast
        ring
      · intro i e he
        cases i with
        | zero =>
          simp only [List.getElem?_cons_zero, Option.some.injEq] at he
          subst he
          exact ⟨fun _ => ⟨rs, by simp [soulStealLoop, hx]⟩, fun hn => absurd hx hn⟩
        | succ j =>
          simp only [List.getElem?_cons_succ] at he
          simpa [soulStealLoop, hx] using h2 j e he
    · obtain ⟨h1, h2⟩ := ih souls rs
      constructor
      · simp [soulStealLoop, hx, h1]
      · intro i e he
        cases i with
        | zero =>
          simp only [List.getElem?_cons_zero, Option.some.injEq] at he
          subst he
          exact ⟨fun h => absurd h hx, fun _ => by simp [soulStealLoop, hx]⟩
        | succ j =>
          simp only [List.getElem?_cons_succ] at he
          simpa [soulStealLoop, hx] using h2 j e he

/-- C19: Soul Steal raises the player's souls by the number of enemies of the
roster with `10 * currentHealth < 3 * maxHealth`, applies one `takeDamage(10)`
without attacker to each of those enemies, leaves every other enemy unchanged
and changes nothing of the player but the souls, so the player's health is
unchanged. -/
theorem soul_steal_counts_weakened_enemies (g : Game) :
    g.useSoulSteal.player.souls
        = g.player.souls + ((g.enemies.filter
            (fun e => decide (10 * e.currentHealth < 3 * e.maxHealth))).length : Int) ∧
    g.useSoulSteal.player = { g.player with souls := g.useSoulSteal.player.souls } ∧
    g.useSoulSteal.player.currentHealth = g.player.currentHealth ∧
    g.useSoulSteal.enemies.length = g.enemies.length ∧
    (∀ (i : Nat) (e : Character), g.enemies[i]? = some e →
      (10 * e.currentHealth < 3 * e.maxHealth →
        ∃ rs, g.useSoulSteal.enemies[i]? = some (e.takeDamage 10 none rs).self) ∧
      (¬ 10 * e.currentHealth < 3 * e.maxHealth → g.useSoulSteal.enemies[i]? = some e)) := by
  obtain ⟨h1, h2⟩ := soulStealLoop_spec g.player.souls g.enemies g.crand
  exact ⟨h1, rfl, rfl, soulStealLoop_length _ _ _, h2⟩

/-- Witness for C19: Soul Steal from the starting state with the Goblin at
10/60 health takes one soul. -/
theorem soul_steal_counts_weakened_enemies_witness :
    (Game.useSoulSteal
      { initializeGame "Hero" 1 [] (fun _ => 0) (fun _ => 0) with
        enemies := [{ goblin with currentHealth := 10 }, demonKnight, angelGuardian] }).player.souls
      = 1 := by
  rw [(soul_steal_counts_weakened_enemies _).1]
  decide

/-- C20: `useSpecialAbility` is a no-op, apart from consuming the menu choice,
for every ability name that the dispatch does not map (every name other than
the six mapped ones, among them "Death Blow" of the DEMON list and
"Holy Armor" of the GOD list) and for every menu choice out of range; without
gear or without abilities it reads nothing and changes nothing. -/
theorem unmapped_ability_is_noop :
    (∀ (g : Game) (ability : String),
      ability ∉ ["Poison", "Multi-Attack", "Restrain", "Holy Takedown", "Soul Steal",
        "Divine Protection"] →
      g.dispatchAbility ability = some g) ∧
    (∀ (g : Game) (gear : Gear) (choice : Int) (rest : List Int) (ability : String),
      g.player.equippedGear = some gear → g.input = choice :: rest → 1 ≤ choice →
      gear.abilities[(choice - 1).toNat]? = some ability →
      ability ∉ ["Poison", "Multi-Attack", "Restrain", "Holy Takedown", "Soul Steal",
        "Divine Protection"] →
      g.useSpecialAbility = some { g with input := rest }) ∧
    (∀ (g : Game) (gear : Gear) (choice : Int) (rest : List Int),
      g.player.equippedGear = some gear → gear.abilities ≠ [] → g.input = choice :: rest →
      choice < 1 ∨ (gear.abilities.length : Int) < choice →
      g.useSpecialAbility = some { g with input := rest }) ∧
    (∀ (g : Game) (rest : List Int), g.input = 4 :: rest →
      g.player.equippedGear = some (chooseStartingGear 1) →
      g.useSpecialAbility = some { g with input := rest }) ∧
    (∀ (g : Game) (rest : List Int), g.input = 2 :: rest →
      g.player.equippedGear = some (chooseStartingGear 2) →
      g.useSpecialAbility = some { g with input := rest }) ∧
    (∀ g : Game, g.player.equippedGear = none → g.useSpecialAbility = some g) ∧
    (∀ (g : Game) (gear : Gear), g.player.equippedGear = some gear → gear.abilities = [] →
      g.useSpecialAbility = some g) := by
  have hdisp : ∀ (g : Game) (ability : String),
      ability ∉ ["Poison", "Multi-Attack", "Restrain", "Holy Takedown", "Soul Steal",
        "Divine Protection"] →
      g.dispatchAbility ability = some g := by
    intro g ability h
    simp only [List.mem_cons, List.mem_singleton, not_or, List.not_mem_nil, or_false] at h
    obtain ⟨h1, h2, h3, h4, h5, h6⟩ := h
    simp only [Game.dispatchAbility, h1, h2, h3, h4, h5, h6, if_false]
  have hmapped : ∀ (g : Game) (gear : Gear) (choice : Int) (rest : List Int) (ability : String),
      g.player.equippedGear = some gear → g.input = choice :: rest → 1 ≤ choice →
      gear.abilities[(choice - 1).toNat]? = some ability →
      ability ∉ ["Poison", "Multi-Attack", "Restrain", "Holy Takedown", "Soul Steal",
        "Divine Protection"] →
      g.useSpecialAbility = some { g with input := rest } := by
    intro g gear choice rest ability hg hin hc hab hnot
    have hlen : (choice - 1).toNat < gear.abilities.length := by
      by_contra hge
      rw [List.getElem?_eq_none (by omega)] at hab
      exact Option.noConfusion hab
    have hne : gear.abilities.isEmpty = false := by
      cases hq : gear.abilities with
      | nil => rw [hq] at hlen; simp at hlen
      | cons x xs => rfl
    have hrange : ¬ (choice < 1 ∨ (gear.abilities.length : Int) < choice) := by omega
    simp only [Game.useSpecialAbility, hg, hne, Game.readInt, hin, hrange, if_false, hab]
    exact hdisp _ ability hnot
  refine ⟨hdisp, hmapped, ?_, ?_, ?_, ?_, ?_⟩
  · intro g gear choice rest hg hne hin hrange
    have hne2 : gear.abilities.isEmpty = false := by
      cases hq : gear.abilities with
      | nil => exact absurd hq hne
      | cons x xs => rfl
    simp only [Game.useSpecialAbility, hg, hne2, Game.readInt, hin, hrange, if_true]
    rfl
  · intro g rest hin hg
    exact hmapped g _ 4 rest "Death Blow" hg hin (by decide) (by decide) (by decide)
  · intro g rest hin hg
    exact hmapped g _ 2 rest "Holy Armor" hg hin (by decide) (by decide) (by decide)
  · intro g hg
    simp only [Game.useSpecialAbility, hg]
  · intro g gear hg hab
    simp only [Game.useSpecialAbility, hg, hab]
    rfl

/-- Witness for C20: the Demon-Sword player choosing entry 4, "Death Blow". -/
theorem unmapped_ability_is_noop_witness :
    Game.useSpecialAbility (initializeGame "Hero" 1 [4, 1] (fun _ => 0) (fun _ => 0))
      = some (initializeGame "Hero" 1 [1] (fun _ => 0) (fun _ => 0)) :=
  unmapped_ability_is_noop.2.2.2.1 (initializeGame "Hero" 1 [4, 1] (fun _ => 0) (fun _ => 0))
    [1] rfl rfl

/-! ## Invalid target selections (C21) -/

/-- The menu loop over a roster of `n` enemies evaluates only subscripts within
`0 .. n - 1`. -/
theorem menuSubscripts_mem (reads n : Nat) (k : Int) (h : k ∈ menuSubscripts reads n) :
    0 ≤ k ∧ k < (n : Int) := by
  induction n with
  | zero => simp [menuSubscripts] at h
  | succ m ih =>
    simp only [menuSubscripts, List.mem_append, List.mem_replicate] at h
    rcases h with h | ⟨_, h⟩
    · have := ih h
      omega
    · omega

/-- With an empty roster a targeted operation evaluates no subscript. -/
theorem targetSubscripts_empty (a b : Nat) (g : Game) (h : g.enemies = []) :
    g.targetSubscripts a b = [] := by
  simp [Game.targetSubscripts, h]

/-- With a selection out of range a targeted operation evaluates the
subscripts of its menu loop and no other. -/
theorem targetSubscripts_out_of_range (a b : Nat) (g : Game) (choice : Int) (rest : List Int)
    (hne : g.enemies ≠ []) (hin : g.input = choice :: rest)
    (hout : choice ≤ 0 ∨ (g.enemies.length : Int) < choice) :
    g.targetSubscripts a b = menuSubscripts a g.enemies.length := by
  have hemp : g.enemies.isEmpty = false := by
    cases hq : g.enemies with
    | nil => exact absurd hq hne
    | cons x xs => rfl
  have hrange : ¬ (0 < choice ∧ choice ≤ (g.enemies.length : Int)) := by omega
  simp [Game.targetSubscripts, hemp, Game.readInt, hin, hrange]

/-- With a selection in range a targeted operation evaluates, after the
subscripts of its menu loop, the subscript `choice - 1`. -/
theorem targetSubscripts_in_range (a b : Nat) (g : Game) (choice : Int) (rest : List Int)
    (hin : g.input = choice :: rest)
    (hrange : 0 < choice ∧ choice ≤ (g.enemies.length : Int)) :
    g.targetSubscripts a b
      = menuSubscripts a g.enemies.length ++ List.replicate b (choice - 1) := by
  have hemp : g.enemies.isEmpty = false := by
    cases hq : g.enemies with
    | nil => rw [hq] at hrange; simp at hrange; omega
    | cons x xs => rfl
  simp [Game.targetSubscripts, hemp, Game.readInt, hin, hrange]

/-- C21: for a roster of `n` enemies and a target selection outside `1 .. n`
(zero, negative or greater than `n`), `performAttack`, `usePoisonAbility`,
`useRestrain` and `useHolyTakedown` leave the player and every enemy unchanged:
the state differs only by the consumed selection. They never evaluate
`enemies[choice - 1]`: the only subscripts evaluated are those of the menu
listing, all within `0 .. n - 1`. With an empty roster the four operations
return the state as it is, read nothing and evaluate no subscript. -/
theorem invalid_target_is_noop (g : Game) :
    (g.enemies = [] →
      (g.performAttack = some g ∧ g.usePoisonAbility = some g ∧
        g.useRestrain = some g ∧ g.useHolyTakedown = some g) ∧
      (g.performAttackSubscripts = [] ∧ g.usePoisonAbilitySubscripts = [] ∧
        g.useRestrainSubscripts = [] ∧ g.useHolyTakedownSubscripts = [])) ∧
    (∀ (choice : Int) (rest : List Int), g.enemies ≠ [] → g.input = choice :: rest →
      choice ≤ 0 ∨ (g.enemies.length : Int) < choice →
      (g.performAttack = some { g with input := rest } ∧
        g.usePoisonAbility = some { g with input := rest } ∧
        g.useRestrain = some { g with input := rest } ∧
        g.useHolyTakedown = some { g with input := rest }) ∧
      (g.performAttackSubscripts = menuSubscripts 3 g.enemies.length ∧
        g.usePoisonAbilitySubscripts = menuSubscripts 1 g.enemies.length ∧
        g.useRestrainSubscripts = menuSubscripts 1 g.enemies.length ∧
        g.useHolyTakedownSubscripts = menuSubscripts 1 g.enemies.length) ∧
      (∀ k, k ∈ g.performAttackSubscripts ++ g.usePoisonAbilitySubscripts ++
            g.useRestrainSubscripts ++ g.useHolyTakedownSubscripts →
        0 ≤ k ∧ k < (g.enemies.length : Int) ∧ k ≠ choice - 1)) := by
  constructor
  · intro he
    refine ⟨⟨?_, ?_, ?_, ?_⟩, targetSubscripts_empty _ _ g he, targetSubscripts_empty _ _ g he,
      targetSubscripts_empty _ _ g he, targetSubscripts_empty _ _ g he⟩
    · simp [Game.performAttack, he]
    · simp [Game.usePoisonAbility, he]
    · simp [Game.useRestrain, he]
    · simp [Game.useHolyTakedown, he]
  · intro choice rest hne hin hout
    have hemp : g.enemies.isEmpty = false := by
      cases hq : g.enemies with
      | nil => exact absurd hq hne
      | cons x xs => rfl
    have hrange : ¬ (0 < choice ∧ choice ≤ (g.enemies.length : Int)) := by omega
    have h1 := targetSubscripts_out_of_range 3 1 g choice rest hne hin hout
    have h2 := targetSubscripts_out_of_range 1 3 g choice rest hne hin hout
    have h3 := targetSubscripts_out_of_range 1 2 g choice rest hne hin hout
    have h4 := targetSubscripts_out_of_range 1 1 g choice rest hne hin hout
    refine ⟨⟨?_, ?_, ?_, ?_⟩, ⟨h1, h2, h3, h4⟩, ?_⟩
    · simp only [Game.performAttack, hemp, Game.readInt, hin, hrange, if_false]
      rfl
    · simp only [Game.usePoisonAbility, hemp, Game.readInt, hin, hrange, if_false]
      rfl
    · simp only [Game.useRestrain, hemp, Game.readInt, hin, hrange, if_false]
      rfl
    · simp only [Game.useHolyTakedown, hemp, Game.readInt, hin, hrange, if_false]
      rfl
    · intro k hk
      simp only [Game.performAttackSubscripts, Game.usePoisonAbilitySubscripts,
        Game.useRestrainSubscripts, Game.useHolyTakedownSubscripts, h1, h2, h3, h4,
        List.mem_append] at hk
      have hm : ∃ r, k ∈ menuSubscripts r g.enemies.length := by
        rcases hk with ((hk | hk) | hk) | hk
        · exact ⟨_, hk⟩
        · exact ⟨_, hk⟩
        · exact ⟨_, hk⟩
        · exact ⟨_, hk⟩
      obtain ⟨r, hr⟩ := hm
      have := menuSubscripts_mem r g.enemies.length k hr
      omega

/-- Witness for C21: from the starting state (three enemies) the selections 4,
0 and -1 of `performAttack`, `usePoisonAbility` and `useHolyTakedown` only
consume the selection, and `performAttack` with selection 4 evaluates the nine
menu subscripts. -/
theorem invalid_target_is_noop_witness :
    Game.performAttack (initializeGame "Hero" 1 [4, 1] (fun _ => 0) (fun _ => 0))
        = some (initializeGame "Hero" 1 [1] (fun _ => 0) (fun _ => 0)) ∧
      Game.usePoisonAbility (initializeGame "Hero" 1 [0, 1] (fun _ => 0) (fun _ => 0))
        = some (initializeGame "Hero" 1 [1] (fun _ => 0) (fun _ => 0)) ∧
      Game.useHolyTakedown (initializeGame "Hero" 2 [-1, 1] (fun _ => 0) (fun _ => 0))
        = some (initializeGame "Hero" 2 [1] (fun _ => 0) (fun _ => 0)) ∧
      Game.performAttackSubscripts (initializeGame "Hero" 1 [4, 1] (fun _ => 0) (fun _ => 0))
        = [0, 0, 0, 1, 1, 1, 2, 2, 2] :=
  ⟨((invalid_target_is_noop (initializeGame "Hero" 1 [4, 1] (fun _ => 0) (fun _ => 0))).2
      4 [1] (by decide) rfl (by decide)).1.1,
   ((invalid_target_is_noop (initializeGame "Hero" 1 [0, 1] (fun _ => 0) (fun _ => 0))).2
      0 [1] (by decide) rfl (by decide)).1.2.1,
   ((invalid_target_is_noop (initializeGame "Hero" 2 [-1, 1] (fun _ => 0) (fun _ => 0))).2
      (-1) [1] (by decide) rfl (by decide)).1.2.2.2,
   ((invalid_target_is_noop (initializeGame "Hero" 1 [4, 1] (fun _ => 0) (fun _ => 0))).2
      4 [1] (by decide) rfl (by decide)).2.1.1⟩

/-! ## The poison invariant (C22) -/

/-- A freshly poisoned actor satisfies the poison invariant. -/
theorem poisonConsistent_fresh (c : Character) :
    ({ c with isPoisoned := true, poisonTurns := 3 } : Character).poisonConsistent := by
  simp [Character.poisonConsistent]

/-- A hit keeps the poison invariant of the defender. -/
theorem takeDamage_self_poisonConsistent (self : Character) (damage : Int)
    (attacker : Option Character) (rs : RandStream) (h : self.poisonConsistent) :
    (self.takeDamage damage attacker rs).self.poisonConsistent := by
  obtain ⟨x, hx⟩ := takeDamage_self_frame self damage attacker rs
  rw [hx]
  exact h

/-- A hit keeps the poison invariant of the attacker. -/
theorem takeDamage_attacker_poisonConsistent (self a : Character) (damage : Int)
    (rs : RandStream) (h : a.poisonConsistent) :
    ((self.takeDamage damage (some a) rs).attacker.getD a).poisonConsistent := by
  obtain ⟨x, hx⟩ := takeDamage_attacker_getD self a damage rs
  rw [hx]
  exact h

/-- Replacing one enemy by an actor that satisfies the poison invariant keeps
the invariant of the roster. -/
theorem set_poisonConsistent (es : List Character) (i : Nat) (c : Character)
    (h : ∀ e ∈ es, e.poisonConsistent) (hc : c.poisonConsistent) :
    ∀ e ∈ es.set i c, e.poisonConsistent := by
  intro e he
  rcases List.mem_or_eq_of_mem_set he with h1 | h1
  · exact h e h1
  · rw [h1]
    exact hc

/-- One tick keeps the poison invariant. -/
theorem poisonTick_poisonConsistent (c : Character) (rs : RandStream)
    (h : c.poisonConsistent) : (poisonTick c rs).1.poisonConsistent := by
  by_cases hp : c.isPoisoned = true
  · obtain ⟨h1, h2, h3⟩ := h
    obtain ⟨t1, t2, _⟩ := poisonTick_countdown c rs (c.poisonTurns - 1) hp (by omega)
    have hpos := h1.mp hp
    unfold Character.poisonConsistent
    rw [t1, t2]
    refine ⟨by simp, by omega, by omega⟩
  · rw [poisonTick_not_poisoned c rs (by simpa using hp)]
    exact h

/-- The tick of the whole roster keeps the poison invariant. -/
theorem poisonTickAll_poisonConsistent (es : List Character) (rs : RandStream)
    (h : ∀ e ∈ es, e.poisonConsistent) :
    ∀ e ∈ (poisonTickAll es rs).1, e.poisonConsistent := by
  induction es generalizing rs with
  | nil => intro e he; simp [poisonTickAll] at he
  | cons x xs ih =>
    intro e he
    simp only [poisonTickAll, List.mem_cons] at he
    rcases he with he | he
    · rw [he]
      exact poisonTick_poisonConsistent x rs (h x (List.mem_cons_self _ _))
    · exact ih _ (fun e he => h e (List.mem_cons_of_mem _ he)) e he

/-- `processPoison` keeps the poison invariant. -/
theorem processPoison_poisonConsistent (g : Game) (h : g.poisonConsistent) :
    g.processPoison.poisonConsistent :=
  ⟨poisonTick_poisonConsistent g.player g.crand h.1,
   poisonTickAll_poisonConsistent g.enemies _ h.2⟩

/-- `performAttack` keeps the poison invariant. -/
theorem performAttack_poisonConsistent (g g' : Game) (h : g.performAttack = some g')
    (hg : g.poisonConsistent) : g'.poisonConsistent := by
  unfold Game.performAttack at h
  split at h
  · cases h; exact hg
  · split at h
    · cases h
    · rename_i choice g1 hread
      obtain ⟨rest, _, hg1⟩ := readInt_some g g1 choice hread
      subst hg1
      split at h
      · split at h
        · cases h; exact hg
        · rename_i target htarget
          cases h
          have ht : target ∈ g.enemies := List.getElem?_mem htarget
          exact ⟨takeDamage_attacker_poisonConsistent _ _ _ _ hg.1,
            set_poisonConsistent _ _ _ hg.2
              (takeDamage_self_poisonConsistent _ _ _ _ (hg.2 _ ht))⟩
      · cases h; exact hg

/-- `useHolyTakedown` keeps the poison invariant. -/
theorem useHolyTakedown_poisonConsistent (g g' : Game) (h : g.useHolyTakedown = some g')
    (hg : g.poisonConsistent) : g'.poisonConsistent := by
  unfold Game.useHolyTakedown at h
  split at h
  · cases h; exact hg
  · split at h
    · cases h
    · rename_i choice g1 hread
      obtain ⟨rest, _, hg1⟩ := readInt_some g g1 choice hread
      subst hg1
      split at h
      · split at h
        · cases h; exact hg
        · rename_i target htarget
          cases h
          have ht : target ∈ g.enemies := List.getElem?_mem htarget
          exact ⟨takeDamage_attacker_poisonConsistent _ _ _ _ hg.1,
            set_poisonConsistent _ _ _ hg.2
              (takeDamage_self_poisonConsistent _ _ _ _ (hg.2 _ ht))⟩
      · cases h; exact hg

/-- `usePoisonAbility` keeps the poison invariant. -/
theorem usePoisonAbility_poisonConsistent (g g' : Game) (h : g.usePoisonAbility = some g')
    (hg : g.poisonConsistent) : g'.poisonConsistent := by
  unfold Game.usePoisonAbility at h
  split at h
  · cases h; exact hg
  · split at h
    · cases h
    · rename_i choice g1 hread
      obtain ⟨rest, _, hg1⟩ := readInt_some g g1 choice hread
      subst hg1
      split at h
      · split at h
        · cases h; exact hg
        · rename_i target htarget
          cases h
          exact ⟨hg.1, set_poisonConsistent _ _ _ hg.2 (poisonConsistent_fresh target)⟩
      · cases h; exact hg

/-- `useRestrain` keeps the poison invariant. -/
theorem useRestrain_poisonConsistent (g g' : Game) (h : g.useRestrain = some g')
    (hg : g.poisonConsistent) : g'.poisonConsistent := by
  unfold Game.useRestrain at h
  split at h
  · cases h; exact hg
  · split at h
    · cases h
    · rename_i choice g1 hread
      obtain ⟨rest, _, hg1⟩ := readInt_some g g1 choice hread
      subst hg1
      split at h
      · split at h
        · cases h; exact hg
        · rename_i target htarget
          cases h
          have ht : target ∈ g.enemies := List.getElem?_mem htarget
          have hc : target.poisonConsistent := hg.2 _ ht
          exact ⟨hg.1, set_poisonConsistent _ _ _ hg.2 hc⟩
      · cases h; exact hg

/-- The Multi-Attack loop keeps the poison invariant of the player and of the
roster. -/
theorem multiAttackLoop_poisonConsistent (damage : Int) (p : Character) (es : List Character)
    (rs : RandStream) (hp : p.poisonConsistent) (hes : ∀ e ∈ es, e.poisonConsistent) :
    (multiAttackLoop damage p es rs).1.poisonConsistent ∧
      ∀ e ∈ (multiAttackLoop damage p es rs).2.1, e.poisonConsistent := by
  induction es generalizing p rs with
  | nil => exact ⟨hp, fun e he => by simp [multiAttackLoop] at he⟩
  | cons x xs ih =>
    have hx := takeDamage_self_poisonConsistent x damage (some p) rs
      (hes x (List.mem_cons_self _ _))
    have hp1 := takeDamage_attacker_poisonConsistent x p damage rs hp
    obtain ⟨a, b⟩ := ih ((x.takeDamage damage (some p) rs).attacker.getD p)
      (x.takeDamage damage (some p) rs).rand hp1 (fun e he => hes e (List.mem_cons_of_mem _ he))
    refine ⟨a, ?_⟩
    intro e he
    simp only [multiAttackLoop, List.mem_cons] at he
    rcases he with he | he
    · rw [he]
      exact hx
    · exact b e he

/-- The Soul Steal loop keeps the poison invariant of the roster. -/
theorem soulStealLoop_poisonConsistent (souls : Int) (es : List Character) (rs : RandStream)
    (hes : ∀ e ∈ es, e.poisonConsistent) :
    ∀ e ∈ (soulStealLoop souls es rs).2.1, e.poisonConsistent := by
  induction es generalizing souls rs with
  | nil => intro e he; simp [soulStealLoop] at he
  | cons x xs ih =>
    have hx := hes x (List.mem_cons_self _ _)
    have hxs : ∀ e ∈ xs, e.poisonConsistent := fun e he => hes e (List.mem_cons_of_mem _ he)
    intro e he
    simp only [soulStealLoop] at he
    split_ifs at he
    · simp only [List.mem_cons] at he
      rcases he with he | he
      · rw [he]
        exact takeDamage_self_poisonConsistent x 10 none rs hx
      · exact ih _ _ hxs e he
    · simp only [List.mem_cons] at he
      rcases he with he | he
      · rw [he]
        exact hx
      · exact ih _ _ hxs e he

/-- The ability dispatch keeps the poison invariant. -/
theorem dispatchAbility_poisonConsistent (g g' : Game) (ability : String)
    (h : g.dispatchAbility ability = some g') (hg : g.poisonConsistent) :
    g'.poisonConsistent := by
  unfold Game.dispatchAbility at h
  split_ifs at h
  · exact usePoisonAbility_poisonConsistent g g' h hg
  · cases h
    exact multiAttackLoop_poisonConsistent _ _ _ _ hg.1 hg.2
  · exact useRestrain_poisonConsistent g g' h hg
  · exact useHolyTakedown_poisonConsistent g g' h hg
  · cases h
    exact ⟨hg.1, soulStealLoop_poisonConsistent _ _ _ hg.2⟩
  · cases h
    exact hg
  · cases h
    exact hg

/-- `useSpecialAbility` keeps the poison invariant. -/
theorem useSpecialAbility_poisonConsistent (g g' : Game) (h : g.useSpecialAbility = some g')
    (hg : g.poisonConsistent) : g'.poisonConsistent := by
  unfold Game.useSpecialAbility at h
  split at h
  · cases h; exact hg
  · split at h
    · cases h; exact hg
    · split at h
      · cases h
      · rename_i choice g1 hread
        obtain ⟨rest, _, hg1⟩ := readInt_some g g1 choice hread
        subst hg1
        split at h
        · cases h; exact hg
        · split at h
          · cases h; exact hg
          · exact dispatchAbility_poisonConsistent _ g' _ h hg

/-- `playerTurn` keeps the poison invariant. -/
theorem playerTurn_poisonConsistent (g g' : Game) (h : g.playerTurn = some g')
    (hg : g.poisonConsistent) : g'.poisonConsistent := by
  generalize hn : g.input.length = n
  induction n generalizing g with
  | zero =>
    by_cases hr : g.player.isRestrained = true
    · rw [Game.playerTurn] at h
      simp only [hr, if_true, Option.some.injEq] at h
      subst h
      exact hg
    · have hin : g.input = [] := List.length_eq_zero.mp hn
      obtain ⟨player, enemies, turn, input, crand, rng⟩ := g
      simp only at hin hr
      subst hin
      rw [Game.playerTurn] at h
      simp [hr] at h
  | succ m ih =>
    by_cases hr : g.player.isRestrained = true
    · rw [Game.playerTurn] at h
      simp only [hr, if_true, Option.some.injEq] at h
      subst h
      exact hg
    · obtain ⟨choice, rest, hin⟩ : ∃ c r, g.input = c :: r := by
        cases hq : g.input with
        | nil => rw [hq] at hn; simp at hn
        | cons c r => exact ⟨c, r, rfl⟩
      rw [playerTurn_cons g choice rest (by simpa using hr) hin] at h
      split_ifs at h
      · exact performAttack_poisonConsistent { g with input := rest } g' h hg
      · exact useSpecialAbility_poisonConsistent { g with input := rest } g' h hg
      · cases h; exact hg
      · have hl : ({ g with input := rest } : Game).input.length = m := by
          rw [hin] at hn; simpa using hn
        exact ih { g with input := rest } h hg hl
      · cases h; exact hg

/-- The cleanup keeps the poison invariant. -/
theorem removeDeadEnemies_poisonConsistent (g : Game) (hg : g.poisonConsistent) :
    g.removeDeadEnemies.poisonConsistent := by
  refine ⟨hg.1, ?_⟩
  intro e he
  simp only [Game.removeDeadEnemies, removeDead_eq] at he
  exact hg.2 e (List.mem_of_mem_filter he)

/-- An enemy's hit keeps the poison invariant of the player and of the enemy. -/
theorem enemyHits_poisonConsistent (s : TurnState) (enemy : Character) (damage : Int)
    (hp : s.player.poisonConsistent) (he : enemy.poisonConsistent) :
    (enemyHits s enemy damage).1.player.poisonConsistent ∧
      (enemyHits s enemy damage).2.poisonConsistent :=
  ⟨takeDamage_self_poisonConsistent _ _ _ _ hp,
   takeDamage_attacker_poisonConsistent _ _ _ _ he⟩

/-- One enemy's turn, the scripted Demon poison included, keeps the poison
invariant of the player and of the enemy. -/
theorem enemyTurn_poisonConsistent (s : TurnState) (enemy : Character)
    (hp : s.player.poisonConsistent) (he : enemy.poisonConsistent) :
    (enemyTurn s enemy).1.player.poisonConsistent ∧ (enemyTurn s enemy).2.poisonConsistent := by
  have hit : ∀ (s1 : TurnState) (d : Int), s1.player = s.player →
      (enemyHits s1 enemy d).1.player.poisonConsistent ∧
        (enemyHits s1 enemy d).2.poisonConsistent := by
    intro s1 d hs
    exact enemyHits_poisonConsistent s1 enemy d (by rw [hs]; exact hp) he
  simp only [enemyTurn]
  split_ifs
  · exact ⟨hp, he⟩
  · exact ⟨hp, he⟩
  · exact hit _ _ rfl
  · exact ⟨poisonConsistent_fresh s.player, he⟩
  · exact hit _ _ rfl
  · exact hit _ _ rfl
  · exact ⟨hp, he⟩
  · exact hit _ _ rfl
  · exact hit _ _ rfl
  · exact hit _ _ rfl
  · exact ⟨hp, he⟩

/-- The enemy phase keeps the poison invariant of the player and of the
roster. -/
theorem enemyTurnsLoop_poisonConsistent (s : TurnState) (es : List Character)
    (hp : s.player.poisonConsistent) (hes : ∀ e ∈ es, e.poisonConsistent) :
    (enemyTurnsLoop s es).1.player.poisonConsistent ∧
      ∀ e ∈ (enemyTurnsLoop s es).2, e.poisonConsistent := by
  induction es generalizing s with
  | nil => exact ⟨hp, fun e he => by simp [enemyTurnsLoop] at he⟩
  | cons x xs ih =>
    obtain ⟨a, b⟩ := enemyTurn_poisonConsistent s x hp (hes x (List.mem_cons_self _ _))
    obtain ⟨c, d⟩ := ih (enemyTurn s x).1 a (fun e he => hes e (List.mem_cons_of_mem _ he))
    refine ⟨c, ?_⟩
    intro e he
    simp only [enemyTurnsLoop, List.mem_cons] at he
    rcases he with he | he
    · rw [he]
      exact b
    · exact d e he

/-- `enemyTurns` keeps the poison invariant. -/
theorem enemyTurns_poisonConsistent (g : Game) (hg : g.poisonConsistent) :
    g.enemyTurns.poisonConsistent :=
  enemyTurnsLoop_poisonConsistent { player := g.player, crand := g.crand, rng := g.rng }
    g.enemies hg.1 hg.2

/-- One iteration of the loop of `gameLoop` keeps the poison invariant. -/
theorem gameRound_poisonConsistent (g g1 : Game) (h : g.gameRound = some g1)
    (hg : g.poisonConsistent) : g1.poisonConsistent := by
  unfold Game.gameRound at h
  split at h
  · cases h
  · rename_i g2 hturn
    have h2 := playerTurn_poisonConsistent _ g2 hturn (processPoison_poisonConsistent g hg)
    have h3 := removeDeadEnemies_poisonConsistent g2 h2
    simp only [] at h
    split_ifs at h
    · cases h
      exact h3
    · cases h
      exact enemyTurns_poisonConsistent _ h3

/-- Every state inside one iteration of the loop of `gameLoop` satisfies the
poison invariant when the state at its start does. -/
theorem roundStates_poisonConsistent (g : Game) (hg : g.poisonConsistent) :
    ∀ s ∈ g.roundStates, s.poisonConsistent := by
  have h1 := processPoison_poisonConsistent g hg
  intro s hs
  unfold Game.roundStates at hs
  split at hs
  · simp only [List.mem_singleton] at hs
    rw [hs]
    exact h1
  · rename_i g2 hturn
    have h2 := playerTurn_poisonConsistent _ g2 hturn h1
    have h3 := removeDeadEnemies_poisonConsistent g2 h2
    have h4 := enemyTurns_poisonConsistent _ h3
    split_ifs at hs
    · simp only [List.mem_cons, List.mem_singleton, List.not_mem_nil, or_false] at hs
      rcases hs with hs | hs | hs
      · rw [hs]; exact h1
      · rw [hs]; exact h2
      · rw [hs]; exact h3
    · simp only [List.mem_cons, List.mem_singleton, List.not_mem_nil, or_false] at hs
      rcases hs with hs | hs | hs | hs
      · rw [hs]; exact h1
      · rw [hs]; exact h2
      · rw [hs]; exact h3
      · rw [hs]; exact h4

/-- Every state of a match satisfies the poison invariant when the first one
does. -/
theorem matchStates_poisonConsistent (fuel : Nat) (g : Game) (hg : g.poisonConsistent) :
    ∀ s ∈ g.matchStates fuel, s.poisonConsistent := by
  induction fuel generalizing g with
  | zero =>
    intro s hs
    simp only [Game.matchStates, List.mem_singleton] at hs
    rw [hs]
    exact hg
  | succ n ih =>
    intro s hs
    simp only [Game.matchStates] at hs
    split_ifs at hs
    · simp only [List.mem_cons, List.mem_append] at hs
      rcases hs with hs | hs | hs
      · rw [hs]
        exact hg
      · exact roundStates_poisonConsistent g hg s hs
      · split at hs
        · simp at hs
        · rename_i g1 hround
          exact ih g1 (gameRound_poisonConsistent g g1 hround hg) s hs
    · simp only [List.mem_singleton] at hs
      rw [hs]
      exact hg

/-- The state in which `gameLoop` ends is one of the states of the match. -/
theorem gameLoop_mem_matchStates (fuel : Nat) (g final : Game)
    (h : g.gameLoop fuel = some final) : final ∈ g.matchStates fuel := by
  induction fuel generalizing g with
  | zero =>
    simp only [Game.gameLoop] at h
    split_ifs at h
    cases h
    simp [Game.matchStates]
  | succ n ih =>
    simp only [Game.gameLoop] at h
    simp only [Game.matchStates]
    split_ifs at h ⊢
    · split at h
      · cases h
      · rename_i g1 hround
        exact List.mem_cons_of_mem _ (List.mem_append_right _ (ih g1 h))
    · cases h
      exact List.mem_singleton_self _

/-- The state built by `initializeGame` satisfies the poison invariant: every
actor starts with `isPoisoned = false` and `poisonTurns = 0`. -/
theorem initializeGame_poisonConsistent (playerName : String) (gearChoice : Int)
    (input : List Int) (crand rng : RandStream) :
    (initializeGame playerName gearChoice input crand rng).poisonConsistent := by
  simp [Game.poisonConsistent, Character.poisonConsistent, initializeGame, createEnemies,
    newPlayer, Character.mkCharacter, Character.equipGear, goblin, demonKnight, angelGuardian]

/-- C22: every state of a match that starts from `initializeGame`, taken
between two steps of `gameLoop` (after `processPoison`, `playerTurn`, the
cleanup, `enemyTurns`, and at the start of every round), satisfies for the
player and for every enemy: `isPoisoned` holds if and only if
`poisonTurns > 0`, and `0 ≤ poisonTurns ≤ 3`; so does the state in which
`gameLoop` ends. The invariant is preserved by `usePoisonAbility`, by an
enemy's turn (the scripted Demon poison, which sets the player to poisoned with
3 turns) and by `processPoison`. -/
theorem poison_flag_matches_counter :
    (∀ (playerName : String) (gearChoice : Int) (input : List Int) (crand rng : RandStream)
        (fuel : Nat),
      (∀ s ∈ (initializeGame playerName gearChoice input crand rng).matchStates fuel,
        s.poisonConsistent) ∧
      (∀ final, (initializeGame playerName gearChoice input crand rng).gameLoop fuel = some final →
        final.poisonConsistent)) ∧
    (∀ g g' : Game, g.poisonConsistent → g.usePoisonAbility = some g' → g'.poisonConsistent) ∧
    (∀ (s : TurnState) (enemy : Character), s.player.poisonConsistent → enemy.poisonConsistent →
      (enemyTurn s enemy).1.player.poisonConsistent ∧ (enemyTurn s enemy).2.poisonConsistent) ∧
    (∀ (s : TurnState) (enemy : Character), enemy.isAlive = true → enemy.isRestrained = false →
      enemy.hasLevel GearLevel.DEMON = true → s.rng 0 % 10 = 6 ∨ s.rng 0 % 10 = 7 →
      s.player.isPoisoned = false → s.rng 1 % 2 = 0 →
      (enemyTurn s enemy).1.player = { s.player with isPoisoned := true, poisonTurns := 3 }) ∧
    (∀ g : Game, g.poisonConsistent → g.processPoison.poisonConsistent) := by
  refine ⟨?_, ?_, enemyTurn_poisonConsistent, ?_, processPoison_poisonConsistent⟩
  · intro playerName gearChoice input crand rng fuel
    have h0 := initializeGame_poisonConsistent playerName gearChoice input crand rng
    exact ⟨matchStates_poisonConsistent fuel _ h0, fun final hf =>
      matchStates_poisonConsistent fuel _ h0 final (gameLoop_mem_matchStates fuel _ final hf)⟩
  · intro g g' hg h
    exact usePoisonAbility_poisonConsistent g g' h hg
  · intro s enemy ha hr hd hroll hp hcoin
    have hsome : enemy.equippedGear.isSome = true := by
      unfold Character.hasLevel at hd
      cases hq : enemy.equippedGear with
      | none => rw [hq] at hd; simp at hd
      | some x => rfl
    have h6 : ¬ (1 + s.rng 0 % 10 ≤ 6) := by omega
    have h8 : 1 + s.rng 0 % 10 ≤ 8 := by omega
    simp [enemyTurn, ha, hr, hd, h6, h8, hsome, hp, RandStream.tail, hcoin]

/-- Witness for C22: in `reachableMatch` the Demon Knight poisons the player in
round 1, which leaves the player poisoned with 3 turns; two rounds later one
turn is left; and the state in which the match ends after 3 rounds satisfies
the invariant. -/
theorem poison_flag_matches_counter_witness :
    reachableMatch.gameRound.map (fun g => (g.player.isPoisoned, g.player.poisonTurns))
        = some (true, 3) ∧
      (Game.gameLoop 3 reachableMatch).map
          (fun g => (g.player.isPoisoned, g.player.poisonTurns)) = some (true, 1) ∧
      ∃ final, Game.gameLoop 3 reachableMatch = some final ∧ final.poisonConsistent :=
  ⟨by decide!, by decide!, by
    cases h : Game.gameLoop 3 reachableMatch with
    | none => exact absurd (congrArg Option.isSome h) (by decide!)
    | some final =>
      exact ⟨final, rfl,
        (poison_flag_matches_counter.1 "Hero" 1 [2, 3, 2, 3] (fun _ => 50)
          (fun n => if n = 1 ∨ n = 6 then 6 else 0) 3).2 final h⟩⟩

/-! ## The health cap (C23) -/

/-- C23: for every actor with `currentHealth ≤ maxHealth`, `equipGear` with a
gear built by the constructor, `takeDamage` with any incoming damage, attacker
and dodge roll, and `heal` with any amount (negative ones included) leave
`currentHealth ≤ maxHealth`; `takeDamage` never raises the defender's
`currentHealth`, and the attacker it hands back (hit by a Death Blow or not)
stays within its maximum as well. -/
theorem health_never_exceeds_maximum (c : Character) (h : c.currentHealth ≤ c.maxHealth) :
    (∀ n t l, (c.equipGear (Gear.mkGear n t l)).currentHealth
        ≤ (c.equipGear (Gear.mkGear n t l)).maxHealth) ∧
    (∀ damage attacker rs,
      (c.takeDamage damage attacker rs).self.currentHealth
        ≤ (c.takeDamage damage attacker rs).self.maxHealth ∧
      (c.takeDamage damage attacker rs).self.currentHealth ≤ c.currentHealth) ∧
    (∀ amount : Int, (c.heal amount).currentHealth ≤ (c.heal amount).maxHealth) ∧
    (∀ damage (d : Character) rs,
      ∃ c1, (d.takeDamage damage (some c) rs).attacker = some c1 ∧
        c1.currentHealth ≤ c1.maxHealth) := by
  refine ⟨?_, ?_, ?_, ?_⟩
  · intro n t l
    simp only [Character.equipGear]
    omega
  · intro damage attacker rs
    obtain ⟨h2, h3⟩ := takeDamage_self_le c damage attacker rs
    exact ⟨by omega, h2⟩
  · intro amount
    simp only [Character.heal]
    exact min_le_right _ _
  · intro damage d rs
    obtain ⟨c1, hc1, h2, h3⟩ := takeDamage_attacker_le d c damage rs
    exact ⟨c1, hc1, by omega⟩

/-- Witness for C23: the Demon Knight at 40/110 health keeps
`currentHealth ≤ maxHealth` through `heal(-5)`, `heal(500)` and a hit by the
God-Spear player, which does not raise its health. -/
theorem health_never_exceeds_maximum_witness :
    ({ demonKnight with currentHealth := 40 } : Character).currentHealth
        ≤ ({ demonKnight with currentHealth := 40 } : Character).maxHealth ∧
      (Character.heal { demonKnight with currentHealth := 40 } (-5)).currentHealth
        ≤ (Character.heal { demonKnight with currentHealth := 40 } (-5)).maxHealth ∧
      (Character.heal { demonKnight with currentHealth := 40 } 500).currentHealth
        ≤ (Character.heal { demonKnight with currentHealth := 40 } 500).maxHealth ∧
      (Character.takeDamage { demonKnight with currentHealth := 40 } 35 (some godPlayer)
          (fun _ => 0)).self.currentHealth
        ≤ ({ demonKnight with currentHealth := 40 } : Character).currentHealth :=
  ⟨by decide,
   (health_never_exceeds_maximum { demonKnight with currentHealth := 40 } (by decide)).2.2.1 (-5),
   (health_never_exceeds_maximum { demonKnight with currentHealth := 40 } (by decide)).2.2.1 500,
   ((health_never_exceeds_maximum { demonKnight with currentHealth := 40 } (by decide)).2.1
      35 (some godPlayer) (fun _ => 0)).2⟩

end TerminalGame
